import Mathlib

/-! # Gaussian mixture model: a shallow embedding of `gmm_impl.hpp`

The class `GMM<DIM>` of `include/gaussian_mixture/impl/gmm_impl.hpp` is embedded as
explicit state passing over the record `GMM F`.

* Scalars.  `g_float` is `float`, and `priors_` holds `double`s.  The functions in
  which rounding or overflow decides an index or turns a value into an infinity
  (`cluster`, `updateClusters`, `initKmeans`, `draw`, `mostLikelyGauss`) are embedded
  over a scalar type `F` of which only the operations that the code applies are
  assumed: `+`, `-`, `*`, `/`, `<`, the conversion from `int`, and the two mixed
  operations of `PriorArith`.  They are used at two instances.  At `F := FP` the
  operations are those of IEEE 754: binary32 for `g_float`, binary64 where a `double`
  takes part, rounding to nearest with ties to even, gradual underflow, infinities and
  NaN; every operation rounds to the format of its C++ type (`FLT_EVAL_METHOD == 0`, no
  fused multiply-add), and an Eigen expression performs one such operation per
  coefficient.  At a linearly ordered field the operations are exact, and the
  definitions can be run at `F := ℚ`.
* The other functions (`setNumStates`, `initUniformAlongAxis`, `pdf`, the stream and
  message functions) are embedded over a linearly ordered field only: the statements
  about them concern the values up to rounding, or no arithmetic at all.
* `int` values are `Int`; `std::vector` and Eigen containers are `List`s.
* A member function that mutates the object returns the new object.  The result is
  an `Option`: `none` stands for a run that leaves defined behaviour (an index out
  of range, `rand() % 0`), throws (`std::length_error` from `resize`, a stream
  failure) or aborts on a failed `assert`.
* The single-Gaussian class `Gaussian<DIM>` lives in a header of its own; only what
  `gmm_impl.hpp` uses of it is modelled, and its density, stream and message
  functions are parameters.
-/

namespace gmm

/-! ## Data model -/

/-- One byte of a binary stream. -/
abbrev Byte := Fin 256

/-- Stand-in for `Gaussian<DIM>::VectorType`, a column vector with `DIM` entries. -/
abbrev VectorType (F : Type) := List F

/-- Stand-in for `Gaussian<DIM>::MatrixType`, a `DIM × DIM` matrix stored by rows. -/
abbrev MatrixType (F : Type) := List (List F)

/-- Modelled from the spec: the class `Gaussian<DIM>` itself is declared in a header
that is not part of the sources at hand.  The spec (§3, GaussianComponent) gives it a
mean vector and a covariance matrix; `mean()` hands out a reference to the first and
`setMean` / `setCovariance` overwrite the respective field. -/
structure Gaussian (F : Type) where
  mean : VectorType F
  covariance : MatrixType F
deriving DecidableEq, Repr

/-- Member `Gaussian::setMean`: overwrite the mean. -/
def Gaussian.setMean {F : Type} (g : Gaussian F) (v : VectorType F) : Gaussian F :=
  { g with mean := v }

/-- Member `Gaussian::setCovariance`: overwrite the covariance. -/
def Gaussian.setCovariance {F : Type} (g : Gaussian F) (c : MatrixType F) : Gaussian F :=
  { g with covariance := c }

/-- The data members of `GMM<DIM>`: `num_states_`, `initialized_`, `priors_`
(an `Eigen::VectorXd`) and `gaussians_` (a `std::vector<Gaussian<DIM>>`). -/
structure GMM (F : Type) where
  num_states_ : Int
  initialized_ : Bool
  priors_ : List F
  gaussians_ : List (Gaussian F)
deriving DecidableEq, Repr

/-- Constructor `GMM<DIM>::GMM()`: `num_states_(0), initialized_(false)`, both
containers empty. -/
def GMM.new {F : Type} : GMM F :=
  { num_states_ := 0, initialized_ := false, priors_ := [], gaussians_ := [] }

/-- The size invariant of the data model:
`len(components) == len(priors) == numStates`. -/
def GMM.SizesAgree {F : Type} (m : GMM F) : Prop :=
  (m.gaussians_.length : Int) = m.num_states_ ∧ (m.priors_.length : Int) = m.num_states_

instance {F : Type} (m : GMM F) : Decidable m.SizesAgree := by
  unfold GMM.SizesAgree; infer_instance

/-! ## Containers and loops -/

/-- Resizing as `std::vector::resize(n)`: keep the first `n` elements, pad with
default-constructed ones. -/
def resize {α : Type} (l : List α) (n : Nat) (d : α) : List α :=
  l.take n ++ List.replicate (n - l.length) d

/-- Read-modify-write of `l[i]`; `none` when `i` is past the end. -/
def modifyNat {α : Type} (l : List α) (i : Nat) (f : α → α) : Option (List α) :=
  (l[i]?).map (fun x => l.set i (f x))

/-- Read-modify-write of `l[c]` for an `int` index `c`; `none` when `c` is out of
range. -/
def modifyAt {α : Type} (l : List α) (c : Int) (f : α → α) : Option (List α) :=
  if 0 ≤ c then modifyNat l c.toNat f else none

/-- Read of `l[c]` for an `int` index `c`; `none` when `c` is out of range. -/
def readAt {α : Type} (l : List α) (c : Int) : Option α :=
  if 0 ≤ c then l[c.toNat]? else none

/-- The counting loop `for (int i = i0; i < i0 + k; ++i) body(i)` over a state `σ`;
a failing body aborts the loop. -/
def forLoop {σ : Type} (body : Nat → σ → Option σ) : Nat → Nat → σ → Option σ
  | _, 0, s => some s
  | i, k + 1, s => (body i s).bind (forLoop body (i + 1) k)

/-! ## Floating-point arithmetic -/

/-- A binary floating-point format of IEEE 754: `prec` significand bits (the hidden
bit included) and the largest exponent `emax`; the smallest normal exponent is
`1 - emax`. -/
structure Format where
  prec : Nat
  emax : Nat

/-- The format of `float`, which `types.h` names `g_float`. -/
def binary32 : Format := { prec := 24, emax := 127 }

/-- The format of `double`, the element type of `priors_`. -/
def binary64 : Format := { prec := 53, emax := 1023 }

/-- A floating-point datum: a NaN, an infinity, or a finite value given by the
rational number it stands for.  The two zeros are identified (no function of
`gmm_impl.hpp` divides by a floating-point zero or inspects its sign), and so are all
NaNs. -/
inductive FP where
  | nan
  | ninf
  | fin (q : ℚ)
  | pinf
deriving DecidableEq

/-- `⌊log2 n⌋` for `n ≥ 1` by repeated halving; `fuel = n` passes suffice. -/
def log2Fuel : Nat → Nat → Nat
  | 0, _ => 0
  | fuel + 1, n => if n < 2 then 0 else log2Fuel fuel (n / 2) + 1

/-- `⌊log2 (n / d)⌋` for positive `n` and `d`. -/
def floorLog2 (n d : Nat) : Int :=
  let l : Int := (log2Fuel n n : Int) - (log2Fuel d d : Int)
  if d * 2 ^ l.toNat ≤ n * 2 ^ (-l).toNat then l else l - 1

/-- Rounding of a rational number into a format, to nearest with ties to the even
significand (the default rounding mode), with gradual underflow; a result that
exceeds the largest finite value of the format becomes an infinity.  With `e` the
exponent of `x`, the candidates are the multiples of `2 ^ q`,
`q = max e (1 - emax) - (prec - 1)`. -/
def roundTo (f : Format) (x : ℚ) : FP :=
  if x.num = 0 then FP.fin 0
  else
    let n := x.num.natAbs
    let d := x.den
    let q : Int := max (floorLog2 n d) (1 - (f.emax : Int)) - ((f.prec : Int) - 1)
    let N := n * 2 ^ (-q).toNat
    let D := d * 2 ^ q.toNat
    let m := N / D
    let r := N % D
    let m1 := if 2 * r < D then m else if D < 2 * r then m + 1
      else if m % 2 = 0 then m else m + 1
    if 2 ^ (f.emax + 1) * 2 ^ (-q).toNat ≤ m1 * 2 ^ q.toNat then
      (if 0 < x.num then FP.pinf else FP.ninf)
    else
      FP.fin (mkRat (if 0 < x.num then ((m1 * 2 ^ q.toNat : Nat) : Int)
        else -((m1 * 2 ^ q.toNat : Nat) : Int)) (2 ^ (-q).toNat))

/-- Negation. -/
def FP.neg : FP → FP
  | .nan => .nan
  | .ninf => .pinf
  | .fin q => .fin (-q)
  | .pinf => .ninf

/-- Addition in the format `f`: the exact sum, rounded. -/
def FP.add (f : Format) : FP → FP → FP
  | .nan, _ => .nan
  | _, .nan => .nan
  | .pinf, .ninf => .nan
  | .ninf, .pinf => .nan
  | .pinf, _ => .pinf
  | _, .pinf => .pinf
  | .ninf, _ => .ninf
  | _, .ninf => .ninf
  | .fin a, .fin b => roundTo f (a + b)

/-- Subtraction in the format `f`. -/
def FP.sub (f : Format) (a b : FP) : FP := FP.add f a b.neg

/-- The sign of a datum that is not a NaN: `-1`, `0` or `1`. -/
def FP.sign : FP → Int
  | .nan => 0
  | .ninf => -1
  | .fin q => if q.num < 0 then -1 else if q.num = 0 then 0 else 1
  | .pinf => 1

/-- Multiplication in the format `f`: the exact product, rounded; an infinity times
zero is a NaN. -/
def FP.mul (f : Format) : FP → FP → FP
  | .nan, _ => .nan
  | _, .nan => .nan
  | .fin a, .fin b => roundTo f (a * b)
  | a, b =>
    if a.sign * b.sign = 0 then .nan else if 0 < a.sign * b.sign then .pinf else .ninf

/-- Division in the format `f`: the exact quotient, rounded.  A zero divisor counts
as the positive zero. -/
def FP.div (f : Format) : FP → FP → FP
  | .nan, _ => .nan
  | _, .nan => .nan
  | .fin a, .fin b =>
    if b.num = 0 then
      (if a.num = 0 then .nan else if 0 < a.num then .pinf else .ninf)
    else roundTo f (a / b)
  | .fin _, _ => .fin 0
  | .pinf, .fin b => if b.num < 0 then .ninf else .pinf
  | .ninf, .fin b => if b.num < 0 then .pinf else .ninf
  | _, _ => .nan

/-- The comparison `a < b`; false when either side is a NaN. -/
def FP.blt : FP → FP → Bool
  | .nan, _ => false
  | _, .nan => false
  | .ninf, .ninf => false
  | .ninf, _ => true
  | .fin _, .ninf => false
  | .fin a, .fin b => decide (a < b)
  | .fin _, .pinf => true
  | .pinf, _ => false

/-- The comparison `a <= b`; false when either side is a NaN. -/
def FP.ble : FP → FP → Bool
  | .nan, _ => false
  | _, .nan => false
  | .ninf, _ => true
  | .fin _, .ninf => false
  | .fin a, .fin b => decide (a ≤ b)
  | .fin _, .pinf => true
  | .pinf, .pinf => true
  | .pinf, _ => false

/-- The conversion of a `double` to `float`. -/
def FP.toFloat : FP → FP
  | .fin q => roundTo binary32 q
  | a => a

/-- The `float` zero. -/
instance : Zero FP := ⟨FP.fin 0⟩

/-- The `float` one. -/
instance : One FP := ⟨FP.fin 1⟩

/-- On `FP` the sign `+` is the addition of two `g_float`s, in binary32. -/
instance : Add FP := ⟨FP.add binary32⟩

/-- On `FP` the sign `-` is the subtraction of two `g_float`s, in binary32. -/
instance : Sub FP := ⟨FP.sub binary32⟩

/-- On `FP` the sign `*` is the multiplication of two `g_float`s, in binary32. -/
instance : Mul FP := ⟨FP.mul binary32⟩

/-- On `FP` the sign `/` is the division of two `g_float`s, in binary32. -/
instance : Div FP := ⟨FP.div binary32⟩

/-- The comparison `<` of C++ on floating-point data. -/
instance : LT FP := ⟨fun a b => FP.blt a b = true⟩

/-- The comparison `<=` of C++ on floating-point data. -/
instance : LE FP := ⟨fun a b => FP.ble a b = true⟩

instance : DecidableRel (fun a b : FP => a < b) :=
  fun a b => inferInstanceAs (Decidable (FP.blt a b = true))

instance : DecidableRel (fun a b : FP => a ≤ b) :=
  fun a b => inferInstanceAs (Decidable (FP.ble a b = true))

/-- The conversion of a non-negative integer to `float`, which rounds. -/
instance : NatCast FP := ⟨fun n => roundTo binary32 (n : ℚ)⟩

/-- The conversion of an `int` to `float`, which rounds. -/
instance : IntCast FP := ⟨fun n => roundTo binary32 (n : ℚ)⟩

/-- The two places of `gmm_impl.hpp` where a `double` prior meets a `g_float`. -/
class PriorArith (F : Type) where
  /-- The statement `accum += priors_[state]` for a `g_float accum`: the new value of
  `accum`. -/
  addPrior : F → F → F
  /-- The statement `tmp = priors_[i] * gaussians_[i].pdf(x)` for a `g_float tmp`: the
  value of `tmp`. -/
  mulPrior : F → F → F

/-- In exact arithmetic the two mixed operations are the sum and the product. -/
instance {F : Type} [LinearOrderedField F] : PriorArith F := ⟨(· + ·), (· * ·)⟩

/-- In floating point the `g_float` operand is converted to `double`, which changes
nothing, the operation is carried out in binary64, and the result is converted to
`float` when it is stored: it is rounded twice. -/
instance : PriorArith FP :=
  ⟨fun accum prior => (FP.add binary64 accum prior).toFloat,
   fun prior d => (FP.mul binary64 prior d).toFloat⟩

section Arithmetic

variable {F : Type} [Zero F] [One F] [Add F] [Sub F] [Mul F] [Div F] [LT F]
  [DecidableRel (fun a b : F => a < b)] [NatCast F] [IntCast F] [PriorArith F]

/-- Constant `GFLOAT_MAX = std::numeric_limits<float>::max()` of `types.h`,
that is `(2 - 2^-23) * 2^127`. -/
def GFLOAT_MAX : F := 340282346638528859811704183484516925440

/-- Eigen `a + b` on vectors. -/
def vadd (a b : VectorType F) : VectorType F := List.zipWith (· + ·) a b

/-- Eigen `a - b` on vectors. -/
def vsub (a b : VectorType F) : VectorType F := List.zipWith (· - ·) a b

/-- Eigen `v /= c` on vectors, taken as one division per coefficient. -/
def vdiv (v : VectorType F) (c : F) : VectorType F := v.map (· / c)

/-- Eigen `v.squaredNorm()`: the squares of the coefficients, then their sum.  The
order of the additions is Eigen's business; here the sum is nested to the right and
ends in a zero, `x0 + (x1 + (... + (xn + 0)))`.  Adding the zero changes nothing at
either instance, and for one or two coefficients there is only one order. -/
def squaredNorm (v : VectorType F) : F := (v.map (fun x => x * x)).sum

/-- Eigen `setZero()` on a vector of `DIM` entries. -/
def vzero (DIM : Nat) : VectorType F := List.replicate DIM 0

/-- Eigen `setZero()` on a `DIM × DIM` matrix. -/
def mzero (DIM : Nat) : MatrixType F := List.replicate DIM (List.replicate DIM 0)

/-- Eigen `MatrixType::Identity()`. -/
def midentity (DIM : Nat) : MatrixType F :=
  (List.range DIM).map (fun i => (List.range DIM).map (fun j => if i = j then 1 else 0))

/-- Eigen `a + b` on matrices. -/
def madd (a b : MatrixType F) : MatrixType F := List.zipWith (List.zipWith (· + ·)) a b

/-- Eigen `a /= c` on matrices, taken as one division per coefficient. -/
def mdiv (a : MatrixType F) (c : F) : MatrixType F := a.map (fun row => row.map (· / c))

/-- Eigen `v * v.transpose()`: the outer product of a vector with itself. -/
def outer (v : VectorType F) : MatrixType F := v.map (fun a => v.map (fun b => a * b))

/-! ## Initialisation strategies -/

/-- Function `GMM::initRandom(data)`.  `rnd i` is the value the `i`-th call of
`rand()` returns; `rand() % data.size()` is undefined for an empty data set. -/
def initRandom (rnd : Nat → Nat) (data : List (VectorType F)) (m : GMM F) :
    Option (GMM F) :=
  (forLoop (fun i gs =>
      if data.length = 0 then none
      else match data[rnd i % data.length]? with
        | none => none
        | some p => modifyNat gs i (fun g => { g with mean := p }))
    0 m.num_states_.toNat m.gaussians_).map
    (fun gs => { m with gaussians_ := gs, initialized_ := true })

/-- Inner loop of `GMM::cluster`: the scan over all cluster centres for one pattern
`p`, carrying `(dist, best_idx)`; `g_idx` counts up from its start value.  The
distance `tmp_dist` is a `g_float`: at `F := FP` the differences, their squares and
the sum of the squares are each rounded to `float`, and a square too large for a
`float` is `+inf`. -/
def nearest (p : VectorType F) : List (Gaussian F) → Int → F × Int → F × Int
  | [], _, acc => acc
  | g :: gs, g_idx, (dist, best_idx) =>
    let tmp_dist := squaredNorm (vsub p g.mean)
    if tmp_dist < dist then nearest p gs (g_idx + 1) (tmp_dist, g_idx)
    else nearest p gs (g_idx + 1) (dist, best_idx)

/-- First loop of `GMM::cluster` over the patterns with index `i`, carrying
`(assignments, best_idx, summed_dist)`.  `best_idx` is declared outside the loop, so
it survives from one pattern to the next.  `summed_dist += dist` adds two `g_float`s:
at `F := FP` every addition rounds, and the sum is `+inf` from the addition on that
exceeds the largest `float`. -/
def clusterLoop (gs : List (Gaussian F)) :
    List (VectorType F) → Nat → List Int × Int × F → Option (List Int × Int × F)
  | [], _, st => some st
  | p :: ps, i, (assignments, best_idx, summed_dist) =>
    let r := nearest p gs 0 (GFLOAT_MAX, best_idx)
    match modifyNat assignments i (fun _ => r.2) with
    | none => none
    | some a => clusterLoop gs ps (i + 1) (a, r.2, summed_dist + r.1)

/-- Second loop of `GMM::cluster`: `changed` becomes true at the first index where
the two buffers differ, and the loop breaks there. -/
def changedLoop (assignments old_assignments : List Int) : Nat → Nat → Option Bool
  | _, 0 => some false
  | i, k + 1 =>
    match assignments[i]?, old_assignments[i]? with
    | some a, some o => if a ≠ o then some true
                        else changedLoop assignments old_assignments (i + 1) k
    | _, _ => none

/-- Function `GMM::cluster(assignments, old_assignments, pats, changed)`.  The result
is `(summed_dist, assignments, changed)`. -/
def cluster (m : GMM F) (assignments old_assignments : List Int)
    (pats : List (VectorType F)) : Option (F × List Int × Bool) :=
  match clusterLoop m.gaussians_ pats 0 (assignments, 0, 0) with
  | none => none
  | some (a, _, summed_dist) =>
    match changedLoop a old_assignments 0 pats.length with
    | none => none
    | some changed => some (summed_dist, a, changed)

/-- The local variables of `GMM::updateClusters` together with `gaussians_`. -/
structure UpdateState (F : Type) where
  patterns_per_cluster : List Int
  tmp_covar : List (MatrixType F)
  gaussians : List (Gaussian F)

/-- Loop 1 of `updateClusters`: reset the counts, the means and the covariance
accumulators. -/
def resetStep (DIM : Nat) (i : Nat) (s : UpdateState F) : Option (UpdateState F) :=
  match modifyNat s.patterns_per_cluster i (fun _ => 0),
        modifyNat s.gaussians i (fun g => { g with mean := vzero DIM }),
        modifyNat s.tmp_covar i (fun _ => mzero DIM) with
  | some ppc, some gs, some tc =>
    some { patterns_per_cluster := ppc, tmp_covar := tc, gaussians := gs }
  | _, _, _ => none

/-- Loop 2 of `updateClusters`: count pattern `i` and add it to the mean of its
cluster.  The mean is a vector of `g_float`s: at `F := FP` every coefficient of
`mean() += pats[i]` is one rounded `float` addition, which may overflow to an
infinity. -/
def meanStep (assignments : List Int) (pats : List (VectorType F)) (i : Nat)
    (s : UpdateState F) : Option (UpdateState F) :=
  match assignments[i]?, pats[i]? with
  | some curr_assignment, some p =>
    match modifyAt s.patterns_per_cluster curr_assignment (· + 1),
          modifyAt s.gaussians curr_assignment (fun g => { g with mean := vadd g.mean p }) with
    | some ppc, some gs => some { s with patterns_per_cluster := ppc, gaussians := gs }
    | _, _ => none
  | _, _ => none

/-- Loop 3 of `updateClusters`: divide the mean of a non-empty cluster by its
count. -/
def normalizeMeanStep (i : Nat) (s : UpdateState F) : Option (UpdateState F) :=
  match s.patterns_per_cluster[i]? with
  | none => none
  | some cnt =>
    if cnt > 0 then
      (modifyNat s.gaussians i (fun g => { g with mean := vdiv g.mean (cnt : F) })).map
        (fun gs => { s with gaussians := gs })
    else some s

/-- Loop 4 of `updateClusters`: add the outer product of the centred pattern `i` to
the accumulator of its cluster.  The accumulator is a matrix of `g_float`s: at
`F := FP` the differences, the products and the additions are each rounded to `float`,
and may overflow to an infinity or, from `inf - inf`, give a NaN. -/
def covarStep (assignments : List Int) (pats : List (VectorType F)) (i : Nat)
    (s : UpdateState F) : Option (UpdateState F) :=
  match assignments[i]?, pats[i]? with
  | some curr_assignment, some p =>
    match readAt s.gaussians curr_assignment with
    | none => none
    | some g =>
      (modifyAt s.tmp_covar curr_assignment (fun c => madd c (outer (vsub p g.mean)))).map
        (fun tc => { s with tmp_covar := tc })
  | _, _ => none

/-- Loop 5 of `updateClusters`: normalise the accumulator, or take the identity for
an empty cluster, and store it in the component. -/
def normalizeCovarStep (DIM : Nat) (i : Nat) (s : UpdateState F) :
    Option (UpdateState F) :=
  match s.patterns_per_cluster[i]?, s.tmp_covar[i]? with
  | some cnt, some c =>
    let c1 := if cnt > 0 then mdiv c (cnt : F) else midentity DIM
    (modifyNat s.gaussians i (fun g => g.setCovariance c1)).map
      (fun gs => { s with tmp_covar := s.tmp_covar.set i c1, gaussians := gs })
  | _, _ => none

/-- Function `GMM::updateClusters(assignments, pats)`.  The two local vectors are
constructed with `num_states_` elements, which throws for a negative size. -/
def updateClusters (DIM : Nat) (assignments : List Int) (pats : List (VectorType F))
    (m : GMM F) : Option (GMM F) :=
  if m.num_states_ < 0 then none
  else
    let n := m.num_states_.toNat
    let s0 : UpdateState F :=
      { patterns_per_cluster := List.replicate n 0
        tmp_covar := List.replicate n (mzero DIM)
        gaussians := m.gaussians_ }
    (((((forLoop (resetStep DIM) 0 n s0).bind
      (forLoop (meanStep assignments pats) 0 pats.length)).bind
      (forLoop normalizeMeanStep 0 n)).bind
      (forLoop (covarStep assignments pats) 0 pats.length)).bind
      (forLoop (normalizeCovarStep DIM) 0 n)).map
      (fun s => { m with gaussians_ := s.gaussians })

/-- The variables of `GMM::initKmeans` that live across its loop: the model, the two
assignment buffers, `changed`, and the loop counter `iter`. -/
structure KmeansState (F : Type) where
  model : GMM F
  assignments : List Int
  assignments2 : List Int
  changed : Bool
  iter : Nat

/-- One pass through the body of the `for` loop of `initKmeans` at counter
`st.iter`: update the clusters from the buffer written last, then run the
assignment step into the other buffer. -/
def kmeansStep (DIM : Nat) (data : List (VectorType F)) (st : KmeansState F) :
    Option (KmeansState F) :=
  if st.iter % 2 = 0 then
    match updateClusters DIM st.assignments2 data st.model with
    | none => none
    | some m1 =>
      match cluster m1 st.assignments st.assignments2 data with
      | none => none
      | some (_, a, ch) => some { st with model := m1, assignments := a, changed := ch }
  else
    match updateClusters DIM st.assignments data st.model with
    | none => none
    | some m1 =>
      match cluster m1 st.assignments2 st.assignments data with
      | none => none
      | some (_, a2, ch) => some { st with model := m1, assignments2 := a2, changed := ch }

/-- The loop `for (iter = st.iter; iter < max_iter; ++iter)` of `initKmeans` with
`fuel = max_iter - st.iter` passes left; it breaks when `changed` is false. -/
def kmeansLoop (DIM : Nat) (data : List (VectorType F)) :
    Nat → KmeansState F → Option (KmeansState F)
  | 0, st => some st
  | fuel + 1, st =>
    match kmeansStep DIM data st with
    | none => none
    | some st1 =>
      if st1.changed = false then some st1
      else kmeansLoop DIM data fuel { st1 with iter := st1.iter + 1 }

/-- The loop state with which `GMM::initKmeans` leaves its `for` loop. -/
def initKmeansRun (DIM : Nat) (rnd : Nat → Nat) (data : List (VectorType F))
    (max_iter : Int) (m : GMM F) : Option (KmeansState F) :=
  let assignments : List Int := List.replicate data.length 0
  let assignments2 : List Int := List.replicate data.length (-1)
  match initRandom rnd data m with
  | none => none
  | some m0 =>
    match cluster m0 assignments assignments2 data with
    | none => none
    | some (_, a, _) =>
      kmeansLoop DIM data (max_iter - 1).toNat
        { model := m0, assignments := a, assignments2 := assignments2,
          changed := true, iter := 1 }

/-- Function `GMM::initKmeans(data, max_iter)`. -/
def initKmeans (DIM : Nat) (rnd : Nat → Nat) (data : List (VectorType F))
    (max_iter : Int) (m : GMM F) : Option (GMM F) :=
  (initKmeansRun DIM rnd data max_iter m).map
    (fun st => { st.model with initialized_ := true })

/-! ## Sampling and classification -/

/-- The `while ((accum < thresh) && (state < num_states_))` loop of `GMM::draw`,
carrying `(accum, state)`.  Each pass increments `state`, so `fuel` passes suffice
once `fuel` plus the start value reaches `num_states_`; `none` is returned if the
fuel runs out first, or if `priors_[state]` is out of range.  `accum` and `thresh`
are `g_float`s and the priors are `double`s: `accum += priors_[state]` is
`PriorArith.addPrior`. -/
def drawLoop (thresh : F) (num_states : Int) (priors : List F) :
    Nat → F × Nat → Option (F × Nat)
  | 0, (accum, state) =>
    if accum < thresh ∧ (state : Int) < num_states then none else some (accum, state)
  | fuel + 1, (accum, state) =>
    if accum < thresh ∧ (state : Int) < num_states then
      match priors[state]? with
      | none => none
      | some p =>
        drawLoop thresh num_states priors fuel (PriorArith.addPrior accum p, state + 1)
    else some (accum, state)

/-- The state `GMM::draw` selects, that is the index with which it reads
`gaussians_[state]`, for the value `thresh` returned by `random_uniform_0_1()`.
The outer `none` is a run outside defined behaviour; `some none` is the early
return of an uninitialised model. -/
def drawState (thresh : F) (m : GMM F) : Option (Option Int) :=
  if m.initialized_ = false then some none
  else
    match drawLoop thresh m.num_states_ m.priors_ m.num_states_.toNat (0, 0) with
    | none => none
    | some (_, state) => some (some ((state : Int) - 1))

/-- One pass of the loop of `GMM::mostLikelyGauss` at index `i`, carrying
`(best_likeliehood, best)`; `gpdf g x` is the density `g.pdf(x)` of one component.
The product of the `double` prior and the density is stored in the `g_float tmp`
before it is compared. -/
def mostLikelyStep (gpdf : Gaussian F → VectorType F → F) (x : VectorType F)
    (m : GMM F) (i : Nat) (st : F × Int) : Option (F × Int) :=
  match m.priors_[i]?, m.gaussians_[i]? with
  | some p, some g =>
    let tmp := PriorArith.mulPrior p (gpdf g x)
    if tmp > st.1 then some (tmp, (i : Int)) else some st
  | _, _ => none

/-- Function `GMM::mostLikelyGauss(x)`. -/
def mostLikelyGauss (gpdf : Gaussian F → VectorType F → F) (x : VectorType F)
    (m : GMM F) : Option Int :=
  if m.initialized_ = false then some 0
  else
    (forLoop (mostLikelyStep gpdf x m) 0 m.num_states_.toNat (0, 0)).map (fun st => st.2)

end Arithmetic

section Numeric

variable {F : Type} [LinearOrderedField F]

/-- Constant `GFLOAT_MIN = std::numeric_limits<float>::min()` of `types.h`: the
smallest positive normal `float`, `2^-126`. -/
def GFLOAT_MIN : F := 1 / 2 ^ 126

/-! ## Configuration -/

/-- Function `GMM::setNumStates(int num)`.  `gaussians_.resize(num)` pads with the
default-constructed component `dflt`; a negative `num` converts to a huge `size_t`
and `resize` throws.  `priors_.setConstant(num, 1. / num)`. -/
def setNumStates (dflt : Gaussian F) (num : Int) (m : GMM F) : Option (GMM F) :=
  if num < 0 then none
  else some { m with
    gaussians_ := resize m.gaussians_ num.toNat dflt
    priors_ := List.replicate num.toNat (1 / (num : F))
    num_states_ := num }

/-- Function `GMM::setMean(int state, VectorType &mean)`; the `assert` aborts on a
state out of range. -/
def setMean (state : Int) (mean : VectorType F) (m : GMM F) : Option (GMM F) :=
  if 0 ≤ state ∧ state < m.num_states_ then
    (modifyAt m.gaussians_ state (fun g => g.setMean mean)).map
      (fun gs => { m with gaussians_ := gs })
  else none

/-- Function `GMM::setCovariance(int state, MatrixType &cov)`. -/
def setCovariance (state : Int) (cov : MatrixType F) (m : GMM F) : Option (GMM F) :=
  if 0 ≤ state ∧ state < m.num_states_ then
    (modifyAt m.gaussians_ state (fun g => g.setCovariance cov)).map
      (fun gs => { m with gaussians_ := gs })
  else none

/-- Function `GMM::setPrior(int state, g_float prior)`. -/
def setPrior (state : Int) (prior : F) (m : GMM F) : Option (GMM F) :=
  if 0 ≤ state ∧ state < m.num_states_ then
    (modifyAt m.priors_ state (fun _ => prior)).map (fun ps => { m with priors_ := ps })
  else none

/-- Function `GMM::setPriors(Eigen::VectorXd prior)`; the `assert` demands
`prior.size() == num_states_`. -/
def setPriors (prior : List F) (m : GMM F) : Option (GMM F) :=
  if (prior.length : Int) = m.num_states_ then some { m with priors_ := prior } else none

/-- Function `GMM::forceInitialize()`. -/
def forceInitialize (m : GMM F) : GMM F := { m with initialized_ := true }

/-! ## Seeding along an axis -/

/-- First loop of `GMM::initUniformAlongAxis`: the running `(min, max)` of the data
along `axis`. -/
def axisMinMax (axis : Nat) : List (VectorType F) → F × F → F × F
  | [], acc => acc
  | p :: ps, (min, max) =>
    let tmp := p.getD axis 0
    axisMinMax axis ps (if tmp < min then tmp else min, if tmp > max then tmp else max)

/-- Inner loop of `GMM::initUniformAlongAxis` over the data with index `j`, carrying
`(best_dist, best)`. -/
def closestAlongAxis (desired : F) (axis : Nat) :
    List (VectorType F) → Nat → F × Nat → F × Nat
  | [], _, acc => acc
  | p :: ps, j, (best_dist, best) =>
    let dist := desired - p.getD axis 0
    if dist < best_dist then closestAlongAxis desired axis ps (j + 1) (dist, j)
    else closestAlongAxis desired axis ps (j + 1) (best_dist, best)

/-- Function `GMM::initUniformAlongAxis(data, axis)`; the `assert` aborts unless
`0 <= axis < DIM`. -/
def initUniformAlongAxis (DIM : Nat) (data : List (VectorType F)) (axis : Int)
    (m : GMM F) : Option (GMM F) :=
  if 0 ≤ axis ∧ axis < (DIM : Int) then
    let mm := axisMinMax axis.toNat data (GFLOAT_MAX, GFLOAT_MIN)
    (forLoop (fun i gs =>
        let desired := (mm.2 - mm.1) * (i : F) / (m.num_states_ : F) + mm.1
        let best := (closestAlongAxis desired axis.toNat data 0 (GFLOAT_MAX, 0)).2
        match data[best]? with
        | none => none
        | some p => modifyNat gs i (fun g => g.setMean p))
      0 m.num_states_.toNat m.gaussians_).map
      (fun gs => { m with gaussians_ := gs, initialized_ := true })
  else none

/-! ## Density -/

/-- Raw write of an `int`: `out.write((char*) (&i), sizeof(int))`, four bytes,
two's complement, least significant byte first. -/
def writeInt (i : Int) : List Byte :=
  let u := (i % 4294967296).toNat
  [Fin.ofNat u, Fin.ofNat (u / 256), Fin.ofNat (u / 65536), Fin.ofNat (u / 16777216)]

/-- Raw read of an `int`: `in.read((char*) (&i), sizeof(int))`; `none` when the
stream ends early. -/
def readInt : List Byte → Option (Int × List Byte)
  | b0 :: b1 :: b2 :: b3 :: rest =>
    let u : Int := (b0.val : Int) + 256 * b1.val + 65536 * b2.val + 16777216 * b3.val
    some (if u < 2147483648 then u else u - 4294967296, rest)
  | _ => none

/-- Raw write of a `bool`: one byte. -/
def writeBool (b : Bool) : List Byte := [if b then 1 else 0]

/-- Raw read of a `bool`: one byte, non-zero meaning true. -/
def readBool : List Byte → Option (Bool × List Byte)
  | b :: rest => some (decide (b ≠ 0), rest)
  | [] => none

/-- The object representation of a `double`: `toBytes` gives the `sizeof(double)`
bytes that `out.write((char*) (&p), sizeof(double))` emits, `ofBytes` the value that
`in.read` stores from eight bytes. -/
structure DoubleCodec (F : Type) where
  toBytes : F → List Byte
  ofBytes : List Byte → F

/-- The stream functions of the external class `Gaussian<DIM>`:
`g.toStream(out)` yields its result flag and the bytes it appends;
`g.fromStream(in)` yields its result flag, the component as read and the rest of
the stream, or `none` on a stream failure. -/
structure GaussianCodec (F : Type) where
  toStream : Gaussian F → Bool × List Byte
  fromStream : Gaussian F → List Byte → Option (Bool × Gaussian F × List Byte)

/-- Raw read of a `double`: eight bytes. -/
def readDouble (dc : DoubleCodec F) (s : List Byte) : Option (F × List Byte) :=
  if s.length < 8 then none else some (dc.ofBytes (s.take 8), s.drop 8)

/-- Function `GMM::toStream(out)` on an empty stream: the result flag and the bytes
written. -/
def toStream (DIM : Nat) (dc : DoubleCodec F) (gio : GaussianCodec F) (m : GMM F) :
    Option (Bool × List Byte) :=
  let header := writeInt (DIM : Int) ++ writeInt m.num_states_ ++ writeBool m.initialized_
  let out := m.priors_.foldl (fun out p => out ++ dc.toBytes p) header
  forLoop (fun i (st : Bool × List Byte) =>
      match m.gaussians_[i]? with
      | none => none
      | some g => some (st.1 && (gio.toStream g).1, st.2 ++ (gio.toStream g).2))
    0 m.num_states_.toNat (true, out)

/-- The loop of `fromStream` that reads `priors_[i]` for `i < priors_.size()`,
carrying the priors and the stream. -/
def readPriorsStep (dc : DoubleCodec F) (i : Nat) (st : List F × List Byte) :
    Option (List F × List Byte) :=
  match readDouble dc st.2 with
  | none => none
  | some (p, rest) => (modifyNat st.1 i (fun _ => p)).map (fun ps => (ps, rest))

/-- The loop of `fromStream` that runs `res &= gaussians_[i].fromStream(in)` for
`i < num_states_`, carrying `res`, the components and the stream. -/
def readGaussiansStep (gio : GaussianCodec F) (i : Nat)
    (st : Bool × List (Gaussian F) × List Byte) :
    Option (Bool × List (Gaussian F) × List Byte) :=
  match st.2.1[i]? with
  | none => none
  | some g =>
    match gio.fromStream g st.2.2 with
    | none => none
    | some (r, g1, rest) => some (st.1 && r, st.2.1.set i g1, rest)

/-- Function `GMM::fromStream(in)` of a model compiled for dimension `DIM`: the
result flag, the model afterwards and the unread rest of the stream. -/
def fromStream (DIM : Nat) (dflt : Gaussian F) (dc : DoubleCodec F)
    (gio : GaussianCodec F) (m : GMM F) (inp : List Byte) :
    Option (Bool × GMM F × List Byte) :=
  match readInt inp with
  | none => none
  | some (dim, s1) =>
    if dim ≠ (DIM : Int) then some (false, m, s1)
    else
      match readInt s1 with
      | none => none
      | some (n, s2) =>
        match setNumStates dflt n { m with num_states_ := n } with
        | none => none
        | some m1 =>
          match readBool s2 with
          | none => none
          | some (b, s3) =>
            match forLoop (readPriorsStep dc) 0 m1.priors_.length (m1.priors_, s3) with
            | none => none
            | some (ps, s4) =>
              match forLoop (readGaussiansStep gio) 0 m1.num_states_.toNat
                  (true, m1.gaussians_, s4) with
              | none => none
              | some (res, gs, s5) =>
                some (res, { m1 with initialized_ := b, priors_ := ps, gaussians_ := gs }, s5)

/-! ## Middleware messages and containers (`GMM_ROS`) -/

/-- The message `gaussian_mixture::GaussianMixtureModel`; `GM` is the type of the
per-component sub-message. -/
structure GaussianMixtureModelMsg (F GM : Type) where
  dim : Int
  num_states : Int
  initialized : Bool
  priors : List F
  gaussians : List GM

/-- The loop of `fromMessage` over the component sub-messages, which returns false
at the first component that fails; `gfm g gm` is the external
`g.fromMessage(gm)`: its result flag and the component afterwards. -/
def fromMessageLoop {GM : Type} (gfm : Gaussian F → GM → Bool × Gaussian F)
    (msgs : List GM) : Nat → Nat → List (Gaussian F) → Option (Bool × List (Gaussian F))
  | _, 0, gs => some (true, gs)
  | i, k + 1, gs =>
    match gs[i]?, msgs[i]? with
    | some g, some gm =>
      if (gfm g gm).1 = false then some (false, gs.set i (gfm g gm).2)
      else fromMessageLoop gfm msgs (i + 1) k (gs.set i (gfm g gm).2)
    | _, _ => none

/-- Function `GMM::fromMessage(msg)`: the result flag and the model afterwards. -/
def fromMessage {GM : Type} (DIM : Nat) (dflt : Gaussian F)
    (gfm : Gaussian F → GM → Bool × Gaussian F) (msg : GaussianMixtureModelMsg F GM)
    (m : GMM F) : Option (Bool × GMM F) :=
  if msg.dim ≠ (DIM : Int) then some (false, m)
  else if msg.num_states < 1 then some (false, m)
  else
    match setNumStates dflt msg.num_states m with
    | none => none
    | some m1 =>
      match forLoop (fun i ps =>
          match msg.priors[i]? with
          | none => none
          | some p => modifyNat ps i (fun _ => p)) 0 m1.num_states_.toNat m1.priors_ with
      | none => none
      | some ps =>
        match fromMessageLoop gfm msg.gaussians 0 m1.num_states_.toNat m1.gaussians_ with
        | none => none
        | some (res, gs) =>
          some (res, { m1 with initialized_ := msg.initialized, priors_ := ps,
                               gaussians_ := gs })

/-- The `BOOST_FOREACH` loop of `GMM::fromBag` over the messages of the view,
carrying `count` and the model. -/
def fromBagLoop {GM : Type} (DIM : Nat) (dflt : Gaussian F)
    (gfm : Gaussian F → GM → Bool × Gaussian F) :
    List (GaussianMixtureModelMsg F GM) → Int → GMM F → Option (Bool × GMM F)
  | [], _, m => some (true, m)
  | msg :: rest, count, m =>
    if count > 1 then some (false, m)
    else
      match fromMessage DIM dflt gfm msg m with
      | none => none
      | some (ok, m1) =>
        if ok = false then some (false, m1)
        else fromBagLoop DIM dflt gfm rest (count + 1) m1

/-- Function `GMM::fromBag(bag_file)`.  `view` holds the messages of the topic
`"gaussian_mixture_model"` in the bag, or is `none` when opening the bag throws
`rosbag::BagIOException`, which the function catches. -/
def fromBag {GM : Type} (DIM : Nat) (dflt : Gaussian F)
    (gfm : Gaussian F → GM → Bool × Gaussian F)
    (view : Option (List (GaussianMixtureModelMsg F GM))) (m : GMM F) :
    Option (Bool × GMM F) :=
  match view with
  | none => some (false, m)
  | some msgs => fromBagLoop DIM dflt gfm msgs 0 m

end Numeric

/-! ## Vocabulary of the statements -/

/-- The scenario of the spec over an ordered field: two states, priors `[0.3, 0.7]`,
means `[0,0]` and `[10,10]`, identity covariances. -/
def scenarioModel (F : Type) [LinearOrderedField F] : GMM F :=
  { num_states_ := 2, initialized_ := true, priors_ := [3 / 10, 7 / 10],
    gaussians_ := [⟨[0, 0], midentity 2⟩, ⟨[10, 10], midentity 2⟩] }

/-- The first `k` entries of an assignment buffer exist and name a state in
`[0, n)`. -/
def InRange (n : Int) (a : List Int) (k : Nat) : Prop :=
  ∀ j, j < k → ∃ v, a[j]? = some v ∧ 0 ≤ v ∧ v < n

/-- The three containers that `updateClusters` works on all have `n` entries. -/
def UpdateState.Sized {F : Type} (n : Nat) (s : UpdateState F) : Prop :=
  s.patterns_per_cluster.length = n ∧ s.tmp_covar.length = n ∧ s.gaussians.length = n

/-- The invariant of the loop of `initKmeans` at its head: the sizes agree, both
buffers have one entry per pattern, and the buffer that the next `updateClusters`
reads holds states in range. -/
def KmeansInv {F : Type} (n : Int) (L : Nat) (st : KmeansState F) : Prop :=
  st.model.SizesAgree ∧ st.model.num_states_ = n ∧ st.assignments.length = L ∧
    st.assignments2.length = L ∧
    (if st.iter % 2 = 0 then InRange n st.assignments2 L else InRange n st.assignments L)

/-- The bytes of a sequence of items, each written by `f`, in order. -/
def flatBytes {α : Type} (f : α → List Byte) : List α → List Byte
  | [] => []
  | a :: l => f a ++ flatBytes f l

/-- An eight-byte representation of small rationals on which the stream functions can
be run: the numerator, then the denominator, each as an `int`. -/
def ratCodec : DoubleCodec ℚ :=
  { toBytes := fun q => writeInt q.num ++ writeInt (q.den : Int)
    ofBytes := fun bs =>
      match readInt bs with
      | some (n, r) =>
        match readInt r with
        | some (d, _) => (n : ℚ) / (d : ℚ)
        | none => 0
      | none => 0 }

/-- A stream format for one-dimensional components on which the stream functions can
be run: the mean, then the variance, each through `ratCodec`. -/
def scalarGaussianCodec : GaussianCodec ℚ :=
  { toStream := fun g =>
      (true, ratCodec.toBytes (g.mean.headD 0) ++
        ratCodec.toBytes ((g.covariance.headD []).headD 0))
    fromStream := fun _ s =>
      if s.length < 16 then none
      else some (true, ⟨[ratCodec.ofBytes (s.take 8)],
        [[ratCodec.ofBytes ((s.drop 8).take 8)]]⟩, s.drop 16) }

/-- A one-dimensional model with two states. -/
def lineModel : GMM ℚ :=
  { num_states_ := 2, initialized_ := true, priors_ := [3 / 10, 7 / 10],
    gaussians_ := [⟨[0], [[1]]⟩, ⟨[10], [[2]]⟩] }

/-- Two runs agree: both fail, or both return and the results are related. -/
def OptRel {α β : Type} (R : α → β → Prop) : Option α → Option β → Prop
  | none, none => True
  | some a, some b => R a b
  | _, _ => False

/-- Two component sequences carry the same means. -/
def SameMeans {F : Type} (gs gs1 : List (Gaussian F)) : Prop :=
  gs.map (fun g => g.mean) = gs1.map (fun g => g.mean)

/-- Two models agree in `num_states_` and in the means of their components. -/
def GMM.SameMeans {F : Type} (m m1 : GMM F) : Prop :=
  m.num_states_ = m1.num_states_ ∧ gmm.SameMeans m.gaussians_ m1.gaussians_

/-- Two states of `updateClusters` agree up to the covariances of the components. -/
def UpdateState.SameMeans {F : Type} (s t : UpdateState F) : Prop :=
  s.patterns_per_cluster = t.patterns_per_cluster ∧ s.tmp_covar = t.tmp_covar ∧
    gmm.SameMeans s.gaussians t.gaussians

/-- Two states of the loop of `initKmeans` agree up to the covariances, the priors
and the flag of the model. -/
def KmeansState.SameMeans {F : Type} (s t : KmeansState F) : Prop :=
  s.model.SameMeans t.model ∧ s.assignments = t.assignments ∧
    s.assignments2 = t.assignments2 ∧ s.changed = t.changed ∧ s.iter = t.iter

/-- The data set of the k-means scenario of the spec. -/
def fourPoints : List (VectorType ℚ) := [[0, 0], [0, 1], [10, 10], [10, 11]]

/-- A `rand()` whose first call returns `a` and whose later calls return `b`. -/
def seedRnd (a b : Nat) : Nat → Nat := fun i => if i = 0 then a else b

/-- A two-dimensional model with two states, as `setNumStates(2)` leaves a fresh model
whose components start with zero mean and identity covariance. -/
def twoStateModel : GMM ℚ :=
  { num_states_ := 2, initialized_ := false, priors_ := [1 / 2, 1 / 2],
    gaussians_ := [⟨[0, 0], midentity 2⟩, ⟨[0, 0], midentity 2⟩] }

/-- The squared distance between a pattern and the mean of a component as `cluster`
computes it, `(p - g.mean()).squaredNorm()`, in the arithmetic of `F`. -/
def sqDist {F : Type} [Zero F] [Add F] [Sub F] [Mul F] (p : VectorType F)
    (g : Gaussian F) : F :=
  squaredNorm (vsub p g.mean)

/-- Component `k` is the nearest one to `p` by the computed distances, the first on
ties: its distance is a number, no component is nearer, and no component before `k`
is as near.  (A NaN distance is neither nearer nor as near.) -/
def IsFirstNearest (gs : List (Gaussian FP)) (p : VectorType FP) (k : Nat) : Prop :=
  ∃ g, gs[k]? = some g ∧ sqDist p g ≠ FP.nan ∧ (∀ g1 ∈ gs, ¬ sqDist p g1 < sqDist p g) ∧
    ∀ j g1, j < k → gs[j]? = some g1 → ¬ sqDist p g1 ≤ sqDist p g

/-- The pairs `(dist, best_idx)` that the scans of `cluster` end with, one per
pattern, when the first scan starts from `best_idx = b`. -/
def nearestSeq {F : Type} [Zero F] [Add F] [Sub F] [Mul F] [LT F]
    [DecidableRel (fun a b : F => a < b)] [NatCast F] (gs : List (Gaussian F)) :
    List (VectorType F) → Int → List (F × Int)
  | [], _ => []
  | p :: ps, b =>
    nearest p gs 0 (GFLOAT_MAX, b) :: nearestSeq gs ps (nearest p gs 0 (GFLOAT_MAX, b)).2

/-- The computed squared distance between pattern `i` and the mean of the component
that the buffer `a` assigns it to (zero when either does not exist). -/
def assignedDist {F : Type} [Zero F] [Add F] [Sub F] [Mul F] (gs : List (Gaussian F))
    (pats : List (VectorType F)) (a : List Int) (i : Nat) : F :=
  match pats[i]?, a[i]? with
  | some p, some k =>
    match readAt gs k with
    | some g => sqDist p g
    | none => 0
  | _, _ => 0

/-- The number of patterns among the first `i` that the buffer `a` assigns to
component `c`. -/
def countUpTo (a : List Int) (c : Nat) : Nat → Int
  | 0 => 0
  | i + 1 => if a[i]? = some (c : Int) then countUpTo a c i + 1 else countUpTo a c i

/-- The sum, started at the zero vector, of the patterns among the first `i` that the
buffer `a` assigns to component `c`. -/
def sumUpTo {F : Type} [Zero F] [Add F] (DIM : Nat) (a : List Int)
    (pats : List (VectorType F)) (c : Nat) : Nat → VectorType F
  | 0 => vzero DIM
  | i + 1 =>
    if a[i]? = some (c : Int) then vadd (sumUpTo DIM a pats c i) (pats.getD i [])
    else sumUpTo DIM a pats c i

/-- The mean that `updateClusters` leaves in component `c`: the sum of its patterns
divided by their number, or the bare (zero) sum when it has none. -/
def newMean {F : Type} [Zero F] [Add F] [Div F] [IntCast F] (DIM : Nat) (a : List Int)
    (pats : List (VectorType F)) (c : Nat) : VectorType F :=
  if countUpTo a c pats.length > 0 then
    vdiv (sumUpTo DIM a pats c pats.length) ((countUpTo a c pats.length : Int) : F)
  else sumUpTo DIM a pats c pats.length

/-- The sum, started at the zero matrix, of the outer products of `p - mu` over the
patterns `p` among the first `i` that the buffer `a` assigns to component `c`. -/
def covUpTo {F : Type} [Zero F] [Add F] [Sub F] [Mul F] (DIM : Nat) (a : List Int)
    (pats : List (VectorType F)) (mu : VectorType F) (c : Nat) : Nat → MatrixType F
  | 0 => mzero DIM
  | i + 1 =>
    if a[i]? = some (c : Int) then
      madd (covUpTo DIM a pats mu c i) (outer (vsub (pats.getD i []) mu))
    else covUpTo DIM a pats mu c i

/-- The covariance that `updateClusters` leaves in component `c`: the accumulated
outer products around the new mean divided by the number of its patterns, or the
identity when it has none. -/
def newCov {F : Type} [Zero F] [One F] [Add F] [Sub F] [Mul F] [Div F] [IntCast F]
    (DIM : Nat) (a : List Int) (pats : List (VectorType F)) (c : Nat) : MatrixType F :=
  if countUpTo a c pats.length > 0 then
    mdiv (covUpTo DIM a pats (newMean DIM a pats c) c pats.length)
      ((countUpTo a c pats.length : Int) : F)
  else midentity DIM

/-- The state of `updateClusters` holds, for every component `c < n`, the count
`cnt c`, the mean `mean c` and the covariance accumulator `acc c`. -/
def UpdateState.Holds {F : Type} (n : Nat) (s : UpdateState F) (cnt : Nat → Int)
    (mean : Nat → VectorType F) (acc : Nat → MatrixType F) : Prop :=
  s.Sized n ∧ ∀ c, c < n →
    s.patterns_per_cluster[c]? = some (cnt c) ∧
    (s.gaussians[c]?).map (fun g => g.mean) = some (mean c) ∧
    s.tmp_covar[c]? = some (acc c)

/-- Entry `k` of a vector (zero past its end). -/
def vget {F : Type} [Zero F] (v : VectorType F) (k : Nat) : F := v.getD k 0

/-- Entry `(r, s)` of a matrix (zero outside it). -/
def mget {F : Type} [Zero F] (M : MatrixType F) (r s : Nat) : F :=
  (M.getD r []).getD s 0

/-- The matrix has `DIM` rows of `DIM` entries. -/
def IsMat {F : Type} (DIM : Nat) (M : MatrixType F) : Prop :=
  M.length = DIM ∧ ∀ row ∈ M, row.length = DIM

/-- The loop of `initKmeans` as `kmeansLoop`, which in addition records the value of
`changed` that each assignment round of the loop reports, in order. -/
def kmeansLoopReports {F : Type} [Zero F] [One F] [Add F] [Sub F] [Mul F] [Div F] [LT F]
    [DecidableRel (fun a b : F => a < b)] [NatCast F] [IntCast F] (DIM : Nat)
    (data : List (VectorType F)) : Nat → KmeansState F → Option (KmeansState F × List Bool)
  | 0, st => some (st, [])
  | fuel + 1, st =>
    match kmeansStep DIM data st with
    | none => none
    | some st1 =>
      if st1.changed = false then some (st1, [false])
      else
        match kmeansLoopReports DIM data fuel { st1 with iter := st1.iter + 1 } with
        | none => none
        | some (st2, reports) => some (st2, true :: reports)

/-- The run of `initKmeans` as `initKmeansRun`, together with the reports of the
assignment rounds after the first; the run has made one call of `cluster` more than
there are reports. -/
def initKmeansReports {F : Type} [Zero F] [One F] [Add F] [Sub F] [Mul F] [Div F] [LT F]
    [DecidableRel (fun a b : F => a < b)] [NatCast F] [IntCast F] (DIM : Nat)
    (rnd : Nat → Nat) (data : List (VectorType F)) (max_iter : Int) (m : GMM F) :
    Option (KmeansState F × List Bool) :=
  match initRandom rnd data m with
  | none => none
  | some m0 =>
    match cluster m0 (List.replicate data.length 0) (List.replicate data.length (-1))
        data with
    | none => none
    | some (_, a, _) =>
      kmeansLoopReports DIM data (max_iter - 1).toNat
        { model := m0, assignments := a, assignments2 := List.replicate data.length (-1),
          changed := true, iter := 1 }

/-- The assignment buffer that `updateClusters` reads in the pass of the loop of
`initKmeans` with counter `st.iter`: the means of that pass are computed from it. -/
def KmeansState.source {F : Type} (st : KmeansState F) : List Int :=
  if st.iter % 2 = 0 then st.assignments2 else st.assignments

/-- The assignment buffer that `cluster` writes in the pass of the loop of
`initKmeans` with counter `st.iter`. -/
def KmeansState.target {F : Type} (st : KmeansState F) : List Int :=
  if st.iter % 2 = 0 then st.assignments else st.assignments2

deriving instance DecidableEq for KmeansState

/-- The sum of a sequence as a loop `s += x` accumulates it, in order, from zero. -/
def floatSum {F : Type} [Zero F] [Add F] (l : List F) : F := l.foldl (· + ·) 0

/-- The rational number a finite datum stands for (zero for the others). -/
def FP.toRat : FP → ℚ
  | .fin q => q
  | _ => 0

/-- A vector of finite data. -/
def fpVec (l : List ℚ) : VectorType FP := l.map FP.fin

/-- The data set of the k-means scenario of the spec as `float` vectors. -/
def fourPointsFloat : List (VectorType FP) :=
  [fpVec [0, 0], fpVec [0, 1], fpVec [10, 10], fpVec [10, 11]]

/-- A two-dimensional `float` model with the means `[0, 0.5]` and `[10, 10.5]`. -/
def convergedModel : GMM FP :=
  { num_states_ := 2, initialized_ := true, priors_ := [FP.fin (1 / 2), FP.fin (1 / 2)],
    gaussians_ := [⟨fpVec [0, 1 / 2], midentity 2⟩, ⟨fpVec [10, 21 / 2], midentity 2⟩] }

/-- A one-dimensional `float` model with the means `-2^24` and `-2^24 + 1`. -/
def closeMeansModel : GMM FP :=
  { num_states_ := 2, initialized_ := true, priors_ := [FP.fin (1 / 2), FP.fin (1 / 2)],
    gaussians_ := [⟨fpVec [-16777216], midentity 1⟩, ⟨fpVec [-16777215], midentity 1⟩] }

/-- A one-dimensional `float` model with one component of mean `0`. -/
def originModel : GMM FP :=
  { num_states_ := 1, initialized_ := true, priors_ := [FP.fin 1],
    gaussians_ := [⟨fpVec [0], midentity 1⟩] }

/-- The indices of the patterns among the first `N` that the buffer `a` assigns to
component `c`, in the order of the data set. -/
def assignedList (a : List Int) (c : Nat) (N : Nat) : List Nat :=
  (List.range N).filter (fun j => a[j]? = some (c : Int))

/-- A one-dimensional `float` model with two states. -/
def lineModelFloat : GMM FP :=
  { num_states_ := 2, initialized_ := true,
    priors_ := [roundTo binary64 (3 / 10), roundTo binary64 (7 / 10)],
    gaussians_ := [⟨fpVec [0], [[FP.fin 1]]⟩, ⟨fpVec [10], [[FP.fin 2]]⟩] }

/-- A two-dimensional `float` model with two states, as `setNumStates(2)` leaves a
fresh model whose components start with zero mean and identity covariance. -/
def twoStateModelFloat : GMM FP :=
  { num_states_ := 2, initialized_ := false, priors_ := [FP.fin (1 / 2), FP.fin (1 / 2)],
    gaussians_ := [⟨fpVec [0, 0], midentity 2⟩, ⟨fpVec [0, 0], midentity 2⟩] }

/-- The state in which `initKmeans` leaves its loop on `fourPointsFloat` with the seeds
0 and 2. -/
def fourPointsFinalFloat : KmeansState FP :=
  { model :=
      { num_states_ := 2, initialized_ := true,
        priors_ := [FP.fin (1 / 2), FP.fin (1 / 2)],
        gaussians_ := [⟨fpVec [0, 1 / 2], [fpVec [0, 0], fpVec [0, 1 / 4]]⟩,
          ⟨fpVec [10, 21 / 2], [fpVec [0, 0], fpVec [0, 1 / 4]]⟩] }
    assignments := [0, 0, 1, 1]
    assignments2 := [0, 0, 1, 1]
    changed := false
    iter := 1 }

/-- A one-dimensional `float` data set with two patterns so far from the others that
squared distances overflow: `3 * 2^64`, three times `0`, and `2^65`. -/
def farPointsFloat : List (VectorType FP) :=
  [fpVec [55340232221128654848], fpVec [0], fpVec [0], fpVec [0],
    fpVec [36893488147419103232]]

/-- The weight of component `i` at `x` as `mostLikelyGauss` computes it, the value of
`tmp = priors_[i] * gaussians_[i].pdf(x)`, read off the two containers of the model
(zero past their ends). -/
def GMM.floatWeight {F : Type} [Zero F] [PriorArith F]
    (gpdf : Gaussian F → VectorType F → F) (x : VectorType F) (m : GMM F) (i : Nat) : F :=
  PriorArith.mulPrior (m.priors_.getD i 0) ((m.gaussians_.map (fun g => gpdf g x)).getD i 0)

/-- The loop invariant of `mostLikelyGauss` after the indices below `i`, for weights
`w` in `float`. -/
def ArgmaxInv (w : Nat → FP) (i : Nat) (st : FP × Int) : Prop :=
  ∃ k : Nat, st.2 = (k : Int) ∧ (∀ j, j < i → w j ≤ st.1) ∧
    ((st.1 = 0 ∧ k = 0) ∨ (0 < st.1 ∧ k < i ∧ w k = st.1 ∧ ∀ j, j < k → w j < st.1))

/-- The scenario of the spec in floating point: two states, the priors the `double`s
nearest to `0.3` and `0.7`, means `[0,0]` and `[10,10]`, identity covariances. -/
def scenarioFloat : GMM FP :=
  { num_states_ := 2, initialized_ := true,
    priors_ := [roundTo binary64 (3 / 10), roundTo binary64 (7 / 10)],
    gaussians_ := [⟨fpVec [0, 0], midentity 2⟩, ⟨fpVec [10, 10], midentity 2⟩] }

/-- A stand-in for the density of a component, computed in `float`:
`1 / (1 + |x - mean|^2)`. -/
def standInDensity (g : Gaussian FP) (x : VectorType FP) : FP := 1 / (1 + sqDist x g)

/-- A one-dimensional model with two states whose priors are the `double`s
`1/2 - 2^-30` and `1/2 + 2^-30`. -/
def nearlyEvenModel : GMM FP :=
  { num_states_ := 2, initialized_ := true,
    priors_ := [FP.fin (1 / 2 - 1 / 1073741824), FP.fin (1 / 2 + 1 / 1073741824)],
    gaussians_ := [⟨fpVec [0], [[FP.fin 1]]⟩, ⟨fpVec [10], [[FP.fin 1]]⟩] }

/-- A one-dimensional model with two states whose priors are the `double`s `1/2` and
`1/2 + 2^-30`. -/
def tiedModel : GMM FP :=
  { num_states_ := 2, initialized_ := true,
    priors_ := [FP.fin (1 / 2), FP.fin (1 / 2 + 1 / 1073741824)],
    gaussians_ := [⟨fpVec [0], [[FP.fin 1]]⟩, ⟨fpVec [10], [[FP.fin 1]]⟩] }

/-- The value of the `g_float accum` of `draw` after `k` passes of its loop: starting
from zero, the priors of the states `0 .. k-1` added one by one with
`accum += priors_[state]`. -/
def accumAfter {F : Type} [Zero F] [PriorArith F] (priors : List F) (k : Nat) : F :=
  (priors.take k).foldl PriorArith.addPrior 0

/-- The cumulative prior mass `prior[0] + ... + prior[k-1]` of the first `k` states as
a rational number. -/
def exactMass (priors : List FP) (k : Nat) : ℚ := ((priors.take k).map FP.toRat).sum

/-- A two-state model with equal priors, on which the cumulative mass meets the draw
value `1/2` exactly. -/
def evenModel : GMM FP :=
  { num_states_ := 2, initialized_ := true, priors_ := [FP.fin (1 / 2), FP.fin (1 / 2)],
    gaussians_ := [⟨fpVec [0], [[FP.fin 1]]⟩, ⟨fpVec [10], [[FP.fin 1]]⟩] }

end gmm

/-! # Verification -/

namespace gmm

/-! ## Loops -/

/-- A loop whose body cannot fail under an invariant runs to completion and keeps the
invariant. -/
theorem forLoop_total {σ : Type} (P : σ → Prop) (body : Nat → σ → Option σ) :
    ∀ (k i : Nat) (s : σ), P s →
      (∀ j t, i ≤ j → j < i + k → P t → ∃ t1, body j t = some t1 ∧ P t1) →
      ∃ s1, forLoop body i k s = some s1 ∧ P s1 := by
  intro k
  induction k with
  | zero => intro i s hs _; exact ⟨s, rfl, hs⟩
  | succ k ih =>
    intro i s hs hb
    obtain ⟨t1, h1, hP1⟩ := hb i s (le_refl i) (by omega) hs
    obtain ⟨s1, h2, hP2⟩ := ih (i + 1) t1 hP1
      (fun j t hj hj2 ht => hb j t (by omega) (by omega) ht)
    exact ⟨s1, by simp [forLoop, h1, h2], hP2⟩

/-- A loop that returns keeps every invariant its body keeps. -/
theorem forLoop_preserves {σ : Type} (P : σ → Prop) (body : Nat → σ → Option σ)
    (hb : ∀ j t t1, P t → body j t = some t1 → P t1) :
    ∀ (k i : Nat) (s s1 : σ), P s → forLoop body i k s = some s1 → P s1 := by
  intro k
  induction k with
  | zero => intro i s s1 hs h; simp [forLoop] at h; exact h ▸ hs
  | succ k ih =>
    intro i s s1 hs h
    simp only [forLoop] at h
    cases hbody : body i s with
    | none => simp [hbody] at h
    | some t1 =>
      simp only [hbody, Option.some_bind] at h
      exact ih (i + 1) t1 s1 (hb i s t1 hs hbody) h

/-- A loop whose body cannot fail under an invariant that may mention the loop
counter runs to completion and establishes the invariant at the final counter. -/
theorem forLoop_indexed {σ : Type} (P : Nat → σ → Prop) (body : Nat → σ → Option σ) :
    ∀ (k i : Nat) (s : σ), P i s →
      (∀ j t, i ≤ j → j < i + k → P j t → ∃ t1, body j t = some t1 ∧ P (j + 1) t1) →
      ∃ s1, forLoop body i k s = some s1 ∧ P (i + k) s1 := by
  intro k
  induction k with
  | zero => intro i s hs _; exact ⟨s, rfl, hs⟩
  | succ k ih =>
    intro i s hs hb
    obtain ⟨t1, h1, hP1⟩ := hb i s (le_refl i) (by omega) hs
    obtain ⟨s1, h2, hP2⟩ := ih (i + 1) t1 hP1
      (fun j t hj hj2 ht => hb j t (by omega) (by omega) ht)
    refine ⟨s1, by simp [forLoop, h1, h2], ?_⟩
    have e : i + (k + 1) = i + 1 + k := by omega
    rw [e]; exact hP2

/-! ## Floating-point data: rounding and order -/

/-- Sample roundings, which every implementation of IEEE 754 reproduces: the `float`s
and the `double`s nearest to `0.1` and `0.3`; two ties, which go to the even
significand; the largest `float`, the last number below the overflow threshold and
the threshold itself; the smallest subnormal `float`, and the underflow of half of it
to zero. -/
theorem roundTo_samples :
    roundTo binary32 (1 / 10) = FP.fin (13421773 / 134217728) ∧
    roundTo binary32 (3 / 10) = FP.fin (5033165 / 16777216) ∧
    roundTo binary64 (1 / 10) = FP.fin (3602879701896397 / 36028797018963968) ∧
    roundTo binary64 (3 / 10) = FP.fin (5404319552844595 / 18014398509481984) ∧
    roundTo binary32 16777217 = FP.fin 16777216 ∧
    roundTo binary32 16777219 = FP.fin 16777220 ∧
    (GFLOAT_MAX : FP) = FP.fin 340282346638528859811704183484516925440 ∧
    roundTo binary32 340282356779733661637539395458142568447
      = FP.fin 340282346638528859811704183484516925440 ∧
    roundTo binary32 340282356779733661637539395458142568448 = FP.pinf ∧
    roundTo binary32 (1 / 713623846352979940529142984724747568191373312)
      = FP.fin (1 / 713623846352979940529142984724747568191373312) ∧
    roundTo binary32 (1 / 1427247692705959881058285969449495136382746624) = FP.fin 0 := by
  refine ⟨by decide!, by decide!, by decide!, by decide!, by decide!, by decide!,
    by decide!, by decide!, by decide!, by decide!, by decide!⟩

theorem fp_lt_iff (a b : FP) : a < b ↔ FP.blt a b = true := Iff.rfl

theorem fp_le_iff (a b : FP) : a ≤ b ↔ FP.ble a b = true := Iff.rfl

theorem fp_lt_irrefl (a : FP) : ¬ a < a := by
  cases a <;> simp [fp_lt_iff, FP.blt]

theorem fp_lt_trans {a b c : FP} (h1 : a < b) (h2 : b < c) : a < c := by
  cases a <;> cases b <;> cases c <;> simp_all [fp_lt_iff, FP.blt]
  exact lt_trans h1 h2

theorem fp_lt_of_le_of_lt {a b c : FP} (h1 : a ≤ b) (h2 : b < c) : a < c := by
  cases a <;> cases b <;> cases c <;> simp_all [fp_lt_iff, fp_le_iff, FP.blt, FP.ble]
  exact lt_of_le_of_lt h1 h2

theorem fp_lt_of_lt_of_le {a b c : FP} (h1 : a < b) (h2 : b ≤ c) : a < c := by
  cases a <;> cases b <;> cases c <;> simp_all [fp_lt_iff, fp_le_iff, FP.blt, FP.ble]
  exact lt_of_lt_of_le h1 h2

theorem fp_le_of_lt {a b : FP} (h : a < b) : a ≤ b := by
  cases a <;> cases b <;> simp_all [fp_lt_iff, fp_le_iff, FP.blt, FP.ble]
  exact le_of_lt h

theorem fp_le_trans {a b c : FP} (h1 : a ≤ b) (h2 : b ≤ c) : a ≤ c := by
  cases a <;> cases b <;> cases c <;> simp_all [fp_le_iff, FP.ble]
  exact le_trans h1 h2

theorem fp_le_refl {a : FP} (h : a ≠ FP.nan) : a ≤ a := by
  cases a <;> simp_all [fp_le_iff, FP.ble]

theorem fp_le_antisymm {a b : FP} (h1 : a ≤ b) (h2 : b ≤ a) : a = b := by
  cases a <;> cases b <;> simp_all [fp_le_iff, FP.ble]
  exact le_antisymm h1 h2

theorem fp_le_of_not_lt {a b : FP} (ha : a ≠ FP.nan) (hb : b ≠ FP.nan) (h : ¬ a < b) :
    b ≤ a := by
  cases a <;> cases b <;> simp_all [fp_lt_iff, fp_le_iff, FP.blt, FP.ble]

theorem fp_not_lt_of_le {a b : FP} (h : a ≤ b) : ¬ b < a := by
  cases a <;> cases b <;> simp_all [fp_lt_iff, fp_le_iff, FP.blt, FP.ble]

theorem fp_ne_nan_of_lt_left {a b : FP} (h : a < b) : a ≠ FP.nan := by
  cases a <;> simp_all [fp_lt_iff, FP.blt]

theorem fp_ne_nan_of_lt_right {a b : FP} (h : a < b) : b ≠ FP.nan := by
  cases a <;> cases b <;> simp_all [fp_lt_iff, FP.blt]

theorem fp_ne_nan_of_le_left {a b : FP} (h : a ≤ b) : a ≠ FP.nan := by
  cases a <;> simp_all [fp_le_iff, FP.ble]

theorem fp_ne_nan_of_le_right {a b : FP} (h : a ≤ b) : b ≠ FP.nan := by
  cases a <;> cases b <;> simp_all [fp_le_iff, FP.ble]

/-! ## Configuration: `setNumStates` -/

theorem sum_replicate_const {F : Type} [LinearOrderedField F] (n : Nat) (c : F) :
    (List.replicate n c).sum = (n : F) * c := by
  induction n with
  | zero => simp
  | succ n ih => simp [List.replicate_succ, ih]; ring

/-- C6. For every `n > 0`, `setNumStates(n)` returns a model with exactly `n`
components, exactly `n` priors and `num_states_ = n`, in which every prior equals
`1 / n` and the priors sum to one. -/
theorem setNumStates_uniform {F : Type} [LinearOrderedField F] (dflt : Gaussian F)
    (m : GMM F) (n : Int) (hn : 0 < n) :
    ∃ m1, setNumStates dflt n m = some m1 ∧
      (m1.gaussians_.length : Int) = n ∧ (m1.priors_.length : Int) = n ∧
      m1.num_states_ = n ∧ (∀ p ∈ m1.priors_, p = 1 / (n : F)) ∧ m1.priors_.sum = 1 := by
  have hnn : ¬ n < 0 := by omega
  have hcast : ((n.toNat : Int) : F) = (n : F) := by
    rw [Int.toNat_of_nonneg (le_of_lt hn)]
  have hne : (n : F) ≠ 0 := by
    have : (0 : F) < (n : F) := by exact_mod_cast hn
    exact ne_of_gt this
  have hset : setNumStates dflt n m = some { m with
      gaussians_ := resize m.gaussians_ n.toNat dflt
      priors_ := List.replicate n.toNat (1 / (n : F))
      num_states_ := n } := by
    simp only [setNumStates, hnn, if_false]
  refine ⟨_, hset, ?_, ?_, rfl, ?_, ?_⟩
  · simp only [resize, List.length_append, List.length_take, List.length_replicate]
    omega
  · simp only [List.length_replicate]; omega
  · intro p hp
    exact (List.mem_replicate.mp hp).2
  · simp only [sum_replicate_const]
    have h2 : ((n.toNat : Nat) : F) = (n : F) := by
      rw [← hcast]; exact (Int.cast_natCast n.toNat).symm
    rw [h2]; field_simp

/-- Witness for C6: three states on a fresh model over the rationals. -/
theorem setNumStates_uniform_witness :
    ∃ m1, setNumStates (⟨[0, 0], midentity 2⟩ : Gaussian ℚ) 3 GMM.new = some m1 ∧
      (m1.gaussians_.length : Int) = 3 ∧ (m1.priors_.length : Int) = 3 ∧
      m1.num_states_ = 3 ∧ (∀ p ∈ m1.priors_, p = 1 / ((3 : Int) : ℚ)) ∧
      m1.priors_.sum = 1 :=
  setNumStates_uniform _ GMM.new 3 (by decide)

/-! ## Inference: `pdf` and `mostLikelyGauss` -/

theorem floatWeight_step {F : Type} [Zero F] [PriorArith F]
    (gpdf : Gaussian F → VectorType F → F)
    (x : VectorType F) (m : GMM F) (i : Nat) (hp : i < m.priors_.length)
    (hg : i < m.gaussians_.length) :
    ∃ p g, m.priors_[i]? = some p ∧ m.gaussians_[i]? = some g ∧
      PriorArith.mulPrior p (gpdf g x) = m.floatWeight gpdf x i := by
  refine ⟨m.priors_[i], m.gaussians_[i], List.getElem?_eq_getElem hp,
    List.getElem?_eq_getElem hg, ?_⟩
  simp [GMM.floatWeight, List.getD_eq_getElem?_getD, List.getElem?_eq_getElem hp,
    List.getElem?_eq_getElem hg]

theorem fp_zero_ne_nan : (0 : FP) ≠ FP.nan := by decide

theorem argmax_step (w : Nat → FP) (j : Nat) (hw : 0 ≤ w j)
    (st : FP × Int) (h : ArgmaxInv w j st) :
    ArgmaxInv w (j + 1) (if w j > st.1 then (w j, (j : Int)) else st) := by
  obtain ⟨k, hk, hle, hd⟩ := h
  have hwn : w j ≠ FP.nan := fp_ne_nan_of_le_right hw
  have hsn : st.1 ≠ FP.nan := by
    rcases hd with ⟨h0, _⟩ | ⟨h0, _⟩
    · rw [h0]; exact fp_zero_ne_nan
    · exact fp_ne_nan_of_lt_right h0
  by_cases hgt : w j > st.1
  · rw [if_pos hgt]
    have hgt1 : st.1 < w j := hgt
    refine ⟨j, rfl, ?_, Or.inr ⟨?_, ?_, rfl, ?_⟩⟩
    · intro j1 hj1
      rcases Nat.lt_succ_iff_lt_or_eq.mp hj1 with h1 | h1
      · exact fp_le_of_lt (fp_lt_of_le_of_lt (hle j1 h1) hgt1)
      · rw [h1]; exact fp_le_refl hwn
    · rcases hd with ⟨h0, _⟩ | ⟨h0, _⟩
      · rw [← h0]; exact hgt1
      · exact fp_lt_trans h0 hgt1
    · omega
    · intro j1 hj1
      rcases hd with ⟨_, hk0⟩ | ⟨_, _, _, _⟩
      · exact fp_lt_of_le_of_lt (hle j1 hj1) hgt1
      · exact fp_lt_of_le_of_lt (hle j1 hj1) hgt1
  · rw [if_neg hgt]
    have hle1 : w j ≤ st.1 := fp_le_of_not_lt hsn hwn hgt
    refine ⟨k, hk, ?_, ?_⟩
    · intro j1 hj1
      rcases Nat.lt_succ_iff_lt_or_eq.mp hj1 with h1 | h1
      · exact hle j1 h1
      · rw [h1]; exact hle1
    · rcases hd with hd | ⟨a, b, c, d⟩
      · exact Or.inl hd
      · exact Or.inr ⟨a, by omega, c, d⟩

/-- C4 (as amended). `mostLikelyGauss(x)` returns 0 for a model that is not
initialised.  For an initialised model with at least one state it compares the
weights as it computes them, `tmp = priors_[i] * gaussians_[i].pdf(x)` formed in
`double` and stored in a `float`; when these are all non-negative numbers it returns
the smallest index `k` that maximises them. -/
theorem mostLikelyGauss_first_argmax
    (gpdf : Gaussian FP → VectorType FP → FP) (x : VectorType FP) (m : GMM FP) :
    (m.initialized_ = false → mostLikelyGauss gpdf x m = some 0) ∧
    (m.initialized_ = true → m.SizesAgree → 1 ≤ m.num_states_ →
      (∀ j : Nat, (j : Int) < m.num_states_ → 0 ≤ m.floatWeight gpdf x j) →
      ∃ k : Nat, mostLikelyGauss gpdf x m = some (k : Int) ∧ (k : Int) < m.num_states_ ∧
        (∀ j : Nat, (j : Int) < m.num_states_ →
          m.floatWeight gpdf x j ≤ m.floatWeight gpdf x k) ∧
        (∀ j : Nat, j < k → m.floatWeight gpdf x j < m.floatWeight gpdf x k)) := by
  refine ⟨?_, ?_⟩
  · intro h; simp [mostLikelyGauss, h]
  · intro h hs hn hw
    obtain ⟨hg, hpl⟩ := hs
    have hloop := forLoop_indexed
      (fun i st => i ≤ m.num_states_.toNat ∧ ArgmaxInv (m.floatWeight gpdf x) i st)
      (mostLikelyStep gpdf x m) m.num_states_.toNat 0 (0, 0)
      ⟨by omega, 0, rfl, by intro j hj; omega, Or.inl ⟨rfl, rfl⟩⟩
      (by
        intro j t _ hj ht
        obtain ⟨p, g, e1, e2, e3⟩ := floatWeight_step gpdf x m j (by omega) (by omega)
        refine ⟨if m.floatWeight gpdf x j > t.1 then (m.floatWeight gpdf x j, (j : Int))
          else t, ?_, by omega, argmax_step _ j (hw j (by omega)) t ht.2⟩
        simp only [mostLikelyStep, e1, e2, e3]
        split <;> rfl)
    obtain ⟨⟨bl, best⟩, h1, _, k, hk, hle, hcase⟩ := hloop
    simp only [Nat.zero_add] at hle hcase
    simp only at hk
    refine ⟨k, ?_, ?_, ?_, ?_⟩
    · simp only [mostLikelyGauss, h, Bool.true_eq_false, if_false, h1, Option.map_some', hk]
    · rcases hcase with ⟨_, hk0⟩ | ⟨_, hkn, _, _⟩
      · omega
      · omega
    · intro j hj
      have hjn : j < m.num_states_.toNat := by omega
      rcases hcase with ⟨hb, hk0⟩ | ⟨_, _, hw1, _⟩
      · have h00 : m.floatWeight gpdf x 0 = 0 :=
          fp_le_antisymm (hb ▸ hle 0 (by omega)) (hw 0 (by omega))
        rw [hk0, h00]
        exact hb ▸ hle j hjn
      · rw [hw1]; exact hle j hjn
    · intro j hj
      rcases hcase with ⟨_, hk0⟩ | ⟨_, _, hw1, hlt⟩
      · omega
      · rw [hw1]; exact hlt j hj

/-- Witness for C4 (as amended): the scenario of the spec in floating point with the
stand-in density `1 / (1 + |x - mean|^2)`. -/
theorem mostLikelyGauss_first_argmax_witness :
    ∃ k : Nat,
      mostLikelyGauss standInDensity (fpVec [9, 9]) scenarioFloat = some (k : Int) ∧
      (k : Int) < scenarioFloat.num_states_ ∧
      (∀ j : Nat, (j : Int) < scenarioFloat.num_states_ →
        scenarioFloat.floatWeight standInDensity (fpVec [9, 9]) j ≤
        scenarioFloat.floatWeight standInDensity (fpVec [9, 9]) k) ∧
      (∀ j : Nat, j < k →
        scenarioFloat.floatWeight standInDensity (fpVec [9, 9]) j <
        scenarioFloat.floatWeight standInDensity (fpVec [9, 9]) k) :=
  (mostLikelyGauss_first_argmax standInDensity (fpVec [9, 9]) scenarioFloat).2 rfl
    (by decide) (by decide)
    (by
      intro j hj
      have hj2 : j < 2 := by simpa [scenarioFloat] using hj
      interval_cases j <;> decide!)

/-- The scenario of the spec in floating point, with the stand-in density: the point
`[9, 9]` is classified as state 1. -/
theorem mostLikelyGauss_scenario :
    mostLikelyGauss standInDensity (fpVec [9, 9]) scenarioFloat = some 1 := by
  decide!

/-- C4 (counterexample). In `tiedModel` the priors are the `double`s `1/2` and
`1/2 + 2^-30`; with the same density `1` for both components the product
`prior * density` is strictly larger for state 1, which alone maximises it.  Stored in
a `float`, both products are `1/2`, the comparison `tmp > best_likeliehood` fails for
state 1, and `mostLikelyGauss` returns 0. -/
theorem mostLikelyGauss_not_exact_argmax :
    mostLikelyGauss (fun _ _ => 1) (fpVec [0]) tiedModel = some 0 ∧
    tiedModel.priors_ = [FP.fin (1 / 2), FP.fin (1 / 2 + 1 / 1073741824)] ∧
    (1 / 2 : ℚ) * 1 < (1 / 2 + 1 / 1073741824) * 1 ∧
    roundTo binary64 (1 / 2 + 1 / 1073741824) = FP.fin (1 / 2 + 1 / 1073741824) ∧
    tiedModel.floatWeight (fun _ _ => 1) (fpVec [0]) 0 = FP.fin (1 / 2) ∧
    tiedModel.floatWeight (fun _ _ => 1) (fpVec [0]) 1 = FP.fin (1 / 2) ∧
    tiedModel.initialized_ = true ∧ 1 ≤ tiedModel.num_states_ ∧
    (∀ p ∈ tiedModel.priors_, 0 ≤ p) ∧ (0 : FP) ≤ 1 := by
  refine ⟨by decide!, rfl, by norm_num, by decide!, by decide!, by decide!, rfl,
    by decide, by decide!, by decide!⟩

/-! ## Sampling: the state selected by `draw` -/

/-- C2 (evaluation at the failing input). With the draw value `u = 0` the `while`
loop of `draw` is never entered, and the decrement after it leaves the state index
`-1`, with which `gaussians_` is read; the model is the scenario of the spec, whose
priors are non-negative and sum to one. -/
theorem draw_zero_selects_minus_one :
    drawState (0 : ℚ) (scenarioModel ℚ) = some (some (-1)) ∧
    (scenarioModel ℚ).initialized_ = true ∧ 1 ≤ (scenarioModel ℚ).num_states_ ∧
    (∀ p ∈ (scenarioModel ℚ).priors_, 0 ≤ p) ∧ (scenarioModel ℚ).priors_.sum = 1 := by
  refine ⟨by decide!, rfl, by decide, by decide!, by decide!⟩

/-- The evaluation of C2 in floating point: with the `double` priors nearest to `0.3`
and `0.7` and the draw value `0`, the selected index is `-1` as well. -/
theorem draw_zero_selects_minus_one_float :
    drawState (0 : FP) scenarioFloat = some (some (-1)) := by
  decide!

theorem drawLoop_runs {F : Type} [LT F] [DecidableRel (fun a b : F => a < b)]
    [PriorArith F] (thresh : F) (priors : List F) :
    ∀ (fuel : Nat) (accum : F) (state : Nat), state + fuel = priors.length →
      ∃ a s1, drawLoop thresh (priors.length : Int) priors fuel (accum, state) = some (a, s1) ∧
        s1 ≤ priors.length ∧ (accum < thresh → 0 < fuel → state + 1 ≤ s1) := by
  intro fuel
  induction fuel with
  | zero =>
    intro accum state h
    refine ⟨accum, state, ?_, by omega, by omega⟩
    have : ¬ ((state : Int) < (priors.length : Int)) := by omega
    simp [drawLoop, this]
  | succ fuel ih =>
    intro accum state h
    have hs : state < priors.length := by omega
    by_cases hc : accum < thresh
    · obtain ⟨a, s1, e, h1, h2⟩ := ih (PriorArith.addPrior accum priors[state])
        (state + 1) (by omega)
      have hmono : state + 1 ≤ s1 := by
        by_cases hf : 0 < fuel
        · by_cases hc2 : PriorArith.addPrior accum priors[state] < thresh
          · have := h2 hc2 hf; omega
          · cases fuel with
            | zero => omega
            | succ f =>
              simp only [drawLoop, hc2, false_and, if_false, Option.some.injEq,
                Prod.mk.injEq] at e
              omega
        · have hf0 : fuel = 0 := by omega
          subst hf0
          simp only [drawLoop] at e
          split at e
          · simp at e
          · simp only [Option.some.injEq, Prod.mk.injEq] at e
            omega
      refine ⟨a, s1, ?_, h1, fun _ _ => hmono⟩
      have hlt : (state : Int) < (priors.length : Int) := by omega
      simp only [drawLoop, hc, hlt, and_self, if_true, List.getElem?_eq_getElem hs]
      exact e
    · exact ⟨accum, state, by simp [drawLoop, hc], by omega, fun h _ => absurd h hc⟩

/-- For every draw value `u > 0` the state that `draw` selects on an initialised model
with at least one state lies in `[0, numStates - 1]`, in every arithmetic; the value
`u = 0` is the only one in `[0, 1)` at which the index leaves the range. -/
theorem drawState_in_range_of_pos {F : Type} [Zero F] [LT F]
    [DecidableRel (fun a b : F => a < b)] [PriorArith F] (thresh : F)
    (m : GMM F) (hi : m.initialized_ = true) (hs : m.SizesAgree) (hn : 1 ≤ m.num_states_)
    (hu : 0 < thresh) :
    ∃ k : Int, drawState thresh m = some (some k) ∧ 0 ≤ k ∧ k < m.num_states_ := by
  obtain ⟨_, hp⟩ := hs
  have hlen : m.num_states_.toNat = m.priors_.length := by omega
  obtain ⟨a, s1, e, h1, h2⟩ := drawLoop_runs thresh m.priors_ m.priors_.length 0 0
    (by omega)
  have hpos := h2 hu (by omega)
  refine ⟨(s1 : Int) - 1, ?_, by omega, by omega⟩
  have ht : ((m.priors_.length : Int)).toNat = m.priors_.length := by omega
  simp only [drawState, hi, Bool.true_eq_false, if_false, ← hp, ht, e]

/-! ## Axis-uniform seeding -/

/-- C7 (evaluation at the failing input). On the data `[0], [10]` with two states and
axis 0 the interval is `[0, 10]` and the target of component 0 is `0`, which the
first point meets exactly; `initUniformAlongAxis` nevertheless gives both components
the mean `[10]`, because it minimises the signed difference `desired - value`. -/
theorem initUniformAlongAxis_picks_largest :
    (initUniformAlongAxis 1 [[0], [10]] 0
        ({ num_states_ := 2, initialized_ := false, priors_ := [1/2, 1/2],
           gaussians_ := [⟨[0], midentity 1⟩, ⟨[0], midentity 1⟩] } : GMM ℚ)).map
      (fun m1 => m1.gaussians_.map (fun g => g.mean)) = some [[10], [10]] ∧
    axisMinMax 0 [[0], [10]] ((GFLOAT_MAX : ℚ), GFLOAT_MIN) = (0, 10) ∧
    |(0 : ℚ) - (0 + (10 - 0) * 0 / 2)| < |(10 : ℚ) - (0 + (10 - 0) * 0 / 2)| := by
  refine ⟨by decide!, by decide!, by norm_num⟩

/-! ## Reading a stream of another dimension -/

/-- C8. When the first four bytes of the stream decode to an `int` other than `DIM`,
`fromStream` returns false. -/
theorem fromStream_rejects_other_dimension {F : Type} [LinearOrderedField F] (DIM : Nat)
    (dflt : Gaussian F) (dc : DoubleCodec F) (gio : GaussianCodec F) (m : GMM F)
    (inp rest : List Byte) (dim : Int) (hread : readInt inp = some (dim, rest))
    (hdim : dim ≠ (DIM : Int)) :
    (fromStream DIM dflt dc gio m inp).map (fun r => r.1) = some false := by
  simp [fromStream, hread, hdim]

/-- Witness for C8: a stream that starts with the dimension 3, read by a model of
dimension 2. -/
theorem fromStream_rejects_other_dimension_witness :
    (fromStream 2 (⟨[0, 0], midentity 2⟩ : Gaussian ℚ) ⟨fun _ => [], fun _ => 0⟩
        ⟨fun _ => (true, []), fun g s => some (true, g, s)⟩ GMM.new
        [3, 0, 0, 0, 1, 0, 0, 0, 1]).map (fun r => r.1) = some false :=
  fromStream_rejects_other_dimension 2 _ _ _ _ [3, 0, 0, 0, 1, 0, 0, 0, 1]
    [1, 0, 0, 0, 1] 3 (by decide) (by decide)

/-! ## Reading a container -/

/-- C9 (evaluation at the failing input). A view with two well-formed messages of
the model's dimension is accepted: `fromBag` returns true and leaves the model read
from the second message.  The sub-message of a component is the component itself
here, and the external `Gaussian::fromMessage` copies it and succeeds. -/
theorem fromBag_accepts_two_messages :
    fromBag 1 (⟨[0], midentity 1⟩ : Gaussian ℚ) (fun _ gm => (true, gm))
      (some [⟨1, 1, true, [1], [⟨[5], [[1]]⟩]⟩, ⟨1, 1, true, [1], [⟨[7], [[2]]⟩]⟩])
      GMM.new
    = some (true, { num_states_ := 1, initialized_ := true, priors_ := [1],
                    gaussians_ := [⟨[7], [[2]]⟩] }) := by
  decide!

theorem fromBagLoop_rejects {F GM : Type} [LinearOrderedField F] (DIM : Nat)
    (dflt : Gaussian F) (gfm : Gaussian F → GM → Bool × Gaussian F) :
    ∀ (msgs : List (GaussianMixtureModelMsg F GM)) (count : Int) (m : GMM F)
      (r : Bool × GMM F), count ≤ 2 → 3 ≤ count + (msgs.length : Int) →
      fromBagLoop DIM dflt gfm msgs count m = some r → r.1 = false := by
  intro msgs
  induction msgs with
  | nil => intro count m r h1 h2 _; simp at h2; omega
  | cons msg rest ih =>
    intro count m r h1 h2 h
    simp only [fromBagLoop] at h
    by_cases hc : count > 1
    · simp only [hc, if_true, Option.some.injEq] at h
      rw [← h]
    · simp only [hc, if_false] at h
      cases hm : fromMessage DIM dflt gfm msg m with
      | none => simp [hm] at h
      | some r1 =>
        obtain ⟨ok, m1⟩ := r1
        simp only [hm] at h
        by_cases hok : ok = false
        · simp only [hok, if_true, Option.some.injEq] at h
          rw [← h]
        · simp only [hok, if_false] at h
          simp only [List.length_cons, Nat.cast_add, Nat.cast_one] at h2
          exact ih (count + 1) m1 r (by omega) (by omega) h

/-- A view with three or more messages is never accepted: whenever `fromBag` returns
on it, it returns false.  The guard `count > 1` thus rejects from the third message
on, one message later than its error text says. -/
theorem fromBag_rejects_three_messages {F GM : Type} [LinearOrderedField F] (DIM : Nat)
    (dflt : Gaussian F) (gfm : Gaussian F → GM → Bool × Gaussian F)
    (msgs : List (GaussianMixtureModelMsg F GM)) (m : GMM F) (r : Bool × GMM F)
    (hlen : 3 ≤ msgs.length) (h : fromBag DIM dflt gfm (some msgs) m = some r) :
    r.1 = false :=
  fromBagLoop_rejects DIM dflt gfm msgs 0 m r (by decide) (by omega) h

/-! ## The size invariant -/

theorem modifyNat_some {α : Type} (l : List α) (i : Nat) (f : α → α) (h : i < l.length) :
    ∃ l1, modifyNat l i f = some l1 ∧ l1.length = l.length := by
  refine ⟨l.set i (f l[i]), ?_, by simp⟩
  simp [modifyNat, List.getElem?_eq_getElem h]

theorem modifyNat_length {α : Type} (l l1 : List α) (i : Nat) (f : α → α)
    (h : modifyNat l i f = some l1) : l1.length = l.length := by
  unfold modifyNat at h
  cases hi : l[i]? with
  | none => simp [hi] at h
  | some x =>
    simp only [hi, Option.map_some', Option.some.injEq] at h
    rw [← h]; simp

theorem modifyAt_some {α : Type} (l : List α) (c : Int) (f : α → α) (h0 : 0 ≤ c)
    (h : c < (l.length : Int)) : ∃ l1, modifyAt l c f = some l1 ∧ l1.length = l.length := by
  unfold modifyAt
  rw [if_pos h0]
  exact modifyNat_some l c.toNat f (by omega)

theorem readAt_some {α : Type} (l : List α) (c : Int) (h0 : 0 ≤ c)
    (h : c < (l.length : Int)) : ∃ x, readAt l c = some x := by
  unfold readAt
  rw [if_pos h0]
  exact ⟨_, List.getElem?_eq_getElem (show c.toNat < l.length by omega)⟩

theorem setMean_sizes {F : Type} [LinearOrderedField F] (m : GMM F) (hs : m.SizesAgree)
    (state : Int) (mean : VectorType F) (h0 : 0 ≤ state) (h1 : state < m.num_states_) :
    ∃ m1, setMean state mean m = some m1 ∧ m1.SizesAgree := by
  obtain ⟨hg, hp⟩ := hs
  obtain ⟨gs, e, hl⟩ := modifyAt_some m.gaussians_ state (fun g => g.setMean mean) h0
    (by omega)
  refine ⟨{ m with gaussians_ := gs }, by simp [setMean, h0, h1, e], ?_, hp⟩
  show (gs.length : Int) = m.num_states_
  rw [hl]; exact hg

theorem setCovariance_sizes {F : Type} [LinearOrderedField F] (m : GMM F)
    (hs : m.SizesAgree) (state : Int) (cov : MatrixType F) (h0 : 0 ≤ state)
    (h1 : state < m.num_states_) :
    ∃ m1, setCovariance state cov m = some m1 ∧ m1.SizesAgree := by
  obtain ⟨hg, hp⟩ := hs
  obtain ⟨gs, e, hl⟩ := modifyAt_some m.gaussians_ state (fun g => g.setCovariance cov) h0
    (by omega)
  refine ⟨{ m with gaussians_ := gs }, by simp [setCovariance, h0, h1, e], ?_, hp⟩
  show (gs.length : Int) = m.num_states_
  rw [hl]; exact hg

theorem setPrior_sizes {F : Type} [LinearOrderedField F] (m : GMM F) (hs : m.SizesAgree)
    (state : Int) (prior : F) (h0 : 0 ≤ state) (h1 : state < m.num_states_) :
    ∃ m1, setPrior state prior m = some m1 ∧ m1.SizesAgree := by
  obtain ⟨hg, hp⟩ := hs
  obtain ⟨ps, e, hl⟩ := modifyAt_some m.priors_ state (fun _ => prior) h0 (by omega)
  refine ⟨{ m with priors_ := ps }, by simp [setPrior, h0, h1, e], hg, ?_⟩
  show (ps.length : Int) = m.num_states_
  rw [hl]; exact hp

theorem initRandom_sizes {F : Type}
    (m : GMM F) (hs : m.SizesAgree)
    (rnd : Nat → Nat) (data : List (VectorType F)) (hd : data ≠ []) :
    ∃ m1, initRandom rnd data m = some m1 ∧ m1.SizesAgree ∧
      m1.num_states_ = m.num_states_ := by
  obtain ⟨hg, hp⟩ := hs
  have hlen : 0 < data.length := List.length_pos.mpr hd
  obtain ⟨gs, e, hl⟩ := forLoop_total (fun gs => gs.length = m.gaussians_.length)
    (fun i gs =>
      if data.length = 0 then none
      else match data[rnd i % data.length]? with
        | none => none
        | some p => modifyNat gs i (fun g => { g with mean := p }))
    m.num_states_.toNat 0 m.gaussians_ rfl
    (by
      intro j t _ hj ht
      have hmod : rnd j % data.length < data.length := Nat.mod_lt _ hlen
      obtain ⟨l1, e1, hl1⟩ := modifyNat_some t j
        (fun g => { g with mean := data[rnd j % data.length] }) (by rw [ht]; omega)
      refine ⟨l1, ?_, hl1.trans ht⟩
      simp only [Nat.ne_of_gt hlen, if_false, List.getElem?_eq_getElem hmod]
      exact e1)
  refine ⟨{ m with gaussians_ := gs, initialized_ := true },
    by simp only [initRandom, e, Option.map_some'], ⟨?_, hp⟩, rfl⟩
  show (gs.length : Int) = m.num_states_
  rw [hl]; exact hg

theorem closestAlongAxis_index {F : Type} [LinearOrderedField F] (desired : F)
    (axis : Nat) : ∀ (ps : List (VectorType F)) (j : Nat) (acc : F × Nat),
      (closestAlongAxis desired axis ps j acc).2 = acc.2 ∨
      (j ≤ (closestAlongAxis desired axis ps j acc).2 ∧
        (closestAlongAxis desired axis ps j acc).2 < j + ps.length) := by
  intro ps
  induction ps with
  | nil => intro j acc; left; rfl
  | cons p ps ih =>
    intro j acc
    obtain ⟨bd, b⟩ := acc
    simp only [closestAlongAxis, List.length_cons]
    split
    · rcases ih (j + 1) (desired - p.getD axis 0, j) with h | h
      · right; rw [h]; simp
      · right; omega
    · rcases ih (j + 1) (bd, b) with h | h
      · left; exact h
      · right; omega

theorem initUniformAlongAxis_sizes {F : Type} [LinearOrderedField F] (DIM : Nat)
    (m : GMM F) (hs : m.SizesAgree) (data : List (VectorType F)) (hd : data ≠ [])
    (axis : Int) (h0 : 0 ≤ axis) (h1 : axis < (DIM : Int)) :
    ∃ m1, initUniformAlongAxis DIM data axis m = some m1 ∧ m1.SizesAgree := by
  obtain ⟨hg, hp⟩ := hs
  have hlen : 0 < data.length := List.length_pos.mpr hd
  obtain ⟨gs, e, hl⟩ := forLoop_total (fun gs => gs.length = m.gaussians_.length)
    (fun i gs =>
        let desired := ((axisMinMax axis.toNat data (GFLOAT_MAX, GFLOAT_MIN)).2
          - (axisMinMax axis.toNat data (GFLOAT_MAX, GFLOAT_MIN)).1) * (i : F)
          / (m.num_states_ : F) + (axisMinMax axis.toNat data (GFLOAT_MAX, GFLOAT_MIN)).1
        let best := (closestAlongAxis desired axis.toNat data 0 (GFLOAT_MAX, 0)).2
        match data[best]? with
        | none => none
        | some p => modifyNat gs i (fun g => g.setMean p))
    m.num_states_.toNat 0 m.gaussians_ rfl
    (by
      intro j t _ hj ht
      simp only
      generalize hb : (closestAlongAxis _ axis.toNat data 0 ((GFLOAT_MAX : F), 0)).2 = best
      have hbest : best < data.length := by
        have := closestAlongAxis_index
          (((axisMinMax axis.toNat data (GFLOAT_MAX, GFLOAT_MIN)).2
          - (axisMinMax axis.toNat data (GFLOAT_MAX, GFLOAT_MIN)).1) * (j : F)
          / (m.num_states_ : F) + (axisMinMax axis.toNat data (GFLOAT_MAX, GFLOAT_MIN)).1)
          axis.toNat data 0 ((GFLOAT_MAX : F), 0)
        rw [hb] at this
        rcases this with h | h
        · simp at h; omega
        · omega
      obtain ⟨l1, e1, hl1⟩ := modifyNat_some t j
        (fun g => g.setMean data[best]) (by rw [ht]; omega)
      refine ⟨l1, ?_, hl1.trans ht⟩
      simp only [List.getElem?_eq_getElem hbest]
      exact e1)
  refine ⟨{ m with gaussians_ := gs, initialized_ := true }, ?_, ⟨?_, hp⟩⟩
  · simp only [initUniformAlongAxis, h0, h1, and_self, if_true, e, Option.map_some']
  · show (gs.length : Int) = m.num_states_
    rw [hl]; exact hg

theorem resetStep_sized {F : Type} [Zero F] [One F] [Add F] [Sub F] [Mul F] [Div F]
    [IntCast F]
    (DIM n i : Nat)
    (s : UpdateState F) (hi : i < n) (hs : s.Sized n) :
    ∃ s1, resetStep DIM i s = some s1 ∧ s1.Sized n := by
  obtain ⟨h1, h2, h3⟩ := hs
  obtain ⟨a, ea, la⟩ := modifyNat_some s.patterns_per_cluster i (fun _ => 0) (by omega)
  obtain ⟨b, eb, lb⟩ := modifyNat_some s.gaussians i
    (fun g => { g with mean := (vzero DIM : VectorType F) }) (by omega)
  obtain ⟨c, ec, lc⟩ := modifyNat_some s.tmp_covar i (fun _ => (mzero DIM : MatrixType F))
    (by omega)
  have e : resetStep DIM i s
      = some { patterns_per_cluster := a, tmp_covar := c, gaussians := b } := by
    simp only [resetStep, ea, eb, ec]
  refine ⟨_, e, ?_, ?_, ?_⟩
  · exact la.trans h1
  · exact lc.trans h2
  · exact lb.trans h3

theorem meanStep_sized {F : Type} [Zero F] [One F] [Add F] [Sub F] [Mul F] [Div F]
    [IntCast F]
    (n i : Nat)
    (assignments : List Int) (pats : List (VectorType F)) (s : UpdateState F)
    (hi : i < pats.length) (ha : InRange (n : Int) assignments pats.length)
    (hs : s.Sized n) :
    ∃ s1, meanStep assignments pats i s = some s1 ∧ s1.Sized n := by
  obtain ⟨h1, h2, h3⟩ := hs
  obtain ⟨c, ec, c0, c1⟩ := ha i hi
  obtain ⟨a, ea, la⟩ := modifyAt_some s.patterns_per_cluster c (· + 1) c0 (by omega)
  obtain ⟨b, eb, lb⟩ := modifyAt_some s.gaussians c
    (fun g => { g with mean := vadd g.mean pats[i] }) c0 (by omega)
  have e : meanStep assignments pats i s
      = some { s with patterns_per_cluster := a, gaussians := b } := by
    simp only [meanStep, ec, List.getElem?_eq_getElem hi, ea, eb]
  refine ⟨_, e, ?_, ?_, ?_⟩
  · exact la.trans h1
  · exact h2
  · exact lb.trans h3

theorem normalizeMeanStep_sized {F : Type} [Zero F] [One F] [Add F] [Sub F] [Mul F] [Div F]
    [IntCast F]
    (n i : Nat)
    (s : UpdateState F) (hi : i < n) (hs : s.Sized n) :
    ∃ s1, normalizeMeanStep i s = some s1 ∧ s1.Sized n := by
  obtain ⟨h1, h2, h3⟩ := hs
  have hi1 : i < s.patterns_per_cluster.length := by omega
  simp only [normalizeMeanStep, List.getElem?_eq_getElem hi1]
  split
  · obtain ⟨b, eb, lb⟩ := modifyNat_some s.gaussians i
      (fun g => { g with mean := vdiv g.mean ((s.patterns_per_cluster[i] : Int) : F) })
      (by omega)
    exact ⟨{ s with gaussians := b }, by simp only [eb, Option.map_some'], h1, h2,
      lb.trans h3⟩
  · exact ⟨s, rfl, h1, h2, h3⟩

theorem covarStep_sized {F : Type} [Zero F] [One F] [Add F] [Sub F] [Mul F] [Div F]
    [IntCast F]
    (n i : Nat)
    (assignments : List Int) (pats : List (VectorType F)) (s : UpdateState F)
    (hi : i < pats.length) (ha : InRange (n : Int) assignments pats.length)
    (hs : s.Sized n) :
    ∃ s1, covarStep assignments pats i s = some s1 ∧ s1.Sized n := by
  obtain ⟨h1, h2, h3⟩ := hs
  obtain ⟨c, ec, c0, c1⟩ := ha i hi
  obtain ⟨g, eg⟩ := readAt_some s.gaussians c c0 (by omega)
  obtain ⟨a, ea, la⟩ := modifyAt_some s.tmp_covar c
    (fun t => madd t (outer (vsub pats[i] g.mean))) c0 (by omega)
  have e : covarStep assignments pats i s = some { s with tmp_covar := a } := by
    simp only [covarStep, ec, List.getElem?_eq_getElem hi, eg, ea, Option.map_some']
  refine ⟨_, e, ?_, ?_, ?_⟩
  · exact h1
  · exact la.trans h2
  · exact h3

theorem normalizeCovarStep_sized {F : Type} [Zero F] [One F] [Add F] [Sub F] [Mul F] [Div F]
    [IntCast F]
    (DIM n i : Nat)
    (s : UpdateState F) (hi : i < n) (hs : s.Sized n) :
    ∃ s1, normalizeCovarStep DIM i s = some s1 ∧ s1.Sized n := by
  obtain ⟨h1, h2, h3⟩ := hs
  have hi1 : i < s.patterns_per_cluster.length := by omega
  have hi2 : i < s.tmp_covar.length := by omega
  obtain ⟨b, eb, lb⟩ := modifyNat_some s.gaussians i
    (fun g => g.setCovariance
      (if s.patterns_per_cluster[i] > 0
        then mdiv s.tmp_covar[i] ((s.patterns_per_cluster[i] : Int) : F)
        else midentity DIM)) (by omega)
  have e : normalizeCovarStep DIM i s = some { s with
      tmp_covar := s.tmp_covar.set i
        (if s.patterns_per_cluster[i] > 0
          then mdiv s.tmp_covar[i] ((s.patterns_per_cluster[i] : Int) : F)
          else midentity DIM)
      gaussians := b } := by
    simp only [normalizeCovarStep, List.getElem?_eq_getElem hi1,
      List.getElem?_eq_getElem hi2, eb, Option.map_some']
  refine ⟨_, e, ?_, ?_, ?_⟩
  · exact h1
  · show (s.tmp_covar.set i _).length = n
    rw [List.length_set]; exact h2
  · exact lb.trans h3

theorem updateClusters_sizes {F : Type} [Zero F] [One F] [Add F] [Sub F] [Mul F] [Div F]
    [IntCast F]
    (DIM : Nat) (m : GMM F)
    (hs : m.SizesAgree) (assignments : List Int) (pats : List (VectorType F))
    (ha : InRange m.num_states_ assignments pats.length) :
    ∃ m1, updateClusters DIM assignments pats m = some m1 ∧ m1.SizesAgree ∧
      m1.num_states_ = m.num_states_ := by
  obtain ⟨hg, hp⟩ := hs
  have hn : ¬ m.num_states_ < 0 := by omega
  have hcast : ((m.num_states_.toNat : Nat) : Int) = m.num_states_ :=
    Int.toNat_of_nonneg (by omega)
  have ha1 : InRange ((m.num_states_.toNat : Nat) : Int) assignments pats.length := by
    rw [hcast]; exact ha
  obtain ⟨s1, e1, q1⟩ := forLoop_total (UpdateState.Sized m.num_states_.toNat)
    (resetStep DIM) m.num_states_.toNat 0
    { patterns_per_cluster := List.replicate m.num_states_.toNat 0
      tmp_covar := List.replicate m.num_states_.toNat (mzero DIM)
      gaussians := m.gaussians_ }
    ⟨by simp, by simp, by show m.gaussians_.length = _; omega⟩
    (fun j t _ hj ht => resetStep_sized DIM _ j t (by omega) ht)
  obtain ⟨s2, e2, q2⟩ := forLoop_total (UpdateState.Sized m.num_states_.toNat)
    (meanStep assignments pats) pats.length 0 s1 q1
    (fun j t _ hj ht => meanStep_sized _ j assignments pats t (by omega) ha1 ht)
  obtain ⟨s3, e3, q3⟩ := forLoop_total (UpdateState.Sized m.num_states_.toNat)
    normalizeMeanStep m.num_states_.toNat 0 s2 q2
    (fun j t _ hj ht => normalizeMeanStep_sized _ j t (by omega) ht)
  obtain ⟨s4, e4, q4⟩ := forLoop_total (UpdateState.Sized m.num_states_.toNat)
    (covarStep assignments pats) pats.length 0 s3 q3
    (fun j t _ hj ht => covarStep_sized _ j assignments pats t (by omega) ha1 ht)
  obtain ⟨s5, e5, q5⟩ := forLoop_total (UpdateState.Sized m.num_states_.toNat)
    (normalizeCovarStep DIM) m.num_states_.toNat 0 s4 q4
    (fun j t _ hj ht => normalizeCovarStep_sized DIM _ j t (by omega) ht)
  refine ⟨{ m with gaussians_ := s5.gaussians }, ?_, ⟨?_, hp⟩, rfl⟩
  · simp only [updateClusters, hn, if_false, e1, e2, e3, e4, e5, Option.some_bind,
      Option.map_some']
  · show (s5.gaussians.length : Int) = m.num_states_
    rw [q5.2.2]; exact hcast

theorem nearest_index {F : Type} [Zero F] [Add F] [Sub F] [Mul F] [LT F]
    [DecidableRel (fun a b : F => a < b)] [NatCast F]
    (p : VectorType F) :
    ∀ (gs : List (Gaussian F)) (g_idx : Int) (acc : F × Int),
      (nearest p gs g_idx acc).2 = acc.2 ∨
      (g_idx ≤ (nearest p gs g_idx acc).2 ∧
        (nearest p gs g_idx acc).2 < g_idx + (gs.length : Int)) := by
  intro gs
  induction gs with
  | nil => intro g_idx acc; left; rfl
  | cons g gs ih =>
    intro g_idx acc
    obtain ⟨d, b⟩ := acc
    simp only [nearest, List.length_cons]
    split
    · rcases ih (g_idx + 1) (squaredNorm (vsub p g.mean), g_idx) with h | h
      · right; rw [h]; simp
      · right; push_cast; omega
    · rcases ih (g_idx + 1) (d, b) with h | h
      · left; exact h
      · right; push_cast; omega

theorem inRange_set {n : Int} {a : List Int} {i : Nat} (h : InRange n a i)
    (hi : i < a.length) (v : Int) (h0 : 0 ≤ v) (h1 : v < n) :
    InRange n (a.set i v) (i + 1) := by
  intro j hj
  rcases Nat.lt_succ_iff_lt_or_eq.mp hj with hlt | heq
  · obtain ⟨w, e, w0, w1⟩ := h j hlt
    exact ⟨w, by rw [List.getElem?_set_ne (by omega)]; exact e, w0, w1⟩
  · exact ⟨v, by rw [heq, List.getElem?_set_self hi], h0, h1⟩

theorem clusterLoop_inRange {F : Type} [Zero F] [Add F] [Sub F] [Mul F] [LT F]
    [DecidableRel (fun a b : F => a < b)] [NatCast F]
    (gs : List (Gaussian F)) :
    ∀ (pats : List (VectorType F)) (i : Nat) (a : List Int) (best : Int) (sd : F),
      i + pats.length ≤ a.length → InRange (gs.length : Int) a i → 0 ≤ best →
      best < (gs.length : Int) →
      ∃ a1 b1 sd1, clusterLoop gs pats i (a, best, sd) = some (a1, b1, sd1) ∧
        a1.length = a.length ∧ InRange (gs.length : Int) a1 (i + pats.length) := by
  intro pats
  induction pats with
  | nil => intro i a best sd _ hr _ _; exact ⟨a, best, sd, rfl, rfl, hr⟩
  | cons p ps ih =>
    intro i a best sd hlen hr hb0 hb1
    simp only [List.length_cons] at hlen
    have hi : i < a.length := by omega
    have hidx : 0 ≤ (nearest p gs 0 (GFLOAT_MAX, best)).2 ∧
        (nearest p gs 0 (GFLOAT_MAX, best)).2 < (gs.length : Int) := by
      rcases nearest_index p gs 0 ((GFLOAT_MAX : F), best) with h | h
      · rw [h]; exact ⟨hb0, hb1⟩
      · omega
    obtain ⟨a1, b1, sd1, e, hl, hr1⟩ := ih (i + 1)
      (a.set i (nearest p gs 0 (GFLOAT_MAX, best)).2)
      (nearest p gs 0 (GFLOAT_MAX, best)).2
      (sd + (nearest p gs 0 (GFLOAT_MAX, best)).1)
      (by rw [List.length_set]; omega) (inRange_set hr hi _ hidx.1 hidx.2) hidx.1 hidx.2
    refine ⟨a1, b1, sd1, ?_, by rw [hl, List.length_set], ?_⟩
    · simp only [clusterLoop, modifyNat, List.getElem?_eq_getElem hi, Option.map_some']
      exact e
    · have e2 : i + (ps.length + 1) = i + 1 + ps.length := by omega
      simp only [List.length_cons, e2]; exact hr1

theorem changedLoop_some (a old : List Int) :
    ∀ (k i : Nat), i + k ≤ a.length → i + k ≤ old.length →
      ∃ b, changedLoop a old i k = some b := by
  intro k
  induction k with
  | zero => intro i _ _; exact ⟨false, rfl⟩
  | succ k ih =>
    intro i h1 h2
    have hi1 : i < a.length := by omega
    have hi2 : i < old.length := by omega
    simp only [changedLoop, List.getElem?_eq_getElem hi1, List.getElem?_eq_getElem hi2]
    split
    · exact ⟨true, rfl⟩
    · exact ih (i + 1) (by omega) (by omega)

theorem cluster_inRange {F : Type} [Zero F] [Add F] [Sub F] [Mul F] [LT F]
    [DecidableRel (fun a b : F => a < b)] [NatCast F]
    (m : GMM F)
    (assignments old_assignments : List Int) (pats : List (VectorType F))
    (h1 : pats.length ≤ assignments.length) (h2 : pats.length ≤ old_assignments.length)
    (hn : 0 < m.gaussians_.length) :
    ∃ d a1 ch, cluster m assignments old_assignments pats = some (d, a1, ch) ∧
      a1.length = assignments.length ∧
      InRange (m.gaussians_.length : Int) a1 pats.length := by
  obtain ⟨a1, b1, sd1, e, hl, hr⟩ := clusterLoop_inRange m.gaussians_ pats 0 assignments 0 0
    (by omega) (by intro j hj; omega) (le_refl 0) (by omega)
  obtain ⟨ch, ec⟩ := changedLoop_some a1 old_assignments pats.length 0 (by omega) (by omega)
  refine ⟨sd1, a1, ch, ?_, hl, by simpa using hr⟩
  simp only [cluster, e, ec]

theorem kmeansStep_inv {F : Type} [Zero F] [One F] [Add F] [Sub F] [Mul F] [Div F] [LT F]
    [DecidableRel (fun a b : F => a < b)] [NatCast F] [IntCast F]
    (DIM : Nat)
    (data : List (VectorType F)) (n : Int) (hn : 1 ≤ n) (st : KmeansState F)
    (h : KmeansInv n data.length st) :
    ∃ st1, kmeansStep DIM data st = some st1 ∧
      KmeansInv n data.length { st1 with iter := st1.iter + 1 } := by
  obtain ⟨hs, hnum, hl1, hl2, hr⟩ := h
  by_cases hpar : st.iter % 2 = 0
  · rw [if_pos hpar] at hr
    obtain ⟨m1, e1, hs1, hn1⟩ := updateClusters_sizes DIM st.model hs st.assignments2 data
      (by rw [hnum]; exact hr)
    have hg : (m1.gaussians_.length : Int) = n := by rw [hs1.1, hn1, hnum]
    obtain ⟨d, a1, ch, e2, hla, hra⟩ := cluster_inRange m1 st.assignments st.assignments2
      data (by omega) (by omega) (by omega)
    refine ⟨{ st with model := m1, assignments := a1, changed := ch }, ?_, hs1,
      by rw [hn1, hnum], by rw [← hl1]; exact hla, hl2, ?_⟩
    · simp only [kmeansStep, hpar, if_true, e1, e2]
    · have hodd : ¬ (st.iter + 1) % 2 = 0 := by omega
      show (if (st.iter + 1) % 2 = 0 then _ else InRange n a1 data.length)
      rw [if_neg hodd, ← hg]; exact hra
  · rw [if_neg hpar] at hr
    obtain ⟨m1, e1, hs1, hn1⟩ := updateClusters_sizes DIM st.model hs st.assignments data
      (by rw [hnum]; exact hr)
    have hg : (m1.gaussians_.length : Int) = n := by rw [hs1.1, hn1, hnum]
    obtain ⟨d, a2, ch, e2, hla, hra⟩ := cluster_inRange m1 st.assignments2 st.assignments
      data (by omega) (by omega) (by omega)
    refine ⟨{ st with model := m1, assignments2 := a2, changed := ch }, ?_, hs1,
      by rw [hn1, hnum], hl1, by rw [← hl2]; exact hla, ?_⟩
    · simp only [kmeansStep, hpar, if_false, e1, e2]
    · have heven : (st.iter + 1) % 2 = 0 := by omega
      show (if (st.iter + 1) % 2 = 0 then InRange n a2 data.length else _)
      rw [if_pos heven, ← hg]; exact hra

theorem kmeansLoop_sizes {F : Type} [Zero F] [One F] [Add F] [Sub F] [Mul F] [Div F] [LT F]
    [DecidableRel (fun a b : F => a < b)] [NatCast F] [IntCast F]
    (DIM : Nat)
    (data : List (VectorType F)) (n : Int) (hn : 1 ≤ n) :
    ∀ (fuel : Nat) (st : KmeansState F), KmeansInv n data.length st →
      ∃ st1, kmeansLoop DIM data fuel st = some st1 ∧ st1.model.SizesAgree ∧
        st1.model.num_states_ = n := by
  intro fuel
  induction fuel with
  | zero => intro st h; exact ⟨st, rfl, h.1, h.2.1⟩
  | succ fuel ih =>
    intro st h
    obtain ⟨st1, e1, h1⟩ := kmeansStep_inv DIM data n hn st h
    by_cases hc : st1.changed = false
    · exact ⟨st1, by simp only [kmeansLoop, e1, hc, if_true], h1.1, h1.2.1⟩
    · obtain ⟨st2, e2, h2⟩ := ih _ h1
      refine ⟨st2, ?_, h2⟩
      simp only [kmeansLoop, e1]
      rw [if_neg hc]; exact e2

theorem initKmeans_sizes {F : Type} [Zero F] [One F] [Add F] [Sub F] [Mul F] [Div F] [LT F]
    [DecidableRel (fun a b : F => a < b)] [NatCast F] [IntCast F]
    (DIM : Nat) (m : GMM F)
    (hs : m.SizesAgree) (rnd : Nat → Nat) (data : List (VectorType F)) (hd : data ≠ [])
    (hn : 1 ≤ m.num_states_) (max_iter : Int) :
    ∃ m1, initKmeans DIM rnd data max_iter m = some m1 ∧ m1.SizesAgree := by
  obtain ⟨m0, e0, hs0, hn0⟩ := initRandom_sizes m hs rnd data hd
  have hg : (m0.gaussians_.length : Int) = m.num_states_ := by rw [hs0.1, hn0]
  obtain ⟨d, a1, ch, e1, hla, hra⟩ := cluster_inRange m0 (List.replicate data.length 0)
    (List.replicate data.length (-1)) data (by simp) (by simp) (by omega)
  obtain ⟨st1, e2, hs1, _⟩ := kmeansLoop_sizes DIM data m.num_states_ hn
    (max_iter - 1).toNat
    { model := m0, assignments := a1, assignments2 := List.replicate data.length (-1),
      changed := true, iter := 1 }
    ⟨hs0, hn0, by rw [hla]; simp, by simp, by
      show (if 1 % 2 = 0 then _ else InRange m.num_states_ a1 data.length)
      rw [if_neg (by decide), ← hg]; exact hra⟩
  refine ⟨{ st1.model with initialized_ := true }, ?_, hs1⟩
  simp only [initKmeans, initKmeansRun, e0, e1, e2, Option.map_some']

theorem resize_length {α : Type} (l : List α) (n : Nat) (d : α) :
    (resize l n d).length = n := by
  simp only [resize, List.length_append, List.length_take, List.length_replicate]
  omega

theorem setNumStates_sizes {F : Type} [LinearOrderedField F] (dflt : Gaussian F)
    (n : Int) (hn : 0 ≤ n) (m : GMM F) :
    ∃ m1, setNumStates dflt n m = some m1 ∧ m1.SizesAgree ∧ m1.num_states_ = n := by
  have hnn : ¬ n < 0 := by omega
  refine ⟨{ m with
      gaussians_ := resize m.gaussians_ n.toNat dflt
      priors_ := List.replicate n.toNat (1 / (n : F))
      num_states_ := n }, by simp only [setNumStates, hnn, if_false], ⟨?_, ?_⟩, rfl⟩
  · show ((resize m.gaussians_ n.toNat dflt).length : Int) = n
    rw [resize_length]; omega
  · show ((List.replicate n.toNat (1 / (n : F))).length : Int) = n
    rw [List.length_replicate]; omega

theorem setNumStates_some {F : Type} [LinearOrderedField F] (dflt : Gaussian F)
    (n : Int) (m m1 : GMM F) (h : setNumStates dflt n m = some m1) :
    0 ≤ n ∧ m1.SizesAgree ∧ m1.num_states_ = n := by
  by_cases hn : n < 0
  · simp [setNumStates, hn] at h
  · obtain ⟨m2, e, h2⟩ := setNumStates_sizes dflt n (by omega) m
    rw [e] at h
    cases h
    exact ⟨by omega, h2⟩

theorem readPriorsStep_length {F : Type} [LinearOrderedField F] (dc : DoubleCodec F)
    (L : Nat) (j : Nat) (t t1 : List F × List Byte) (ht : t.1.length = L)
    (h : readPriorsStep dc j t = some t1) : t1.1.length = L := by
  unfold readPriorsStep at h
  cases hr : readDouble dc t.2 with
  | none => simp [hr] at h
  | some pr =>
    obtain ⟨p, rest⟩ := pr
    simp only [hr] at h
    cases hm : modifyNat t.1 j (fun _ => p) with
    | none => simp [hm] at h
    | some ps =>
      simp only [hm, Option.map_some', Option.some.injEq] at h
      rw [← h]
      exact (modifyNat_length _ _ _ _ hm).trans ht

theorem readGaussiansStep_length {F : Type} [LinearOrderedField F]
    (gio : GaussianCodec F) (L : Nat) (j : Nat)
    (t t1 : Bool × List (Gaussian F) × List Byte) (ht : t.2.1.length = L)
    (h : readGaussiansStep gio j t = some t1) : t1.2.1.length = L := by
  unfold readGaussiansStep at h
  cases hg : t.2.1[j]? with
  | none => simp [hg] at h
  | some g =>
    simp only [hg] at h
    cases hr : gio.fromStream g t.2.2 with
    | none => simp [hr] at h
    | some r =>
      obtain ⟨r1, g1, rest⟩ := r
      simp only [hr, Option.some.injEq] at h
      rw [← h]
      show (t.2.1.set j g1).length = L
      rw [List.length_set]; exact ht

theorem fromStream_sizes {F : Type} [LinearOrderedField F] (DIM : Nat)
    (dflt : Gaussian F) (dc : DoubleCodec F) (gio : GaussianCodec F) (m m1 : GMM F)
    (inp rest : List Byte)
    (h : fromStream DIM dflt dc gio m inp = some (true, m1, rest)) : m1.SizesAgree := by
  unfold fromStream at h
  cases h1 : readInt inp with
  | none => simp [h1] at h
  | some r1 =>
    obtain ⟨dim, s1⟩ := r1
    simp only [h1] at h
    by_cases hdim : dim ≠ (DIM : Int)
    · simp [hdim] at h
    · simp only [hdim, if_false] at h
      cases h2 : readInt s1 with
      | none => simp [h2] at h
      | some r2 =>
        obtain ⟨n, s2⟩ := r2
        simp only [h2] at h
        cases h3 : setNumStates dflt n { m with num_states_ := n } with
        | none => simp [h3] at h
        | some m2 =>
          obtain ⟨hn, ⟨hg, hp⟩, hnum⟩ := setNumStates_some dflt n _ m2 h3
          simp only [h3] at h
          cases h4 : readBool s2 with
          | none => simp [h4] at h
          | some r4 =>
            obtain ⟨b, s3⟩ := r4
            simp only [h4] at h
            cases h5 : forLoop (readPriorsStep dc) 0 m2.priors_.length (m2.priors_, s3) with
            | none => simp [h5] at h
            | some r5 =>
              obtain ⟨ps, s4⟩ := r5
              simp only [h5] at h
              cases h6 : forLoop (readGaussiansStep gio) 0 m2.num_states_.toNat
                  (true, m2.gaussians_, s4) with
              | none => simp [h6] at h
              | some r6 =>
                obtain ⟨res, gs, s5⟩ := r6
                simp only [h6, Option.some.injEq, Prod.mk.injEq] at h
                obtain ⟨_, hm, _⟩ := h
                have lp := forLoop_preserves (fun t => t.1.length = m2.priors_.length)
                  (readPriorsStep dc)
                  (fun j t t1 ht hb => readPriorsStep_length dc _ j t t1 ht hb)
                  _ _ _ _ rfl h5
                have lg := forLoop_preserves
                  (fun t => t.2.1.length = m2.gaussians_.length)
                  (readGaussiansStep gio)
                  (fun j t t1 ht hb => readGaussiansStep_length gio _ j t t1 ht hb)
                  _ _ _ _ rfl h6
                rw [← hm]
                refine ⟨?_, ?_⟩
                · show (gs.length : Int) = m2.num_states_
                  simp only at lg
                  rw [lg]; exact hg
                · show (ps.length : Int) = m2.num_states_
                  simp only at lp
                  rw [lp]; exact hp

/-! ## Serialisation round trip -/

theorem readInt_writeInt (i : Int) (h0 : -2147483648 ≤ i) (h1 : i < 2147483648)
    (rest : List Byte) : readInt (writeInt i ++ rest) = some (i, rest) := by
  have hu : (((i % 4294967296).toNat : Nat) : Int) = i % 4294967296 :=
    Int.toNat_of_nonneg (Int.emod_nonneg _ (by decide))
  generalize (i % 4294967296).toNat = u at hu
  simp only [writeInt, List.cons_append, List.nil_append, readInt, Fin.ofNat, Fin.val_mk,
    Option.some.injEq, Prod.mk.injEq, and_true]
  split <;> omega

theorem readBool_writeBool (b : Bool) (rest : List Byte) :
    readBool (writeBool b ++ rest) = some (b, rest) := by
  cases b <;> simp [writeBool, readBool]

theorem foldl_append_flatBytes {α : Type} (f : α → List Byte) :
    ∀ (l : List α) (init : List Byte),
      l.foldl (fun out p => out ++ f p) init = init ++ flatBytes f l := by
  intro l
  induction l with
  | nil => intro init; simp [flatBytes]
  | cons a l ih => intro init; simp [List.foldl, ih, flatBytes, List.append_assoc]

theorem toStream_loop {F : Type} [LinearOrderedField F] (gio : GaussianCodec F)
    (gs : List (Gaussian F)) :
    ∀ (k i : Nat) (res : Bool) (out : List Byte), i + k ≤ gs.length →
      ∃ res1, forLoop (fun i (st : Bool × List Byte) =>
          match gs[i]? with
          | none => none
          | some g => some (st.1 && (gio.toStream g).1, st.2 ++ (gio.toStream g).2))
        i k (res, out)
        = some (res1, out ++ flatBytes (fun g => (gio.toStream g).2) ((gs.drop i).take k)) := by
  intro k
  induction k with
  | zero => intro i res out _; exact ⟨res, by simp [forLoop, flatBytes]⟩
  | succ k ih =>
    intro i res out h
    have hi : i < gs.length := by omega
    obtain ⟨res1, e⟩ := ih (i + 1) (res && (gio.toStream gs[i]).1)
      (out ++ (gio.toStream gs[i]).2) (by omega)
    refine ⟨res1, ?_⟩
    simp only [forLoop, List.getElem?_eq_getElem hi, Option.some_bind]
    rw [e, List.drop_eq_getElem_cons hi]
    simp [flatBytes, List.append_assoc]

theorem readPriors_loop {F : Type} [LinearOrderedField F] (dc : DoubleCodec F)
    (rest : List Byte) :
    ∀ (todo done cur : List F), cur.length = todo.length →
      (∀ p ∈ todo, (dc.toBytes p).length = 8 ∧ dc.ofBytes (dc.toBytes p) = p) →
      forLoop (readPriorsStep dc) done.length todo.length
        (done ++ cur, flatBytes dc.toBytes todo ++ rest) = some (done ++ todo, rest) := by
  intro todo
  induction todo with
  | nil =>
    intro done cur hl _
    have : cur = [] := List.length_eq_zero.mp hl
    simp [forLoop, flatBytes, this]
  | cons p todo ih =>
    intro done cur hl hc
    cases cur with
    | nil => simp at hl
    | cons c cur =>
      obtain ⟨h8, hrt⟩ := hc p (List.mem_cons_self _ _)
      have hread : readDouble dc (flatBytes dc.toBytes (p :: todo) ++ rest)
          = some (p, flatBytes dc.toBytes todo ++ rest) := by
        simp only [readDouble, flatBytes, List.append_assoc, List.length_append, h8]
        rw [if_neg (by omega)]
        simp [List.take_append_of_le_length, List.drop_append_of_le_length, h8, hrt,
          List.take_of_length_le, List.drop_of_length_le]
      have hmod : modifyNat (done ++ c :: cur) done.length (fun _ => p)
          = some ((done ++ [p]) ++ cur) := by
        simp [modifyNat]
      have := ih (done ++ [p]) cur (by simpa using hl)
        (fun q hq => hc q (List.mem_cons_of_mem _ hq))
      simp only [List.length_append, List.length_singleton] at this
      simp only [List.length_cons, forLoop, readPriorsStep, hread, hmod, Option.map_some',
        Option.some_bind]
      rw [this]
      simp

theorem readGaussians_loop {F : Type} [LinearOrderedField F] (gio : GaussianCodec F)
    (rest : List Byte) :
    ∀ (todo done cur : List (Gaussian F)) (res : Bool), cur.length = todo.length →
      (∀ g ∈ todo, ∀ g0 r, gio.fromStream g0 ((gio.toStream g).2 ++ r) = some (true, g, r)) →
      forLoop (readGaussiansStep gio) done.length todo.length
        (res, done ++ cur, flatBytes (fun g => (gio.toStream g).2) todo ++ rest)
        = some (res, done ++ todo, rest) := by
  intro todo
  induction todo with
  | nil =>
    intro done cur res hl _
    have : cur = [] := List.length_eq_zero.mp hl
    simp [forLoop, flatBytes, this]
  | cons g todo ih =>
    intro done cur res hl hc
    cases cur with
    | nil => simp at hl
    | cons c cur =>
      have hrt := hc g (List.mem_cons_self _ _) c
        (flatBytes (fun g => (gio.toStream g).2) todo ++ rest)
      have := ih (done ++ [g]) cur res (by simpa using hl)
        (fun q hq => hc q (List.mem_cons_of_mem _ hq))
      simp only [List.length_append, List.length_singleton] at this
      simp only [List.length_cons, forLoop, readGaussiansStep, flatBytes, List.append_assoc]
      simp only [List.getElem?_append_right (le_refl done.length), Nat.sub_self,
        List.getElem?_cons_zero, hrt, Option.some_bind, Bool.and_true]
      have hset : (done ++ c :: cur).set done.length g = (done ++ [g]) ++ cur := by
        simp
      rw [hset, this]
      simp

theorem toStream_bytes {F : Type} [LinearOrderedField F] (DIM : Nat) (dc : DoubleCodec F)
    (gio : GaussianCodec F) (m : GMM F) (hs : m.SizesAgree) :
    ∃ res, toStream DIM dc gio m = some (res,
      writeInt (DIM : Int) ++ (writeInt m.num_states_ ++ (writeBool m.initialized_ ++
        (flatBytes dc.toBytes m.priors_ ++
          flatBytes (fun g => (gio.toStream g).2) m.gaussians_)))) := by
  obtain ⟨hg, _⟩ := hs
  have hlen : m.num_states_.toNat = m.gaussians_.length := by omega
  obtain ⟨res, e⟩ := toStream_loop gio m.gaussians_ m.num_states_.toNat 0 true
    (writeInt (DIM : Int) ++ writeInt m.num_states_ ++ writeBool m.initialized_ ++
      flatBytes dc.toBytes m.priors_) (by omega)
  refine ⟨res, ?_⟩
  simp only [toStream, foldl_append_flatBytes]
  rw [e, hlen]
  simp [List.append_assoc]

/-- C1. Let `m` be a model whose containers have `num_states_` entries, with `DIM`
and `num_states_` representable as `int`, whose priors survive the eight-byte
object representation `dc`, and whose components survive their own
`toStream` / `fromStream`.  Then `toStream(m)` produces a byte stream, and
`fromStream` on that stream into a freshly constructed model of the same `DIM`
returns true, consumes the whole stream, and yields exactly `m`: the same
`num_states_`, `initialized_`, priors and components. -/
theorem fromStream_toStream_roundtrip {F : Type} [LinearOrderedField F] (DIM : Nat)
    (dflt : Gaussian F) (dc : DoubleCodec F) (gio : GaussianCodec F) (m : GMM F)
    (hs : m.SizesAgree) (hDIM : (DIM : Int) < 2147483648)
    (hnum : m.num_states_ < 2147483648)
    (hprior : ∀ p ∈ m.priors_, (dc.toBytes p).length = 8 ∧ dc.ofBytes (dc.toBytes p) = p)
    (hgauss : ∀ g ∈ m.gaussians_, ∀ g0 r,
      gio.fromStream g0 ((gio.toStream g).2 ++ r) = some (true, g, r)) :
    ∃ res bytes, toStream DIM dc gio m = some (res, bytes) ∧
      fromStream DIM dflt dc gio GMM.new bytes = some (true, m, []) := by
  obtain ⟨res, e⟩ := toStream_bytes DIM dc gio m hs
  refine ⟨res, _, e, ?_⟩
  obtain ⟨hg, hp⟩ := hs
  have hn0 : 0 ≤ m.num_states_ := by omega
  have hnn : ¬ m.num_states_ < 0 := by omega
  have hpl : m.priors_.length = m.num_states_.toNat := by omega
  have hgl : m.gaussians_.length = m.num_states_.toNat := by omega
  have e5 := readPriors_loop dc
    (flatBytes (fun g => (gio.toStream g).2) m.gaussians_ ++ [])
    m.priors_ [] (List.replicate m.num_states_.toNat (1 / (m.num_states_ : F)))
    (by simp [hpl]) hprior
  have e6 := readGaussians_loop gio [] m.gaussians_ []
    (resize [] m.num_states_.toNat dflt) true (by simp [resize, hgl]) hgauss
  simp only [List.length_nil, List.nil_append, List.append_nil] at e5 e6
  rw [hpl] at e5
  rw [hgl] at e6
  simp only [fromStream, readInt_writeInt (DIM : Int) (by omega) hDIM,
    readInt_writeInt m.num_states_ (by omega) hnum, readBool_writeBool, setNumStates, hnn,
    if_false, ne_eq, not_true_eq_false, GMM.new, List.length_replicate]
  rw [e5]
  simp only []
  rw [e6]

theorem scalarGaussianCodec_roundtrip (g : Gaussian ℚ) (bytes : List Byte)
    (hb : (scalarGaussianCodec.toStream g).2 = bytes) (hl : bytes.length = 16)
    (hg : (⟨[ratCodec.ofBytes (bytes.take 8)],
      [[ratCodec.ofBytes ((bytes.drop 8).take 8)]]⟩ : Gaussian ℚ) = g)
    (g0 : Gaussian ℚ) (r : List Byte) :
    scalarGaussianCodec.fromStream g0 ((scalarGaussianCodec.toStream g).2 ++ r)
      = some (true, g, r) := by
  rw [hb]
  have h1 : ¬ (bytes ++ r).length < 16 := by simp [hl]
  have h2 : (bytes ++ r).take 8 = bytes.take 8 := by
    rw [List.take_append_of_le_length (by omega)]
  have h3 : ((bytes ++ r).drop 8).take 8 = (bytes.drop 8).take 8 := by
    rw [List.drop_append_of_le_length (by omega),
      List.take_append_of_le_length (by simp [hl])]
  have h4 : (bytes ++ r).drop 16 = r := by
    rw [← hl]; simp
  simp only [scalarGaussianCodec, h1, if_false, h2, h3, h4, hg]

/-- Witness for C1: the two-state model `lineModel` of dimension 1, its priors stored
through `ratCodec` and its components through `scalarGaussianCodec`. -/
theorem fromStream_toStream_roundtrip_witness :
    ∃ res bytes, toStream 1 ratCodec scalarGaussianCodec lineModel = some (res, bytes) ∧
      fromStream 1 (⟨[0], [[1]]⟩ : Gaussian ℚ) ratCodec scalarGaussianCodec GMM.new bytes
        = some (true, lineModel, []) :=
  fromStream_toStream_roundtrip 1 _ ratCodec scalarGaussianCodec lineModel (by decide)
    (by decide) (by decide) (by decide!)
    (by
      intro g hg
      simp only [lineModel, List.mem_cons, List.mem_singleton, List.not_mem_nil,
        or_false] at hg
      rcases hg with rfl | rfl
      · exact scalarGaussianCodec_roundtrip _ _ rfl (by decide!) (by decide!)
      · exact scalarGaussianCodec_roundtrip _ _ rfl (by decide!) (by decide!))

/-- C10. The size predicate `len(components) == len(priors) == numStates` holds after
`setNumStates(n)` for every `n ≥ 0`, and on a model that satisfies it each of
`setMean`, `setCovariance`, `setPrior`, `setPriors`, `initRandom`,
`initUniformAlongAxis`, `initKmeans` and `updateClusters` runs to completion when
its precondition is met and returns a model that satisfies it again; so does
`forceInitialize`, and so does every `fromStream` that returns true. -/
theorem sizes_agree_invariant {F : Type} [LinearOrderedField F] (DIM : Nat)
    (dflt : Gaussian F) :
    (∀ (n : Int) (m0 : GMM F), 0 ≤ n →
      ∃ m, setNumStates dflt n m0 = some m ∧ m.SizesAgree) ∧
    (∀ m : GMM F, m.SizesAgree →
      (∀ (state : Int) (mean : VectorType F), 0 ≤ state → state < m.num_states_ →
        ∃ m1, setMean state mean m = some m1 ∧ m1.SizesAgree) ∧
      (∀ (state : Int) (cov : MatrixType F), 0 ≤ state → state < m.num_states_ →
        ∃ m1, setCovariance state cov m = some m1 ∧ m1.SizesAgree) ∧
      (∀ (state : Int) (prior : F), 0 ≤ state → state < m.num_states_ →
        ∃ m1, setPrior state prior m = some m1 ∧ m1.SizesAgree) ∧
      (∀ prior : List F, (prior.length : Int) = m.num_states_ →
        ∃ m1, setPriors prior m = some m1 ∧ m1.SizesAgree) ∧
      (∀ (rnd : Nat → Nat) (data : List (VectorType F)), data ≠ [] →
        ∃ m1, initRandom rnd data m = some m1 ∧ m1.SizesAgree) ∧
      (∀ (data : List (VectorType F)) (axis : Int), data ≠ [] → 0 ≤ axis →
        axis < (DIM : Int) →
        ∃ m1, initUniformAlongAxis DIM data axis m = some m1 ∧ m1.SizesAgree) ∧
      (∀ (rnd : Nat → Nat) (data : List (VectorType F)) (max_iter : Int), data ≠ [] →
        1 ≤ m.num_states_ →
        ∃ m1, initKmeans DIM rnd data max_iter m = some m1 ∧ m1.SizesAgree) ∧
      (∀ (assignments : List Int) (pats : List (VectorType F)),
        InRange m.num_states_ assignments pats.length →
        ∃ m1, updateClusters DIM assignments pats m = some m1 ∧ m1.SizesAgree) ∧
      (forceInitialize m).SizesAgree ∧
      (∀ (dc : DoubleCodec F) (gio : GaussianCodec F) (inp rest : List Byte)
        (m1 : GMM F), fromStream DIM dflt dc gio m inp = some (true, m1, rest) →
        m1.SizesAgree)) := by
  refine ⟨?_, ?_⟩
  · intro n m0 hn
    obtain ⟨m, e, hs, _⟩ := setNumStates_sizes dflt n hn m0
    exact ⟨m, e, hs⟩
  · intro m hs
    refine ⟨?_, ?_, ?_, ?_, ?_, ?_, ?_, ?_, ?_, ?_⟩
    · intro state mean h0 h1; exact setMean_sizes m hs state mean h0 h1
    · intro state cov h0 h1; exact setCovariance_sizes m hs state cov h0 h1
    · intro state prior h0 h1; exact setPrior_sizes m hs state prior h0 h1
    · intro prior hl
      exact ⟨{ m with priors_ := prior }, by simp only [setPriors, hl, if_true], hs.1, hl⟩
    · intro rnd data hd
      obtain ⟨m1, e, h1, _⟩ := initRandom_sizes m hs rnd data hd
      exact ⟨m1, e, h1⟩
    · intro data axis hd h0 h1
      exact initUniformAlongAxis_sizes DIM m hs data hd axis h0 h1
    · intro rnd data max_iter hd hn
      exact initKmeans_sizes DIM m hs rnd data hd hn max_iter
    · intro assignments pats ha
      obtain ⟨m1, e, h1, _⟩ := updateClusters_sizes DIM m hs assignments pats ha
      exact ⟨m1, e, h1⟩
    · exact hs
    · intro dc gio inp rest m1 h
      exact fromStream_sizes DIM dflt dc gio m m1 inp rest h

/-- Witness for C10: the invariant after `setNumStates(2)` on a fresh model, and its
preservation on `lineModel` by `setPriors`, `initKmeans`, `updateClusters` and a
successful `fromStream`. -/
theorem sizes_agree_invariant_witness :
    (∃ m, setNumStates (⟨[0], [[1]]⟩ : Gaussian ℚ) 2 GMM.new = some m ∧ m.SizesAgree) ∧
    (∃ m1, setPriors [1 / 4, 3 / 4] lineModel = some m1 ∧ m1.SizesAgree) ∧
    (∃ m1, initKmeans 1 (fun i => i) [[0], [1], [10], [11]] 10 lineModel = some m1 ∧
      m1.SizesAgree) ∧
    (∃ m1, updateClusters 1 [0, 0, 1, 1] [[0], [1], [10], [11]] lineModel = some m1 ∧
      m1.SizesAgree) ∧
    lineModel.SizesAgree :=
  ⟨(sizes_agree_invariant 1 _).1 2 GMM.new (by decide),
   ((sizes_agree_invariant 1 (⟨[0], [[1]]⟩ : Gaussian ℚ)).2 lineModel (by decide)).2.2.2.1
      [1 / 4, 3 / 4] (by decide),
   ((sizes_agree_invariant 1 (⟨[0], [[1]]⟩ : Gaussian ℚ)).2 lineModel
      (by decide)).2.2.2.2.2.2.1 (fun i => i) [[0], [1], [10], [11]] 10 (by decide)
      (by decide),
   ((sizes_agree_invariant 1 (⟨[0], [[1]]⟩ : Gaussian ℚ)).2 lineModel
      (by decide)).2.2.2.2.2.2.2.1 [0, 0, 1, 1] [[0], [1], [10], [11]]
      (by
        intro j hj
        simp only [List.length_cons, List.length_nil] at hj
        interval_cases j <;> simp [lineModel]),
   ((sizes_agree_invariant 1 (⟨[0], [[1]]⟩ : Gaussian ℚ)).2 lineModel
      (by decide)).2.2.2.2.2.2.2.2.2 ratCodec scalarGaussianCodec
      ((toStream 1 ratCodec scalarGaussianCodec lineModel).elim [] (fun r => r.2)) []
      lineModel (by decide!)⟩

/-! ## k-means on the four-point scenario -/

theorem forLoop_rel {σ τ : Type} (R : σ → τ → Prop) (b1 : Nat → σ → Option σ)
    (b2 : Nat → τ → Option τ) (h : ∀ j s t, R s t → OptRel R (b1 j s) (b2 j t)) :
    ∀ (k i : Nat) (s : σ) (t : τ), R s t →
      OptRel R (forLoop b1 i k s) (forLoop b2 i k t) := by
  intro k
  induction k with
  | zero => intro i s t hr; exact hr
  | succ k ih =>
    intro i s t hr
    have hstep := h i s t hr
    simp only [forLoop]
    cases h1 : b1 i s with
    | none =>
      cases h2 : b2 i t with
      | none => simp [OptRel]
      | some t1 => simp [h1, h2, OptRel] at hstep
    | some s1 =>
      cases h2 : b2 i t with
      | none => simp [h1, h2, OptRel] at hstep
      | some t1 =>
        simp only [h1, h2, OptRel] at hstep
        simp only [Option.some_bind]
        exact ih (i + 1) s1 t1 hstep

theorem sameMeans_length_eq {F : Type} {gs gs1 : List (Gaussian F)}
    (h : SameMeans gs gs1) : gs.length = gs1.length := by
  have := congrArg List.length h
  simpa using this

theorem sameMeans_getElem? {F : Type} {gs gs1 : List (Gaussian F)}
    (h : SameMeans gs gs1) (i : Nat) :
    (gs[i]? = none ∧ gs1[i]? = none) ∨
    ∃ g g1, gs[i]? = some g ∧ gs1[i]? = some g1 ∧ g.mean = g1.mean := by
  have hl := sameMeans_length_eq h
  by_cases hi : i < gs.length
  · right
    have hi1 : i < gs1.length := by omega
    refine ⟨gs[i], gs1[i], List.getElem?_eq_getElem hi, List.getElem?_eq_getElem hi1, ?_⟩
    have := congrArg (fun l => l[i]?) h
    simpa [List.getElem?_map, List.getElem?_eq_getElem hi, List.getElem?_eq_getElem hi1]
      using this
  · left
    exact ⟨List.getElem?_eq_none (by omega), List.getElem?_eq_none (by omega)⟩

theorem sameMeans_set {F : Type} {gs gs1 : List (Gaussian F)} (h : SameMeans gs gs1)
    (i : Nat) (g g1 : Gaussian F) (hg : g.mean = g1.mean) :
    SameMeans (gs.set i g) (gs1.set i g1) := by
  unfold SameMeans at *
  rw [List.map_set, List.map_set, h, hg]

theorem modifyNat_sameMeans {F : Type} {gs gs1 : List (Gaussian F)}
    (h : SameMeans gs gs1) (i : Nat) (f : Gaussian F → Gaussian F)
    (hf : ∀ g g1 : Gaussian F, g.mean = g1.mean → (f g).mean = (f g1).mean) :
    (modifyNat gs i f = none ∧ modifyNat gs1 i f = none) ∨
    ∃ r r1, modifyNat gs i f = some r ∧ modifyNat gs1 i f = some r1 ∧ SameMeans r r1 := by
  rcases sameMeans_getElem? h i with ⟨e, e1⟩ | ⟨g, g1, e, e1, hm⟩
  · left; simp [modifyNat, e, e1]
  · right
    exact ⟨_, _, by simp [modifyNat, e], by simp [modifyNat, e1], sameMeans_set h i _ _ (hf g g1 hm)⟩

theorem modifyAt_sameMeans {F : Type} {gs gs1 : List (Gaussian F)}
    (h : SameMeans gs gs1) (c : Int) (f : Gaussian F → Gaussian F)
    (hf : ∀ g g1 : Gaussian F, g.mean = g1.mean → (f g).mean = (f g1).mean) :
    (modifyAt gs c f = none ∧ modifyAt gs1 c f = none) ∨
    ∃ r r1, modifyAt gs c f = some r ∧ modifyAt gs1 c f = some r1 ∧ SameMeans r r1 := by
  unfold modifyAt
  by_cases hc : 0 ≤ c
  · simp only [hc, if_true]; exact modifyNat_sameMeans h _ f hf
  · left; simp [hc]

theorem readAt_sameMeans {F : Type} {gs gs1 : List (Gaussian F)}
    (h : SameMeans gs gs1) (c : Int) :
    (readAt gs c = none ∧ readAt gs1 c = none) ∨
    ∃ g g1, readAt gs c = some g ∧ readAt gs1 c = some g1 ∧ g.mean = g1.mean := by
  unfold readAt
  by_cases hc : 0 ≤ c
  · simp only [hc, if_true]; exact sameMeans_getElem? h _
  · left; simp [hc]

theorem resetStep_rel {F : Type} [Zero F] [One F] [Add F] [Sub F] [Mul F] [Div F]
    [IntCast F]
    (DIM i : Nat)
    (s t : UpdateState F) (h : s.SameMeans t) :
    OptRel UpdateState.SameMeans (resetStep DIM i s) (resetStep DIM i t) := by
  obtain ⟨ppc, tc, gs⟩ := s
  obtain ⟨ppc1, tc1, gs1⟩ := t
  obtain ⟨h1, h2, h3⟩ := h
  simp only at h1 h2 h3
  subst h1 h2
  simp only [resetStep]
  rcases modifyNat_sameMeans h3 i (fun g => { g with mean := (vzero DIM : VectorType F) })
    (by intros; rfl) with ⟨e, e1⟩ | ⟨r, r1, e, e1, hr⟩
  · rw [e, e1]
    cases modifyNat ppc i (fun _ => 0) <;> cases modifyNat tc i (fun _ => mzero DIM) <;>
      simp [OptRel]
  · rw [e, e1]
    cases modifyNat ppc i (fun _ => 0) <;> cases modifyNat tc i (fun _ => mzero DIM) <;>
      simp [OptRel, UpdateState.SameMeans, hr]

theorem meanStep_rel {F : Type} [Zero F] [One F] [Add F] [Sub F] [Mul F] [Div F]
    [IntCast F]
    (assignments : List Int)
    (pats : List (VectorType F)) (i : Nat) (s t : UpdateState F) (h : s.SameMeans t) :
    OptRel UpdateState.SameMeans (meanStep assignments pats i s)
      (meanStep assignments pats i t) := by
  obtain ⟨ppc, tc, gs⟩ := s
  obtain ⟨ppc1, tc1, gs1⟩ := t
  obtain ⟨h1, h2, h3⟩ := h
  simp only at h1 h2 h3
  subst h1 h2
  simp only [meanStep]
  cases assignments[i]? with
  | none => simp [OptRel]
  | some c =>
    cases pats[i]? with
    | none => simp [OptRel]
    | some p =>
      simp only []
      rcases modifyAt_sameMeans h3 c (fun g => { g with mean := vadd g.mean p })
        (by intro g g1 hg; simp [hg]) with ⟨e, e1⟩ | ⟨r, r1, e, e1, hr⟩
      · rw [e, e1]
        cases modifyAt ppc c (· + 1) <;> simp [OptRel]
      · rw [e, e1]
        cases modifyAt ppc c (· + 1) <;> simp [OptRel, UpdateState.SameMeans, hr]

theorem normalizeMeanStep_rel {F : Type} [Zero F] [One F] [Add F] [Sub F] [Mul F] [Div F]
    [IntCast F]
    (i : Nat)
    (s t : UpdateState F) (h : s.SameMeans t) :
    OptRel UpdateState.SameMeans (normalizeMeanStep i s) (normalizeMeanStep i t) := by
  obtain ⟨ppc, tc, gs⟩ := s
  obtain ⟨ppc1, tc1, gs1⟩ := t
  obtain ⟨h1, h2, h3⟩ := h
  simp only at h1 h2 h3
  subst h1 h2
  simp only [normalizeMeanStep]
  cases ppc[i]? with
  | none => simp [OptRel]
  | some cnt =>
    simp only []
    by_cases hc : cnt > 0
    · simp only [hc, if_true]
      rcases modifyNat_sameMeans h3 i (fun g => { g with mean := vdiv g.mean (cnt : F) })
        (by intro g g1 hg; simp [hg]) with ⟨e, e1⟩ | ⟨r, r1, e, e1, hr⟩
      · rw [e, e1]; simp [OptRel]
      · rw [e, e1]; simp [OptRel, UpdateState.SameMeans, hr]
    · simp only [hc, if_false]
      simp [OptRel, UpdateState.SameMeans, h3]

theorem covarStep_rel {F : Type} [Zero F] [One F] [Add F] [Sub F] [Mul F] [Div F]
    [IntCast F]
    (assignments : List Int)
    (pats : List (VectorType F)) (i : Nat) (s t : UpdateState F) (h : s.SameMeans t) :
    OptRel UpdateState.SameMeans (covarStep assignments pats i s)
      (covarStep assignments pats i t) := by
  obtain ⟨ppc, tc, gs⟩ := s
  obtain ⟨ppc1, tc1, gs1⟩ := t
  obtain ⟨h1, h2, h3⟩ := h
  simp only at h1 h2 h3
  subst h1 h2
  simp only [covarStep]
  cases assignments[i]? with
  | none => simp [OptRel]
  | some c =>
    cases pats[i]? with
    | none => simp [OptRel]
    | some p =>
      simp only []
      rcases readAt_sameMeans h3 c with ⟨e, e1⟩ | ⟨g, g1, e, e1, hg⟩
      · rw [e, e1]; simp [OptRel]
      · rw [e, e1]
        simp only []
        rw [hg]
        cases modifyAt tc c (fun c => madd c (outer (vsub p g1.mean))) <;>
          simp [OptRel, UpdateState.SameMeans, h3]

theorem normalizeCovarStep_rel {F : Type} [Zero F] [One F] [Add F] [Sub F] [Mul F] [Div F]
    [IntCast F]
    (DIM i : Nat)
    (s t : UpdateState F) (h : s.SameMeans t) :
    OptRel UpdateState.SameMeans (normalizeCovarStep DIM i s)
      (normalizeCovarStep DIM i t) := by
  obtain ⟨ppc, tc, gs⟩ := s
  obtain ⟨ppc1, tc1, gs1⟩ := t
  obtain ⟨h1, h2, h3⟩ := h
  simp only at h1 h2 h3
  subst h1 h2
  simp only [normalizeCovarStep]
  cases hp : ppc[i]? with
  | none => simp [OptRel]
  | some cnt =>
    cases hc : tc[i]? with
    | none => simp [OptRel]
    | some c =>
      simp only []
      rcases modifyNat_sameMeans h3 i
        (fun g => g.setCovariance (if cnt > 0 then mdiv c (cnt : F) else midentity DIM))
        (by intro g g1 hg; simpa [Gaussian.setCovariance] using hg)
        with ⟨e, e1⟩ | ⟨r, r1, e, e1, hr⟩
      · rw [e, e1]; simp [OptRel]
      · rw [e, e1]; simp [OptRel, UpdateState.SameMeans, hr]

theorem optRel_bind {α β : Type} {R : α → β → Prop} {o1 : Option α} {o2 : Option β}
    (h : OptRel R o1 o2) {f1 : α → Option α} {f2 : β → Option β}
    (hf : ∀ a b, R a b → OptRel R (f1 a) (f2 b)) : OptRel R (o1.bind f1) (o2.bind f2) := by
  cases o1 <;> cases o2 <;> simp [OptRel] at h ⊢
  exact hf _ _ h

theorem updateClusters_rel {F : Type} [Zero F] [One F] [Add F] [Sub F] [Mul F] [Div F]
    [IntCast F]
    (DIM : Nat)
    (assignments : List Int) (pats : List (VectorType F)) (m m1 : GMM F)
    (h : m.SameMeans m1) :
    OptRel GMM.SameMeans (updateClusters DIM assignments pats m)
      (updateClusters DIM assignments pats m1) := by
  obtain ⟨hn, hg⟩ := h
  unfold updateClusters
  rw [← hn]
  by_cases hneg : m.num_states_ < 0
  · simp [hneg, OptRel]
  · simp only [hneg, if_false]
    have h5 : OptRel UpdateState.SameMeans
        (((((forLoop (resetStep DIM) 0 m.num_states_.toNat
            { patterns_per_cluster := List.replicate m.num_states_.toNat 0
              tmp_covar := List.replicate m.num_states_.toNat (mzero DIM)
              gaussians := m.gaussians_ }).bind
          (forLoop (meanStep assignments pats) 0 pats.length)).bind
          (forLoop normalizeMeanStep 0 m.num_states_.toNat)).bind
          (forLoop (covarStep assignments pats) 0 pats.length)).bind
          (forLoop (normalizeCovarStep DIM) 0 m.num_states_.toNat))
        (((((forLoop (resetStep DIM) 0 m.num_states_.toNat
            { patterns_per_cluster := List.replicate m.num_states_.toNat 0
              tmp_covar := List.replicate m.num_states_.toNat (mzero DIM)
              gaussians := m1.gaussians_ }).bind
          (forLoop (meanStep assignments pats) 0 pats.length)).bind
          (forLoop normalizeMeanStep 0 m.num_states_.toNat)).bind
          (forLoop (covarStep assignments pats) 0 pats.length)).bind
          (forLoop (normalizeCovarStep DIM) 0 m.num_states_.toNat)) := by
      refine optRel_bind (optRel_bind (optRel_bind (optRel_bind ?_ ?_) ?_) ?_) ?_
      · exact forLoop_rel _ _ _ (fun j s t => resetStep_rel DIM j s t) _ _ _ _
          ⟨rfl, rfl, hg⟩
      · exact fun a b hab => forLoop_rel _ _ _ (fun j s t => meanStep_rel _ _ j s t) _ _ _ _ hab
      · exact fun a b hab => forLoop_rel _ _ _ (fun j s t => normalizeMeanStep_rel j s t)
          _ _ _ _ hab
      · exact fun a b hab => forLoop_rel _ _ _ (fun j s t => covarStep_rel _ _ j s t) _ _ _ _ hab
      · exact fun a b hab => forLoop_rel _ _ _ (fun j s t => normalizeCovarStep_rel DIM j s t)
          _ _ _ _ hab
    revert h5
    generalize (((((forLoop (resetStep DIM) 0 m.num_states_.toNat
            { patterns_per_cluster := List.replicate m.num_states_.toNat 0
              tmp_covar := List.replicate m.num_states_.toNat (mzero DIM)
              gaussians := m.gaussians_ }).bind
          (forLoop (meanStep assignments pats) 0 pats.length)).bind
          (forLoop normalizeMeanStep 0 m.num_states_.toNat)).bind
          (forLoop (covarStep assignments pats) 0 pats.length)).bind
          (forLoop (normalizeCovarStep DIM) 0 m.num_states_.toNat)) = o1
    generalize (((((forLoop (resetStep DIM) 0 m.num_states_.toNat
            { patterns_per_cluster := List.replicate m.num_states_.toNat 0
              tmp_covar := List.replicate m.num_states_.toNat (mzero DIM)
              gaussians := m1.gaussians_ }).bind
          (forLoop (meanStep assignments pats) 0 pats.length)).bind
          (forLoop normalizeMeanStep 0 m.num_states_.toNat)).bind
          (forLoop (covarStep assignments pats) 0 pats.length)).bind
          (forLoop (normalizeCovarStep DIM) 0 m.num_states_.toNat)) = o2
    intro h5
    cases o1 <;> cases o2 <;> simp [OptRel] at h5 ⊢
    exact ⟨rfl, h5.2.2⟩

theorem nearest_congr {F : Type} [Zero F] [Add F] [Sub F] [Mul F] [LT F]
    [DecidableRel (fun a b : F => a < b)] [NatCast F]
    (p : VectorType F) :
    ∀ (gs gs1 : List (Gaussian F)), SameMeans gs gs1 → ∀ (g_idx : Int) (acc : F × Int),
      nearest p gs g_idx acc = nearest p gs1 g_idx acc := by
  intro gs
  induction gs with
  | nil =>
    intro gs1 h g_idx acc
    cases gs1 with
    | nil => rfl
    | cons g1 gs1 => simp [SameMeans] at h
  | cons g gs ih =>
    intro gs1 h g_idx acc
    cases gs1 with
    | nil => simp [SameMeans] at h
    | cons g1 gs1 =>
      simp only [SameMeans, List.map_cons, List.cons.injEq] at h
      obtain ⟨d, b⟩ := acc
      simp only [nearest, h.1]
      rw [ih gs1 h.2, ih gs1 h.2]

theorem clusterLoop_congr {F : Type} [Zero F] [Add F] [Sub F] [Mul F] [LT F]
    [DecidableRel (fun a b : F => a < b)] [NatCast F]
    (gs gs1 : List (Gaussian F))
    (h : SameMeans gs gs1) :
    ∀ (pats : List (VectorType F)) (i : Nat) (st : List Int × Int × F),
      clusterLoop gs pats i st = clusterLoop gs1 pats i st := by
  intro pats
  induction pats with
  | nil => intro i st; rfl
  | cons p ps ih =>
    intro i st
    obtain ⟨a, b, sd⟩ := st
    simp only [clusterLoop, nearest_congr p gs gs1 h]
    cases modifyNat a i (fun _ => (nearest p gs1 0 (GFLOAT_MAX, b)).2) with
    | none => rfl
    | some a1 => exact ih _ _

theorem cluster_congr {F : Type} [Zero F] [Add F] [Sub F] [Mul F] [LT F]
    [DecidableRel (fun a b : F => a < b)] [NatCast F]
    (m m1 : GMM F)
    (h : SameMeans m.gaussians_ m1.gaussians_) (assignments old_assignments : List Int)
    (pats : List (VectorType F)) :
    cluster m assignments old_assignments pats
      = cluster m1 assignments old_assignments pats := by
  simp only [cluster, clusterLoop_congr _ _ h]

theorem kmeansStep_rel {F : Type} [Zero F] [One F] [Add F] [Sub F] [Mul F] [Div F] [LT F]
    [DecidableRel (fun a b : F => a < b)] [NatCast F] [IntCast F]
    (DIM : Nat)
    (data : List (VectorType F)) (s t : KmeansState F) (h : s.SameMeans t) :
    OptRel KmeansState.SameMeans (kmeansStep DIM data s) (kmeansStep DIM data t) := by
  obtain ⟨sm, sa, sa2, sc, si⟩ := s
  obtain ⟨tm, ta, ta2, tc, ti⟩ := t
  obtain ⟨hm, h1, h2, h3, h4⟩ := h
  simp only at hm h1 h2 h3 h4
  subst h1 h2 h3 h4
  simp only [kmeansStep]
  by_cases hpar : si % 2 = 0
  · simp only [hpar, if_true]
    have hu := updateClusters_rel DIM sa2 data sm tm hm
    cases h1 : updateClusters DIM sa2 data sm with
    | none =>
      cases h2 : updateClusters DIM sa2 data tm with
      | none => simp [OptRel]
      | some t1 => simp [h1, h2, OptRel] at hu
    | some s1 =>
      cases h2 : updateClusters DIM sa2 data tm with
      | none => simp [h1, h2, OptRel] at hu
      | some t1 =>
        simp only [h1, h2, OptRel] at hu
        simp only [cluster_congr s1 t1 hu.2]
        cases cluster t1 sa sa2 data with
        | none => simp [OptRel]
        | some r =>
          obtain ⟨d, a, ch⟩ := r
          simp only [OptRel, KmeansState.SameMeans, and_self, and_true]
          exact hu
  · simp only [hpar, if_false]
    have hu := updateClusters_rel DIM sa data sm tm hm
    cases h1 : updateClusters DIM sa data sm with
    | none =>
      cases h2 : updateClusters DIM sa data tm with
      | none => simp [OptRel]
      | some t1 => simp [h1, h2, OptRel] at hu
    | some s1 =>
      cases h2 : updateClusters DIM sa data tm with
      | none => simp [h1, h2, OptRel] at hu
      | some t1 =>
        simp only [h1, h2, OptRel] at hu
        simp only [cluster_congr s1 t1 hu.2]
        cases cluster t1 sa2 sa data with
        | none => simp [OptRel]
        | some r =>
          obtain ⟨d, a, ch⟩ := r
          simp only [OptRel, KmeansState.SameMeans, and_self, and_true]
          exact hu

theorem kmeansLoop_rel {F : Type} [Zero F] [One F] [Add F] [Sub F] [Mul F] [Div F] [LT F]
    [DecidableRel (fun a b : F => a < b)] [NatCast F] [IntCast F]
    (DIM : Nat)
    (data : List (VectorType F)) :
    ∀ (fuel : Nat) (s t : KmeansState F), s.SameMeans t →
      OptRel KmeansState.SameMeans (kmeansLoop DIM data fuel s)
        (kmeansLoop DIM data fuel t) := by
  intro fuel
  induction fuel with
  | zero => intro s t h; exact h
  | succ fuel ih =>
    intro s t h
    have hstep := kmeansStep_rel DIM data s t h
    simp only [kmeansLoop]
    cases h1 : kmeansStep DIM data s with
    | none =>
      cases h2 : kmeansStep DIM data t with
      | none => simp [OptRel]
      | some t1 => simp [h1, h2, OptRel] at hstep
    | some s1 =>
      cases h2 : kmeansStep DIM data t with
      | none => simp [h1, h2, OptRel] at hstep
      | some t1 =>
        simp only [h1, h2, OptRel] at hstep
        simp only []
        obtain ⟨hm, ha, ha2, hc, hi⟩ := hstep
        rw [← hc]
        by_cases hch : s1.changed = false
        · simp only [hch, if_true, OptRel]
          exact ⟨hm, ha, ha2, hc, hi⟩
        · rw [if_neg hch, if_neg hch]
          exact ih _ _ ⟨hm, ha, ha2, rfl, by simp only [hi]⟩

theorem initKmeans_rel {F : Type} [Zero F] [One F] [Add F] [Sub F] [Mul F] [Div F] [LT F]
    [DecidableRel (fun a b : F => a < b)] [NatCast F] [IntCast F]
    (DIM : Nat) (rnd rnd1 : Nat → Nat)
    (data : List (VectorType F)) (max_iter : Int) (m m1 : GMM F)
    (h : OptRel GMM.SameMeans (initRandom rnd data m) (initRandom rnd1 data m1)) :
    OptRel GMM.SameMeans (initKmeans DIM rnd data max_iter m)
      (initKmeans DIM rnd1 data max_iter m1) := by
  simp only [initKmeans, initKmeansRun]
  cases h1 : initRandom rnd data m with
  | none =>
    cases h2 : initRandom rnd1 data m1 with
    | none => simp [OptRel]
    | some t1 => simp [h1, h2, OptRel] at h
  | some s0 =>
    cases h2 : initRandom rnd1 data m1 with
    | none => simp [h1, h2, OptRel] at h
    | some t0 =>
      simp only [h1, h2, OptRel] at h
      simp only [cluster_congr s0 t0 h.2]
      cases cluster t0 (List.replicate data.length 0) (List.replicate data.length (-1))
        data with
      | none => simp [OptRel]
      | some r =>
        obtain ⟨d, a, ch⟩ := r
        simp only []
        have hl := kmeansLoop_rel DIM data (max_iter - 1).toNat
          { model := s0, assignments := a,
            assignments2 := List.replicate data.length (-1), changed := true, iter := 1 }
          { model := t0, assignments := a,
            assignments2 := List.replicate data.length (-1), changed := true, iter := 1 }
          ⟨h, rfl, rfl, rfl, rfl⟩
        revert hl
        generalize kmeansLoop DIM data (max_iter - 1).toNat
          { model := s0, assignments := a,
            assignments2 := List.replicate data.length (-1), changed := true, iter := 1 }
          = o1
        generalize kmeansLoop DIM data (max_iter - 1).toNat
          { model := t0, assignments := a,
            assignments2 := List.replicate data.length (-1), changed := true, iter := 1 }
          = o2
        intro hl
        cases o1 <;> cases o2 <;> simp [OptRel] at hl ⊢
        exact hl.1

theorem kmeans_reference_runs : ∀ a : Fin 4, ∀ b : Fin 4,
    (initKmeans 2 (seedRnd a.val b.val) fourPoints 10 twoStateModel).map
        (fun m => m.gaussians_.map (fun g => g.mean)) = some [[0, 1 / 2], [10, 21 / 2]] ∨
    (initKmeans 2 (seedRnd a.val b.val) fourPoints 10 twoStateModel).map
        (fun m => m.gaussians_.map (fun g => g.mean)) = some [[10, 21 / 2], [0, 1 / 2]] := by
  decide!

theorem initRandom_seed_rel (rnd : Nat → Nat) (m : GMM ℚ) (hn : m.num_states_ = 2)
    (hs : m.SizesAgree) :
    OptRel GMM.SameMeans (initRandom rnd fourPoints m)
      (initRandom (seedRnd (rnd 0 % 4) (rnd 1 % 4)) fourPoints twoStateModel) := by
  obtain ⟨n, ini, ps, gs⟩ := m
  simp only at hn
  subst hn
  obtain ⟨hg, _⟩ := hs
  simp only at hg
  match gs, hg with
  | [g1, g2], _ =>
    have ha := Nat.mod_lt (rnd 0) (show 0 < 4 by decide)
    have hb := Nat.mod_lt (rnd 1) (show 0 < 4 by decide)
    have e4 : fourPoints.length = 4 := rfl
    have e2 : (2 : Int).toNat = 2 := rfl
    simp only [initRandom, e4, e2, twoStateModel, forLoop, seedRnd]
    generalize rnd 0 % 4 = a at ha
    generalize rnd 1 % 4 = b at hb
    interval_cases a <;> interval_cases b <;>
      simp [fourPoints, modifyNat, OptRel, GMM.SameMeans, SameMeans]

/-- C3. On the data set `[0,0], [0,1], [10,10], [10,11]` in two dimensions, with two
states and `max_iter = 10`, `initKmeans` runs to completion for every behaviour
`rnd` of `rand()`, hence for every pair of seed indices, and for every model with
two states it is called on; it leaves the component means `[0, 1/2]` and
`[10, 21/2]`, in one of the two orders. -/
theorem initKmeans_fourPoints (rnd : Nat → Nat) (m : GMM ℚ) (hn : m.num_states_ = 2)
    (hs : m.SizesAgree) :
    ∃ m1, initKmeans 2 rnd fourPoints 10 m = some m1 ∧
      (m1.gaussians_.map (fun g => g.mean) = [[0, 1 / 2], [10, 21 / 2]] ∨
       m1.gaussians_.map (fun g => g.mean) = [[10, 21 / 2], [0, 1 / 2]]) := by
  have hrel := initKmeans_rel 2 rnd (seedRnd (rnd 0 % 4) (rnd 1 % 4)) fourPoints 10 m
    twoStateModel (initRandom_seed_rel rnd m hn hs)
  have href := kmeans_reference_runs ⟨rnd 0 % 4, Nat.mod_lt _ (by decide)⟩
    ⟨rnd 1 % 4, Nat.mod_lt _ (by decide)⟩
  simp only at href
  cases h1 : initKmeans 2 rnd fourPoints 10 m with
  | none =>
    cases h2 : initKmeans 2 (seedRnd (rnd 0 % 4) (rnd 1 % 4)) fourPoints 10 twoStateModel with
    | none => simp [h2] at href
    | some r => simp [h1, h2, OptRel] at hrel
  | some m1 =>
    cases h2 : initKmeans 2 (seedRnd (rnd 0 % 4) (rnd 1 % 4)) fourPoints 10 twoStateModel with
    | none => simp [h2] at href
    | some r =>
      simp only [h1, h2, OptRel] at hrel
      simp only [h2, Option.map_some', Option.some.injEq] at href
      refine ⟨m1, rfl, ?_⟩
      have hm : m1.gaussians_.map (fun g => g.mean) = r.gaussians_.map (fun g => g.mean) :=
        hrel.2
      rw [hm]; exact href

/-- Witness for C3: `rand()` returning `7 i + 3` at its `i`-th call, on the model that
`setNumStates(2)` leaves. -/
theorem initKmeans_fourPoints_witness :
    ∃ m1, initKmeans 2 (fun i => 7 * i + 3) fourPoints 10 twoStateModel = some m1 ∧
      (m1.gaussians_.map (fun g => g.mean) = [[0, 1 / 2], [10, 21 / 2]] ∨
       m1.gaussians_.map (fun g => g.mean) = [[10, 21 / 2], [0, 1 / 2]]) :=
  initKmeans_fourPoints (fun i => 7 * i + 3) twoStateModel rfl (by decide)

theorem kmeans_reference_runs_float : ∀ a : Fin 4, ∀ b : Fin 4,
    (initKmeans 2 (seedRnd a.val b.val) fourPointsFloat 10 twoStateModelFloat).map
        (fun m => m.gaussians_.map (fun g => g.mean))
      = some [fpVec [0, 1 / 2], fpVec [10, 21 / 2]] ∨
    (initKmeans 2 (seedRnd a.val b.val) fourPointsFloat 10 twoStateModelFloat).map
        (fun m => m.gaussians_.map (fun g => g.mean))
      = some [fpVec [10, 21 / 2], fpVec [0, 1 / 2]] := by
  decide!

theorem initRandom_seed_rel_float (rnd : Nat → Nat) (m : GMM FP) (hn : m.num_states_ = 2)
    (hs : m.SizesAgree) :
    OptRel GMM.SameMeans (initRandom rnd fourPointsFloat m)
      (initRandom (seedRnd (rnd 0 % 4) (rnd 1 % 4)) fourPointsFloat twoStateModelFloat) := by
  obtain ⟨n, ini, ps, gs⟩ := m
  simp only at hn
  subst hn
  obtain ⟨hg, _⟩ := hs
  simp only at hg
  match gs, hg with
  | [g1, g2], _ =>
    have ha := Nat.mod_lt (rnd 0) (show 0 < 4 by decide)
    have hb := Nat.mod_lt (rnd 1) (show 0 < 4 by decide)
    have e4 : fourPointsFloat.length = 4 := rfl
    have e2 : (2 : Int).toNat = 2 := rfl
    simp only [initRandom, e4, e2, twoStateModelFloat, forLoop, seedRnd]
    generalize rnd 0 % 4 = a at ha
    generalize rnd 1 % 4 = b at hb
    interval_cases a <;> interval_cases b <;>
      simp [fourPointsFloat, modifyNat, OptRel, GMM.SameMeans, SameMeans]

/-- The scenario of C3 in floating point: on the same data set as `float` vectors the
run is the same, operation by operation, because no operation rounds; `initKmeans`
returns for every behaviour of `rand()` and leaves the means `[0, 0.5]` and
`[10, 10.5]`, in one of the two orders. -/
theorem initKmeans_fourPoints_float (rnd : Nat → Nat) (m : GMM FP)
    (hn : m.num_states_ = 2) (hs : m.SizesAgree) :
    ∃ m1, initKmeans 2 rnd fourPointsFloat 10 m = some m1 ∧
      (m1.gaussians_.map (fun g => g.mean) = [fpVec [0, 1 / 2], fpVec [10, 21 / 2]] ∨
       m1.gaussians_.map (fun g => g.mean) = [fpVec [10, 21 / 2], fpVec [0, 1 / 2]]) := by
  have hrel := initKmeans_rel 2 rnd (seedRnd (rnd 0 % 4) (rnd 1 % 4)) fourPointsFloat 10 m
    twoStateModelFloat (initRandom_seed_rel_float rnd m hn hs)
  have href := kmeans_reference_runs_float ⟨rnd 0 % 4, Nat.mod_lt _ (by decide)⟩
    ⟨rnd 1 % 4, Nat.mod_lt _ (by decide)⟩
  simp only at href
  cases h1 : initKmeans 2 rnd fourPointsFloat 10 m with
  | none =>
    cases h2 : initKmeans 2 (seedRnd (rnd 0 % 4) (rnd 1 % 4)) fourPointsFloat 10
        twoStateModelFloat with
    | none => simp [h2] at href
    | some r => simp [h1, h2, OptRel] at hrel
  | some m1 =>
    cases h2 : initKmeans 2 (seedRnd (rnd 0 % 4) (rnd 1 % 4)) fourPointsFloat 10
        twoStateModelFloat with
    | none => simp [h2] at href
    | some r =>
      simp only [h1, h2, OptRel] at hrel
      simp only [h2, Option.map_some', Option.some.injEq] at href
      refine ⟨m1, rfl, ?_⟩
      have hm : m1.gaussians_.map (fun g => g.mean) = r.gaussians_.map (fun g => g.mean) :=
        hrel.2
      rw [hm]; exact href

/-! ## A rejected read leaves the model alone -/

/-- C19. When `fromStream` fails because the stored dimension differs from `DIM`, it
returns false together with the model exactly as it was before the call
(`num_states_`, `initialized_`, priors and components), having consumed only the
four bytes of the dimension. -/
theorem fromStream_rejection_keeps_model {F : Type} [LinearOrderedField F] (DIM : Nat)
    (dflt : Gaussian F) (dc : DoubleCodec F) (gio : GaussianCodec F) (m : GMM F)
    (inp rest : List Byte) (dim : Int) (hread : readInt inp = some (dim, rest))
    (hdim : dim ≠ (DIM : Int)) :
    fromStream DIM dflt dc gio m inp = some (false, m, rest) := by
  simp only [fromStream, hread, hdim, ne_eq, not_false_eq_true, if_true]

/-- Witness for C19: `lineModel` (dimension 1 in the call) reads a stream that starts
with the dimension 3. -/
theorem fromStream_rejection_keeps_model_witness :
    fromStream 1 (⟨[0], [[1]]⟩ : Gaussian ℚ) ratCodec scalarGaussianCodec lineModel
      [3, 0, 0, 0, 5, 0, 0, 0, 1] = some (false, lineModel, [5, 0, 0, 0, 1]) :=
  fromStream_rejection_keeps_model 1 _ _ _ lineModel [3, 0, 0, 0, 5, 0, 0, 0, 1]
    [5, 0, 0, 0, 1] 3 (by decide) (by decide)

/-! ## Non-negative density -/

theorem accumAfter_succ {F : Type} [Zero F] [PriorArith F] (priors : List F) (k : Nat)
    (hk : k < priors.length) :
    accumAfter priors (k + 1) = PriorArith.addPrior (accumAfter priors k) priors[k] := by
  unfold accumAfter
  rw [List.take_succ, List.getElem?_eq_getElem hk, List.foldl_append]
  simp [Option.toList]

theorem drawLoop_accum {F : Type} [Zero F] [LT F] [DecidableRel (fun a b : F => a < b)]
    [PriorArith F] (thresh : F) (priors : List F) :
    ∀ (fuel : Nat) (accum : F) (state : Nat), state + fuel = priors.length →
      accum = accumAfter priors state →
      (∀ j, j < state → accumAfter priors j < thresh) →
      ∃ s1, drawLoop thresh (priors.length : Int) priors fuel (accum, state)
          = some (accumAfter priors s1, s1) ∧ s1 ≤ priors.length ∧
        (∀ j, j < s1 → accumAfter priors j < thresh) ∧
        (¬ accumAfter priors s1 < thresh ∨ s1 = priors.length) := by
  intro fuel
  induction fuel with
  | zero =>
    intro accum state h ha hlt
    have hn : ¬ ((state : Int) < (priors.length : Int)) := by omega
    refine ⟨state, ?_, by omega, hlt, Or.inr (by omega)⟩
    simp [drawLoop, hn, ha]
  | succ fuel ih =>
    intro accum state h ha hlt
    have hs : state < priors.length := by omega
    by_cases hc : accum < thresh
    · obtain ⟨s1, e, h1, h2, h3⟩ := ih (PriorArith.addPrior accum priors[state])
        (state + 1) (by omega)
        (by rw [accumAfter_succ priors state hs, ha])
        (by
          intro j hj
          rcases Nat.lt_succ_iff_lt_or_eq.mp hj with h1 | h1
          · exact hlt j h1
          · rw [h1, ← ha]; exact hc)
      refine ⟨s1, ?_, h1, h2, h3⟩
      have hlt2 : (state : Int) < (priors.length : Int) := by omega
      simp only [drawLoop, hc, hlt2, and_self, if_true, List.getElem?_eq_getElem hs]
      exact e
    · refine ⟨state, ?_, by omega, hlt, Or.inl ?_⟩
      · subst ha
        simp only [drawLoop, hc, false_and, if_false]
      · rw [← ha]; exact hc

/-- C18 (as amended). For every initialised model with at least one state whose
containers have `num_states_` entries, and every draw value `u > 0`, `draw` selects
the smallest index `k` at which its accumulator has stopped being below `u`: the
accumulator, a `g_float` that starts at zero and takes the value
`(float)(accum + priors_[j])` state by state, is below `u` after every state before
`k`, and it is not below `u` after state `k` unless `k` is the last state. -/
theorem drawState_first_reaching {F : Type} [Zero F] [LT F]
    [DecidableRel (fun a b : F => a < b)] [PriorArith F] (u : F) (m : GMM F)
    (hi : m.initialized_ = true) (hs : m.SizesAgree) (hn : 1 ≤ m.num_states_)
    (hu0 : 0 < u) :
    ∃ k : Nat, drawState u m = some (some (k : Int)) ∧ (k : Int) < m.num_states_ ∧
      (∀ j, j < k → accumAfter m.priors_ (j + 1) < u) ∧
      ((k : Int) + 1 < m.num_states_ → ¬ accumAfter m.priors_ (k + 1) < u) := by
  obtain ⟨_, hp⟩ := hs
  obtain ⟨s1, e, h1, h2, h3⟩ := drawLoop_accum u m.priors_ m.priors_.length 0 0
    (by omega) (by simp [accumAfter]) (by intro j hj; omega)
  have hpos : 0 < s1 := by
    rcases Nat.eq_zero_or_pos s1 with h0 | h0
    · rw [h0] at h3
      rcases h3 with h3 | h3
      · exact absurd (by simpa [accumAfter] using hu0) h3
      · omega
    · exact h0
  have ht : ((m.priors_.length : Int)).toNat = m.priors_.length := by omega
  refine ⟨s1 - 1, ?_, by omega, ?_, ?_⟩
  · simp only [drawState, hi, Bool.true_eq_false, if_false, ← hp, ht, e]
    congr 2
    omega
  · intro j hj
    exact h2 (j + 1) (by omega)
  · intro hlt
    have e1 : s1 - 1 + 1 = s1 := by omega
    rw [e1]
    rcases h3 with h3 | h3
    · exact h3
    · omega

/-- Witness for C18 (as amended): `evenModel` with the draw value `1/2`. -/
theorem drawState_first_reaching_witness :
    ∃ k : Nat, drawState (FP.fin (1 / 2)) evenModel = some (some (k : Int)) ∧
      (k : Int) < evenModel.num_states_ ∧
      (∀ j, j < k → accumAfter evenModel.priors_ (j + 1) < FP.fin (1 / 2)) ∧
      ((k : Int) + 1 < evenModel.num_states_ →
        ¬ accumAfter evenModel.priors_ (k + 1) < FP.fin (1 / 2)) :=
  drawState_first_reaching (FP.fin (1 / 2)) evenModel rfl (by decide) (by decide)
    (by decide!)

/-- C18 (counterexample). On `evenModel` (priors `[1/2, 1/2]`) with the draw value
`u = 1/2`, `draw` selects state 0, although the cumulative mass through state 0 is
`1/2`, which does not exceed `u`; the smallest index whose cumulative mass exceeds `u`
is 1.  On `nearlyEvenModel` (the `double` priors `1/2 - 2^-30` and `1/2 + 2^-30`,
which sum to one) with `u = 1/2`, `draw` selects state 0 as well, although the
cumulative mass through state 0 is below `u`: stored in the `float` accumulator it is
`1/2`. -/
theorem drawState_not_first_exceeding :
    drawState (FP.fin (1 / 2)) evenModel = some (some 0) ∧
    ¬ ((1 / 2 : ℚ) < exactMass evenModel.priors_ (0 + 1)) ∧
    (1 / 2 : ℚ) < exactMass evenModel.priors_ (1 + 1) ∧
    evenModel.initialized_ = true ∧ 1 ≤ evenModel.num_states_ ∧
    (∀ p ∈ evenModel.priors_, 0 ≤ p) ∧ exactMass evenModel.priors_ 2 = 1 ∧
    drawState (FP.fin (1 / 2)) nearlyEvenModel = some (some 0) ∧
    exactMass nearlyEvenModel.priors_ (0 + 1) < 1 / 2 ∧
    (1 / 2 : ℚ) < exactMass nearlyEvenModel.priors_ (1 + 1) ∧
    accumAfter nearlyEvenModel.priors_ 1 = FP.fin (1 / 2) ∧
    nearlyEvenModel.priors_.map (fun p => roundTo binary64 p.toRat) = nearlyEvenModel.priors_ ∧
    nearlyEvenModel.initialized_ = true ∧ 1 ≤ nearlyEvenModel.num_states_ ∧
    (∀ p ∈ nearlyEvenModel.priors_, 0 ≤ p) ∧ exactMass nearlyEvenModel.priors_ 2 = 1 ∧
    (0 : ℚ) ≤ 1 / 2 ∧ (1 / 2 : ℚ) < 1 := by
  refine ⟨by decide!, by decide!, by decide!, rfl, by decide, by decide!, by decide!,
    by decide!, by decide!, by decide!, by decide!, by decide!, rfl, by decide,
    by decide!, by decide!, by norm_num, by norm_num⟩

/-- The scenario of the spec, priors `[0.3, 0.7]`, with the draw value the `float`
nearest to `0.3`: the `double` prior `0.3` lies below that `float`, but stored in the
`float` accumulator it is equal to it, so the loop stops after state 0 and `draw`
selects state 0. -/
theorem drawState_scenario_threshold :
    drawState (roundTo binary32 (3 / 10)) scenarioFloat = some (some 0) ∧
    exactMass scenarioFloat.priors_ 1 < (roundTo binary32 (3 / 10)).toRat ∧
    accumAfter scenarioFloat.priors_ 1 = roundTo binary32 (3 / 10) := by
  refine ⟨by decide!, by decide!, by decide!⟩

/-! ## The assignment round `cluster` -/

/-- The scan of `cluster` for one pattern, started with `(d, b)`: either no component
is nearer than `d` and the pair is returned as it is, or the scan ends at a component
whose distance is below `d`, than which no component is nearer, and before which no
component is as near. -/
theorem nearest_scan (p : VectorType FP) :
    ∀ (gs : List (Gaussian FP)) (g_idx : Int) (d : FP) (b : Int),
      (nearest p gs g_idx (d, b) = (d, b) ∧ ∀ g ∈ gs, ¬ sqDist p g < d) ∨
       ∃ (k : Nat) (g : Gaussian FP), gs[k]? = some g ∧
         (nearest p gs g_idx (d, b)).2 = g_idx + (k : Int) ∧
         (nearest p gs g_idx (d, b)).1 = sqDist p g ∧
         sqDist p g < d ∧
         (∀ g1 ∈ gs, ¬ sqDist p g1 < sqDist p g) ∧
         ∀ j g1, j < k → gs[j]? = some g1 → ¬ sqDist p g1 ≤ sqDist p g := by
  intro gs
  induction gs with
  | nil =>
    intro g_idx d b
    exact Or.inl ⟨rfl, by simp⟩
  | cons g gs ih =>
    intro g_idx d b
    by_cases hlt : sqDist p g < d
    · have e : nearest p (g :: gs) g_idx (d, b)
          = nearest p gs (g_idx + 1) (sqDist p g, g_idx) := by
        simp only [sqDist] at hlt
        simp only [nearest, hlt, if_true, sqDist]
      rw [e]
      rcases ih (g_idx + 1) (sqDist p g) g_idx with
        ⟨heq, hall⟩ | ⟨k, g1, hk, hidx, hval, hlt2, hmin, hfirst⟩
      · refine Or.inr ⟨0, g, by simp, ?_, ?_, hlt, ?_, ?_⟩
        · rw [heq]; simp
        · rw [heq]
        · intro g1 hg1
          rcases List.mem_cons.mp hg1 with h | h
          · rw [h]; exact fp_lt_irrefl _
          · exact hall g1 h
        · intro j g1 hj; omega
      · refine Or.inr ⟨k + 1, g1, by simpa using hk, ?_, hval, fp_lt_trans hlt2 hlt, ?_, ?_⟩
        · rw [hidx]; push_cast; ring
        · intro g2 hg2
          rcases List.mem_cons.mp hg2 with h | h
          · rw [h]; intro h3; exact fp_lt_irrefl _ (fp_lt_trans h3 hlt2)
          · exact hmin g2 h
        · intro j g2 hj hg2
          cases j with
          | zero =>
            simp only [List.getElem?_cons_zero, Option.some.injEq] at hg2
            rw [← hg2]; intro h3; exact fp_lt_irrefl _ (fp_lt_of_le_of_lt h3 hlt2)
          | succ j =>
            simp only [List.getElem?_cons_succ] at hg2
            exact hfirst j g2 (by omega) hg2
    · have e : nearest p (g :: gs) g_idx (d, b) = nearest p gs (g_idx + 1) (d, b) := by
        simp only [sqDist] at hlt
        simp only [nearest, hlt, if_false]
      rw [e]
      rcases ih (g_idx + 1) d b with
        ⟨heq, hall⟩ | ⟨k, g1, hk, hidx, hval, hlt2, hmin, hfirst⟩
      · refine Or.inl ⟨heq, ?_⟩
        intro g1 hg1
        rcases List.mem_cons.mp hg1 with h | h
        · rw [h]; exact hlt
        · exact hall g1 h
      · refine Or.inr ⟨k + 1, g1, by simpa using hk, ?_, hval, hlt2, ?_, ?_⟩
        · rw [hidx]; push_cast; ring
        · intro g2 hg2
          rcases List.mem_cons.mp hg2 with h | h
          · rw [h]; intro h3; exact hlt (fp_lt_trans h3 hlt2)
          · exact hmin g2 h
        · intro j g2 hj hg2
          cases j with
          | zero =>
            simp only [List.getElem?_cons_zero, Option.some.injEq] at hg2
            rw [← hg2]; intro h3; exact hlt (fp_lt_of_le_of_lt h3 hlt2)
          | succ j =>
            simp only [List.getElem?_cons_succ] at hg2
            exact hfirst j g2 (by omega) hg2

/-- When some component is at a distance below the sentinel, the scan of `cluster` ends
with the first nearest component and its distance, whatever `best_idx` it starts
from. -/
theorem nearest_first (p : VectorType FP) (gs : List (Gaussian FP))
    (hnear : ∃ g ∈ gs, sqDist p g < GFLOAT_MAX) (b : Int) :
    ∃ (k : Nat) (g : Gaussian FP), gs[k]? = some g ∧
      (nearest p gs 0 (GFLOAT_MAX, b)).2 = (k : Int) ∧
      (nearest p gs 0 (GFLOAT_MAX, b)).1 = sqDist p g ∧ IsFirstNearest gs p k := by
  rcases nearest_scan p gs 0 GFLOAT_MAX b with
    ⟨_, hall⟩ | ⟨k, g, hk, hidx, hval, hlt, hmin, hfirst⟩
  · obtain ⟨g, hg, hlt⟩ := hnear
    exact absurd hlt (hall g hg)
  · exact ⟨k, g, hk, by rw [hidx]; simp, hval, g, hk, fp_ne_nan_of_lt_left hlt, hmin, hfirst⟩

theorem isFirstNearest_unique (gs : List (Gaussian FP)) (p : VectorType FP) (k c : Nat)
    (hk : IsFirstNearest gs p k) (hc : IsFirstNearest gs p c) : k = c := by
  obtain ⟨g, eg, gnum, gmin, gfirst⟩ := hk
  obtain ⟨g1, eg1, g1num, g1min, g1first⟩ := hc
  rcases Nat.lt_trichotomy k c with h | h | h
  · exact absurd (fp_le_of_not_lt g1num gnum (gmin g1 (List.getElem?_mem eg1)))
      (g1first k g h eg)
  · exact h
  · exact absurd (fp_le_of_not_lt gnum g1num (g1min g (List.getElem?_mem eg)))
      (gfirst c g1 h eg1)

theorem clusterLoop_length {F : Type} [Zero F] [Add F] [Sub F] [Mul F] [LT F]
    [DecidableRel (fun a b : F => a < b)] [NatCast F] (gs : List (Gaussian F)) :
    ∀ (pats : List (VectorType F)) (i : Nat) (st st1 : List Int × Int × F),
      clusterLoop gs pats i st = some st1 →
      pats.length = 0 ∨ i + pats.length ≤ st.1.length := by
  intro pats
  induction pats with
  | nil => intro i st st1 _; left; rfl
  | cons p ps ih =>
    intro i st st1 h
    obtain ⟨a, b, sd⟩ := st
    simp only [clusterLoop, modifyNat] at h
    cases hi : a[i]? with
    | none => simp [hi] at h
    | some x =>
      simp only [hi, Option.map_some'] at h
      have hi2 : i < a.length := (List.getElem?_eq_some.mp hi).1
      right
      rcases ih (i + 1) _ st1 h with h0 | h1
      · simp only [List.length_cons, h0]; omega
      · simp only [List.length_set] at h1
        simp only [List.length_cons]
        omega

theorem clusterLoop_spec {F : Type} [Zero F] [Add F] [Sub F] [Mul F] [LT F]
    [DecidableRel (fun a b : F => a < b)] [NatCast F] (gs : List (Gaussian F)) :
    ∀ (pats : List (VectorType F)) (i : Nat) (a : List Int) (b : Int) (sd : F),
      i + pats.length ≤ a.length →
      ∃ a1 b1, clusterLoop gs pats i (a, b, sd)
          = some (a1, b1, ((nearestSeq gs pats b).map (fun r => r.1)).foldl (· + ·) sd) ∧
        a1.length = a.length ∧
        (∀ j, j < pats.length →
          a1[i + j]? = ((nearestSeq gs pats b)[j]?).map (fun r => r.2)) ∧
        (∀ j, j < i ∨ i + pats.length ≤ j → a1[j]? = a[j]?) := by
  intro pats
  induction pats with
  | nil =>
    intro i a b sd _
    exact ⟨a, b, by simp [clusterLoop, nearestSeq], rfl, by intro j hj; simp at hj,
      fun _ _ => rfl⟩
  | cons p ps ih =>
    intro i a b sd hlen
    simp only [List.length_cons] at hlen
    have hi : i < a.length := by omega
    obtain ⟨a1, b1, e, hl, hin, hout⟩ := ih (i + 1)
      (a.set i (nearest p gs 0 (GFLOAT_MAX, b)).2) (nearest p gs 0 (GFLOAT_MAX, b)).2
      (sd + (nearest p gs 0 (GFLOAT_MAX, b)).1) (by rw [List.length_set]; omega)
    refine ⟨a1, b1, ?_, by rw [hl, List.length_set], ?_, ?_⟩
    · simp only [clusterLoop, modifyNat, List.getElem?_eq_getElem hi, Option.map_some',
        nearestSeq, List.map_cons, List.foldl_cons]
      rw [e]
    · intro j hj
      cases j with
      | zero =>
        rw [Nat.add_zero, hout i (Or.inl (by omega)), List.getElem?_set_self hi]
        simp [nearestSeq]
      | succ j =>
        have := hin j (by simp only [List.length_cons] at hj; omega)
        have e2 : i + (j + 1) = i + 1 + j := by omega
        rw [e2, this]
        simp [nearestSeq]
    · intro j hj
      simp only [List.length_cons] at hj
      rw [hout j (by omega), List.getElem?_set_ne (by omega)]

theorem changedLoop_false (a old : List Int) :
    ∀ (k i : Nat), (∀ j, i ≤ j → j < i + k → ∃ v, a[j]? = some v ∧ old[j]? = some v) →
      changedLoop a old i k = some false := by
  intro k
  induction k with
  | zero => intro i _; rfl
  | succ k ih =>
    intro i h
    obtain ⟨v, e1, e2⟩ := h i (le_refl i) (by omega)
    simp only [changedLoop, e1, e2, ne_eq, not_true_eq_false, if_false]
    exact ih (i + 1) (fun j hj1 hj2 => h j (by omega) (by omega))

theorem changedLoop_false_agree (a old : List Int) :
    ∀ (k i : Nat), changedLoop a old i k = some false →
      ∀ j, i ≤ j → j < i + k → ∃ v, a[j]? = some v ∧ old[j]? = some v := by
  intro k
  induction k with
  | zero => intro i _ j h1 h2; omega
  | succ k ih =>
    intro i h j h1 h2
    simp only [changedLoop] at h
    cases e1 : a[i]? with
    | none => simp [e1] at h
    | some x =>
      cases e2 : old[i]? with
      | none => simp [e1, e2] at h
      | some y =>
        simp only [e1, e2] at h
        by_cases hxy : x = y
        · simp only [hxy, ne_eq, not_true_eq_false, if_false] at h
          rcases Nat.eq_or_lt_of_le h1 with h3 | h3
          · rw [← h3]; exact ⟨y, by rw [e1, hxy], e2⟩
          · exact ih (i + 1) h j (by omega) (by omega)
        · simp [hxy] at h

theorem nearestSeq_length {F : Type} [Zero F] [Add F] [Sub F] [Mul F] [LT F]
    [DecidableRel (fun a b : F => a < b)] [NatCast F] (gs : List (Gaussian F)) :
    ∀ (pats : List (VectorType F)) (b : Int), (nearestSeq gs pats b).length = pats.length := by
  intro pats
  induction pats with
  | nil => intro b; rfl
  | cons p ps ih => intro b; simp [nearestSeq, ih]

theorem nearestSeq_getElem {F : Type} [Zero F] [Add F] [Sub F] [Mul F] [LT F]
    [DecidableRel (fun a b : F => a < b)] [NatCast F] (gs : List (Gaussian F)) :
    ∀ (pats : List (VectorType F)) (b : Int) (j : Nat) (p : VectorType F),
      pats[j]? = some p →
      ∃ b1, (nearestSeq gs pats b)[j]? = some (nearest p gs 0 (GFLOAT_MAX, b1)) := by
  intro pats
  induction pats with
  | nil => intro b j p h; simp at h
  | cons q ps ih =>
    intro b j p h
    cases j with
    | zero =>
      simp only [List.getElem?_cons_zero, Option.some.injEq] at h
      exact ⟨b, by simp [nearestSeq, h]⟩
    | succ j =>
      simp only [List.getElem?_cons_succ] at h
      obtain ⟨b1, e⟩ := ih (nearest q gs 0 (GFLOAT_MAX, b)).2 j p h
      exact ⟨b1, by simp [nearestSeq, e]⟩

theorem list_eq_map_range {α : Type} :
    ∀ (l : List α) (f : Nat → α), (∀ i, i < l.length → l[i]? = some (f i)) →
      l = (List.range l.length).map f := by
  intro l f h
  apply List.ext_getElem?
  intro i
  by_cases hi : i < l.length
  · rw [h i hi, List.getElem?_map, List.getElem?_range hi]; rfl
  · rw [List.getElem?_eq_none (by omega), List.getElem?_eq_none (by simp; omega)]

/-- What a run of `cluster` that returns has computed, in terms of `nearestSeq`. -/
theorem cluster_unfold {F : Type} [Zero F] [Add F] [Sub F] [Mul F] [LT F]
    [DecidableRel (fun a b : F => a < b)] [NatCast F] (m : GMM F)
    (assignments old_assignments a : List Int) (pats : List (VectorType F)) (d : F)
    (ch : Bool) (h : cluster m assignments old_assignments pats = some (d, a, ch)) :
    pats.length ≤ assignments.length ∧ a.length = assignments.length ∧
    d = floatSum ((nearestSeq m.gaussians_ pats 0).map (fun r => r.1)) ∧
    (∀ j, j < pats.length →
      a[j]? = ((nearestSeq m.gaussians_ pats 0)[j]?).map (fun r => r.2)) ∧
    (∀ j, pats.length ≤ j → a[j]? = assignments[j]?) ∧
    changedLoop a old_assignments 0 pats.length = some ch := by
  cases hc : clusterLoop m.gaussians_ pats 0 (assignments, 0, 0) with
  | none => simp only [cluster, hc, reduceCtorEq] at h
  | some r =>
    obtain ⟨a1, b1, sd1⟩ := r
    simp only [cluster, hc] at h
    cases hch : changedLoop a1 old_assignments 0 pats.length with
    | none => simp [hch] at h
    | some c =>
      simp only [hch, Option.some.injEq, Prod.mk.injEq] at h
      obtain ⟨hd, ha, hcc⟩ := h
      have hlen : pats.length ≤ assignments.length := by
        rcases clusterLoop_length m.gaussians_ pats 0 _ _ hc with h0 | h1
        · omega
        · simpa using h1
      obtain ⟨a2, b2, e, hl, hin, hout⟩ := clusterLoop_spec m.gaussians_ pats 0 assignments
        0 0 (by omega)
      rw [hc] at e
      simp only [Option.some.injEq, Prod.mk.injEq] at e
      obtain ⟨e1, _, e3⟩ := e
      subst e1
      subst ha
      refine ⟨hlen, hl, by rw [← hd, e3]; rfl, ?_, ?_, by rw [hch, hcc]⟩
      · intro j hj
        have := hin j hj
        simpa using this
      · intro j hj
        exact hout j (Or.inr (by omega))

/-- A run of `cluster` on buffers that are long enough returns. -/
theorem cluster_returns {F : Type} [Zero F] [Add F] [Sub F] [Mul F] [LT F]
    [DecidableRel (fun a b : F => a < b)] [NatCast F] (m : GMM F)
    (assignments old_assignments : List Int) (pats : List (VectorType F))
    (h1 : pats.length ≤ assignments.length) (h2 : pats.length ≤ old_assignments.length) :
    ∃ d a ch, cluster m assignments old_assignments pats = some (d, a, ch) := by
  obtain ⟨a1, b1, e, hl, _, _⟩ := clusterLoop_spec m.gaussians_ pats 0 assignments 0 0
    (by omega)
  obtain ⟨ch, ec⟩ := changedLoop_some a1 old_assignments pats.length 0 (by omega) (by omega)
  exact ⟨((nearestSeq m.gaussians_ pats 0).map (fun r => r.1)).foldl (· + ·) 0, a1, ch,
    by simp only [cluster, e, ec]⟩

/-- C11. If `cluster(a, old, data)` reports `changed = false`, then a further run
`cluster(a2, a, data)` on the same model, into any buffer `a2` with room for one
entry per pattern, returns the same summed distance, reports `changed = false`
again, and writes the same assignments as `a` for every pattern; when both buffers
hold exactly one entry per pattern, `a2` comes out equal to `a`. -/
theorem cluster_fixed_point {F : Type} [Zero F] [Add F] [Sub F] [Mul F] [LT F]
    [DecidableRel (fun a b : F => a < b)] [NatCast F]
    (m : GMM F)
    (a0 old a a2in : List Int) (pats : List (VectorType F)) (d : F)
    (h : cluster m a0 old pats = some (d, a, false)) (h2 : pats.length ≤ a2in.length) :
    ∃ a2, cluster m a2in a pats = some (d, a2, false) ∧
      (∀ j, j < pats.length → a2[j]? = a[j]?) ∧
      (a0.length = pats.length → a2in.length = pats.length → a2 = a) := by
  obtain ⟨hlen, hal, hd, hin, _, _⟩ := cluster_unfold m a0 old a pats d false h
  obtain ⟨d2, a2, ch2, e2⟩ := cluster_returns m a2in a pats h2 (by omega)
  obtain ⟨_, hal2, hd2, hin2, _, hch2⟩ := cluster_unfold m a2in a a2 pats d2 ch2 e2
  have hagree : ∀ j, j < pats.length → a2[j]? = a[j]? := by
    intro j hj; rw [hin j hj, hin2 j hj]
  have hfalse : changedLoop a2 a 0 pats.length = some false := by
    apply changedLoop_false
    intro j _ hj
    have hj1 : j < a.length := by omega
    exact ⟨a[j], by rw [hagree j (by omega)]; exact List.getElem?_eq_getElem hj1,
      List.getElem?_eq_getElem hj1⟩
  rw [hfalse] at hch2
  simp only [Option.some.injEq] at hch2
  refine ⟨a2, by rw [e2, hd2, ← hd, ← hch2], hagree, ?_⟩
  intro hl0 hl2
  apply List.ext_getElem?
  intro j
  by_cases hj : j < pats.length
  · exact hagree j hj
  · rw [List.getElem?_eq_none (by omega), List.getElem?_eq_none (by omega)]

/-- Witness for C11: on `twoStateModel` with its means at `[0, 1/2]` and `[10, 21/2]`
the assignment `[0, 0, 1, 1]` of `fourPoints` is reproduced. -/
theorem cluster_fixed_point_witness :
    ∃ a2, cluster ({ twoStateModel with
        gaussians_ := [⟨[0, 1 / 2], midentity 2⟩, ⟨[10, 21 / 2], midentity 2⟩] } : GMM ℚ)
        [7, 7, 7, 7] [0, 0, 1, 1] fourPoints = some (1, a2, false) ∧
      (∀ j, j < fourPoints.length → a2[j]? = ([0, 0, 1, 1] : List Int)[j]?) ∧
      (([5, 5, 5, 5] : List Int).length = fourPoints.length →
        ([7, 7, 7, 7] : List Int).length = fourPoints.length → a2 = [0, 0, 1, 1]) :=
  cluster_fixed_point _ [5, 5, 5, 5] [0, 0, 1, 1] [0, 0, 1, 1] [7, 7, 7, 7] fourPoints 1
    (by decide!) (by decide)

theorem cluster_entry (m : GMM FP)
    (assignments old_assignments a : List Int) (pats : List (VectorType FP)) (d : FP)
    (ch : Bool) (h : cluster m assignments old_assignments pats = some (d, a, ch))
    (hnear : ∀ p ∈ pats, ∃ g ∈ m.gaussians_, sqDist p g < GFLOAT_MAX)
    (i : Nat) (p : VectorType FP) (hp : pats[i]? = some p) :
    ∃ (k : Nat) (g : Gaussian FP), a[i]? = some (k : Int) ∧ m.gaussians_[k]? = some g ∧
      IsFirstNearest m.gaussians_ p k ∧
      ((nearestSeq m.gaussians_ pats 0).map (fun r => r.1))[i]? = some (sqDist p g) := by
  obtain ⟨_, _, _, hin, _, _⟩ := cluster_unfold m assignments old_assignments a pats d ch h
  have hi : i < pats.length := (List.getElem?_eq_some.mp hp).1
  obtain ⟨b1, e⟩ := nearestSeq_getElem m.gaussians_ pats 0 i p hp
  obtain ⟨k, g, hk, hidx, hval, hfirst⟩ := nearest_first p m.gaussians_
    (hnear p (List.getElem?_mem hp)) b1
  refine ⟨k, g, ?_, hk, hfirst, ?_⟩
  · rw [hin i hi, e]; simp [hidx]
  · rw [List.getElem?_map, e]; simp [hval]

/-- C14 (as amended). For every model and every data set in which every pattern has
some component mean at a computed squared distance below `GFLOAT_MAX`, `cluster` (on
buffers with room for one entry per pattern) returns; it has written into
`assignments[i]`, for every pattern `i`, the smallest component index that minimises
the squared distance as computed in `float`, `(p_i - mean).squaredNorm()`; and its
result is the sum of those minimal computed distances, accumulated in `float` in the
order of the patterns. -/
theorem cluster_first_nearest (m : GMM FP)
    (assignments old_assignments : List Int) (pats : List (VectorType FP))
    (hnear : ∀ p ∈ pats, ∃ g ∈ m.gaussians_, sqDist p g < GFLOAT_MAX)
    (h1 : pats.length ≤ assignments.length) (h2 : pats.length ≤ old_assignments.length) :
    ∃ (d : FP) (a : List Int) (ch : Bool),
      cluster m assignments old_assignments pats = some (d, a, ch) ∧
      (∀ (i : Nat) (p : VectorType FP), pats[i]? = some p →
        ∃ k : Nat, a[i]? = some (k : Int) ∧ IsFirstNearest m.gaussians_ p k) ∧
      d = floatSum ((List.range pats.length).map (assignedDist m.gaussians_ pats a)) := by
  obtain ⟨d, a, ch, e⟩ := cluster_returns m assignments old_assignments pats h1 h2
  obtain ⟨_, _, hd, _, _, _⟩ := cluster_unfold m assignments old_assignments a pats d ch e
  refine ⟨d, a, ch, e, ?_, ?_⟩
  · intro i p hp
    obtain ⟨k, g, hk, _, hfirst, _⟩ := cluster_entry m assignments old_assignments a pats
      d ch e hnear i p hp
    exact ⟨k, hk, hfirst⟩
  · have hlen : ((nearestSeq m.gaussians_ pats 0).map (fun r => r.1)).length = pats.length := by
      rw [List.length_map, nearestSeq_length]
    have hl := list_eq_map_range ((nearestSeq m.gaussians_ pats 0).map (fun r => r.1))
      (assignedDist m.gaussians_ pats a) (by
        intro i hi
        rw [hlen] at hi
        obtain ⟨k, g, hk, hg, _, hv⟩ := cluster_entry m assignments old_assignments a pats
          d ch e hnear i pats[i] (List.getElem?_eq_getElem hi)
        rw [hv]
        simp [assignedDist, List.getElem?_eq_getElem hi, hk, readAt, hg])
    rw [hlen] at hl
    rw [hd, hl]

/-- Witness for C14 (as amended): `fourPointsFloat` against the means `[0, 0.5]` and
`[10, 10.5]`. -/
theorem cluster_first_nearest_witness :
    ∃ (d : FP) (a : List Int) (ch : Bool),
      cluster convergedModel [7, 7, 7, 7] [0, 0, 1, 1] fourPointsFloat = some (d, a, ch) ∧
      (∀ (i : Nat) (p : VectorType FP), fourPointsFloat[i]? = some p →
        ∃ k : Nat, a[i]? = some (k : Int) ∧ IsFirstNearest convergedModel.gaussians_ p k) ∧
      d = floatSum ((List.range fourPointsFloat.length).map
        (assignedDist convergedModel.gaussians_ fourPointsFloat a)) :=
  cluster_first_nearest convergedModel [7, 7, 7, 7] [0, 0, 1, 1] fourPointsFloat
    (by decide!) (by decide) (by decide)

/-- C14 (counterexample). In `float` the pattern `1` is at the computed distance `2^48`
from both means of `closeMeansModel`, `-2^24` and `-2^24 + 1`, because `1 + 2^24`
rounds to `2^24`; `cluster` assigns it to component 0, although its squared Euclidean
distance to the mean of component 1 is strictly smaller.  And on four patterns `2^63`
against the single mean `0`, each at the squared distance `2^126`, which is below
`GFLOAT_MAX`, `cluster` returns `+inf`, not the sum `2^128` of the distances. -/
theorem cluster_not_euclidean :
    cluster closeMeansModel [7] [7] [fpVec [1]]
      = some (FP.fin 281474976710656, [0], true) ∧
    ((1 : ℚ) - (-16777215)) ^ 2 < ((1 : ℚ) - (-16777216)) ^ 2 ∧
    (∀ g ∈ closeMeansModel.gaussians_, sqDist (fpVec [1]) g < GFLOAT_MAX) ∧
    cluster originModel [7, 7, 7, 7] [7, 7, 7, 7]
        [fpVec [9223372036854775808], fpVec [9223372036854775808],
          fpVec [9223372036854775808], fpVec [9223372036854775808]]
      = some (FP.pinf, [0, 0, 0, 0], true) ∧
    sqDist (fpVec [9223372036854775808]) ⟨fpVec [0], midentity 1⟩
      = FP.fin 85070591730234615865843651857942052864 ∧
    FP.fin 85070591730234615865843651857942052864 < (GFLOAT_MAX : FP) := by
  refine ⟨by decide!, by norm_num, by decide!, by decide!, by decide!, by decide!⟩

/-! ## The update round `updateClusters` in closed form -/

theorem getElem?_set_if {α : Type} (l : List α) (i c : Nat) (x : α) (hi : i < l.length) :
    (l.set i x)[c]? = if c = i then some x else l[c]? := by
  by_cases h : c = i
  · rw [if_pos h, h, List.getElem?_set_self hi]
  · rw [if_neg h, List.getElem?_set_ne (fun e => h e.symm)]

theorem modifyNat_eq {α : Type} (l : List α) (i : Nat) (f : α → α) (hi : i < l.length) :
    modifyNat l i f = some (l.set i (f l[i])) := by
  simp [modifyNat, List.getElem?_eq_getElem hi]

theorem modifyAt_eq {α : Type} (l : List α) (k : Int) (f : α → α) (h0 : 0 ≤ k)
    (hi : k.toNat < l.length) :
    modifyAt l k f = some (l.set k.toNat (f l[k.toNat])) := by
  simp only [modifyAt, h0, if_true]
  exact modifyNat_eq l k.toNat f hi

theorem holds_congr {F : Type} (n : Nat) (s : UpdateState F) (cnt cnt1 : Nat → Int)
    (mean mean1 : Nat → VectorType F) (acc acc1 : Nat → MatrixType F)
    (h : s.Holds n cnt mean acc)
    (hc : ∀ c, c < n → cnt c = cnt1 c ∧ mean c = mean1 c ∧ acc c = acc1 c) :
    s.Holds n cnt1 mean1 acc1 := by
  refine ⟨h.1, fun c hcn => ?_⟩
  obtain ⟨e1, e2, e3⟩ := hc c hcn
  rw [← e1, ← e2, ← e3]
  exact h.2 c hcn

theorem resetStep_holds {F : Type} [Zero F] [One F] [Add F] [Sub F] [Mul F] [Div F]
    [IntCast F]
    (DIM n i : Nat)
    (s : UpdateState F) (cnt : Nat → Int) (mean : Nat → VectorType F)
    (acc : Nat → MatrixType F) (h : s.Holds n cnt mean acc) (hi : i < n) :
    ∃ s1, resetStep DIM i s = some s1 ∧
      s1.Holds n (fun c => if c = i then 0 else cnt c)
        (fun c => if c = i then vzero DIM else mean c)
        (fun c => if c = i then mzero DIM else acc c) := by
  obtain ⟨⟨h1, h2, h3⟩, hv⟩ := h
  have e : resetStep DIM i s = some
      { patterns_per_cluster := s.patterns_per_cluster.set i 0
        tmp_covar := s.tmp_covar.set i (mzero DIM)
        gaussians := s.gaussians.set i { s.gaussians[i] with mean := vzero DIM } } := by
    simp only [resetStep, modifyNat_eq s.patterns_per_cluster i _ (by omega),
      modifyNat_eq s.gaussians i _ (by omega), modifyNat_eq s.tmp_covar i _ (by omega)]
  refine ⟨_, e, ⟨by simpa using h1, by simpa using h2, by simpa using h3⟩, ?_⟩
  intro c hc
  obtain ⟨v1, v2, v3⟩ := hv c hc
  simp only [getElem?_set_if _ i c _ (show i < s.patterns_per_cluster.length by omega),
    getElem?_set_if _ i c _ (show i < s.tmp_covar.length by omega),
    getElem?_set_if _ i c _ (show i < s.gaussians.length by omega)]
  by_cases hci : c = i
  · simp [hci]
  · simp only [hci, if_false]
    exact ⟨v1, v2, v3⟩

theorem meanStep_holds {F : Type} [Zero F] [One F] [Add F] [Sub F] [Mul F] [Div F]
    [IntCast F]
    (n i : Nat)
    (assignments : List Int) (pats : List (VectorType F)) (s : UpdateState F)
    (cnt : Nat → Int) (mean : Nat → VectorType F) (acc : Nat → MatrixType F)
    (h : s.Holds n cnt mean acc) (k : Nat) (p : VectorType F)
    (ha : assignments[i]? = some (k : Int)) (hk : k < n) (hp : pats[i]? = some p) :
    ∃ s1, meanStep assignments pats i s = some s1 ∧
      s1.Holds n (fun c => if c = k then cnt c + 1 else cnt c)
        (fun c => if c = k then vadd (mean c) p else mean c) acc := by
  obtain ⟨⟨h1, h2, h3⟩, hv⟩ := h
  have hk0 : (0 : Int) ≤ (k : Int) := by omega
  have hkn : ((k : Int)).toNat = k := by omega
  have hk1 : k < s.patterns_per_cluster.length := by omega
  have hk3 : k < s.gaussians.length := by omega
  have e : meanStep assignments pats i s = some
      { s with
        patterns_per_cluster := s.patterns_per_cluster.set k (s.patterns_per_cluster[k] + 1)
        gaussians := s.gaussians.set k
          { s.gaussians[k] with mean := vadd s.gaussians[k].mean p } } := by
    simp only [meanStep, ha, hp,
      modifyAt_eq s.patterns_per_cluster (k : Int) _ hk0 (by omega),
      modifyAt_eq s.gaussians (k : Int) _ hk0 (by omega), hkn]
  refine ⟨_, e, ⟨by simpa using h1, h2, by simpa using h3⟩, ?_⟩
  intro c hc
  obtain ⟨v1, v2, v3⟩ := hv c hc
  obtain ⟨w1, w2, _⟩ := hv k hk
  simp only [getElem?_set_if _ k c _ (show k < s.patterns_per_cluster.length by omega),
    getElem?_set_if _ k c _ (show k < s.gaussians.length by omega)]
  by_cases hck : c = k
  · subst hck
    simp only [if_true, Option.map_some', Option.some.injEq, true_and]
    rw [List.getElem?_eq_getElem (show c < s.patterns_per_cluster.length by omega)] at w1
    rw [List.getElem?_eq_getElem (show c < s.gaussians.length by omega)] at w2
    simp only [Option.some.injEq, Option.map_some'] at w1 w2
    exact ⟨by rw [w1], by rw [w2], v3⟩
  · simp only [hck, if_false]
    exact ⟨v1, v2, v3⟩

theorem normalizeMeanStep_holds {F : Type} [Zero F] [One F] [Add F] [Sub F] [Mul F] [Div F]
    [IntCast F]
    (n i : Nat)
    (s : UpdateState F) (cnt : Nat → Int) (mean : Nat → VectorType F)
    (acc : Nat → MatrixType F) (h : s.Holds n cnt mean acc) (hi : i < n) :
    ∃ s1, normalizeMeanStep i s = some s1 ∧
      s1.Holds n cnt
        (fun c => if c = i then (if cnt i > 0 then vdiv (mean i) ((cnt i : Int) : F)
          else mean i) else mean c) acc := by
  obtain ⟨⟨h1, h2, h3⟩, hv⟩ := h
  obtain ⟨w1, w2, _⟩ := hv i hi
  have hi3 : i < s.gaussians.length := by omega
  rw [List.getElem?_eq_getElem hi3] at w2
  simp only [Option.map_some', Option.some.injEq] at w2
  by_cases hpos : cnt i > 0
  · have e : normalizeMeanStep i s = some
        { s with gaussians := (s.gaussians.set i
            { s.gaussians[i] with mean := vdiv s.gaussians[i].mean ((cnt i : Int) : F) }) } := by
      simp only [normalizeMeanStep, w1, hpos, if_true, modifyNat_eq s.gaussians i _ hi3,
        Option.map_some']
    refine ⟨_, e, ⟨h1, h2, by simpa using h3⟩, ?_⟩
    intro c hc
    obtain ⟨v1, v2, v3⟩ := hv c hc
    simp only [getElem?_set_if _ i c _ hi3]
    by_cases hci : c = i
    · subst hci
      simp only [if_true, hpos, Option.map_some', w2]
      exact ⟨v1, trivial, v3⟩
    · simp only [hci, if_false]
      exact ⟨v1, v2, v3⟩
  · have e : normalizeMeanStep i s = some s := by
      simp only [normalizeMeanStep, w1, hpos, if_false]
    refine ⟨s, e, ⟨h1, h2, h3⟩, ?_⟩
    intro c hc
    obtain ⟨v1, v2, v3⟩ := hv c hc
    by_cases hci : c = i
    · subst hci
      simp only [if_true, hpos, if_false]
      exact ⟨v1, v2, v3⟩
    · simp only [hci, if_false]
      exact ⟨v1, v2, v3⟩

theorem covarStep_holds {F : Type} [Zero F] [One F] [Add F] [Sub F] [Mul F] [Div F]
    [IntCast F]
    (n i : Nat)
    (assignments : List Int) (pats : List (VectorType F)) (s : UpdateState F)
    (cnt : Nat → Int) (mean : Nat → VectorType F) (acc : Nat → MatrixType F)
    (h : s.Holds n cnt mean acc) (k : Nat) (p : VectorType F)
    (ha : assignments[i]? = some (k : Int)) (hk : k < n) (hp : pats[i]? = some p) :
    ∃ s1, covarStep assignments pats i s = some s1 ∧
      s1.Holds n cnt mean
        (fun c => if c = k then madd (acc c) (outer (vsub p (mean c))) else acc c) := by
  obtain ⟨⟨h1, h2, h3⟩, hv⟩ := h
  have hk0 : (0 : Int) ≤ (k : Int) := by omega
  have hkn : ((k : Int)).toNat = k := by omega
  have hk2 : k < s.tmp_covar.length := by omega
  have hk3 : k < s.gaussians.length := by omega
  obtain ⟨_, w2, w3⟩ := hv k hk
  rw [List.getElem?_eq_getElem hk3] at w2
  rw [List.getElem?_eq_getElem hk2] at w3
  simp only [Option.map_some', Option.some.injEq] at w2 w3
  have e : covarStep assignments pats i s = some
      { s with tmp_covar := (s.tmp_covar.set k
          (madd s.tmp_covar[k] (outer (vsub p s.gaussians[k].mean)))) } := by
    simp only [covarStep, ha, hp, readAt, hk0, if_true, hkn,
      List.getElem?_eq_getElem hk3, modifyAt_eq s.tmp_covar (k : Int) _ hk0 (by omega),
      Option.map_some']
  refine ⟨_, e, ⟨h1, by simpa using h2, h3⟩, ?_⟩
  intro c hc
  obtain ⟨v1, v2, v3⟩ := hv c hc
  simp only [getElem?_set_if _ k c _ hk2]
  by_cases hck : c = k
  · subst hck
    simp only [if_true, w2, w3]
    exact ⟨v1, v2, trivial⟩
  · simp only [hck, if_false]
    exact ⟨v1, v2, v3⟩

theorem normalizeCovarStep_holds {F : Type} [Zero F] [One F] [Add F] [Sub F] [Mul F] [Div F]
    [IntCast F]
    (DIM n i : Nat)
    (s : UpdateState F) (cnt : Nat → Int) (mean : Nat → VectorType F)
    (acc : Nat → MatrixType F) (h : s.Holds n cnt mean acc) (hi : i < n) :
    ∃ s1, normalizeCovarStep DIM i s = some s1 ∧
      s1.Holds n cnt mean
        (fun c => if c = i then
          (if cnt i > 0 then mdiv (acc i) ((cnt i : Int) : F) else midentity DIM)
          else acc c) ∧
      (s1.gaussians[i]?).map (fun g => g.covariance)
        = some (if cnt i > 0 then mdiv (acc i) ((cnt i : Int) : F) else midentity DIM) ∧
      ∀ c, c ≠ i → s1.gaussians[c]? = s.gaussians[c]? := by
  obtain ⟨⟨h1, h2, h3⟩, hv⟩ := h
  obtain ⟨w1, w2, w3⟩ := hv i hi
  have hi3 : i < s.gaussians.length := by omega
  have hi2 : i < s.tmp_covar.length := by omega
  have e : normalizeCovarStep DIM i s = some
      { s with
        tmp_covar := (s.tmp_covar.set i
          (if cnt i > 0 then mdiv (acc i) ((cnt i : Int) : F) else midentity DIM))
        gaussians := (s.gaussians.set i (s.gaussians[i].setCovariance
          (if cnt i > 0 then mdiv (acc i) ((cnt i : Int) : F) else midentity DIM))) } := by
    simp only [normalizeCovarStep, w1, w3, modifyNat_eq s.gaussians i _ hi3,
      Option.map_some']
  refine ⟨_, e, ⟨⟨h1, by simpa using h2, by simpa using h3⟩, ?_⟩, ?_, ?_⟩
  · intro c hc
    obtain ⟨v1, v2, v3⟩ := hv c hc
    simp only [getElem?_set_if _ i c _ hi3, getElem?_set_if _ i c _ hi2]
    by_cases hci : c = i
    · subst hci
      rw [List.getElem?_eq_getElem hi3] at v2
      simp only [Option.map_some', Option.some.injEq] at v2
      simp only [if_true, Option.map_some', Gaussian.setCovariance, v2]
      exact ⟨v1, trivial, trivial⟩
    · simp only [hci, if_false]
      exact ⟨v1, v2, v3⟩
  · simp only [List.getElem?_set_self hi3, Option.map_some', Gaussian.setCovariance]
  · intro c hc
    simp only [List.getElem?_set_ne (fun e => hc e.symm)]

theorem inRange_entry (n : Nat) (a : List Int) (L i : Nat) (h : InRange (n : Int) a L)
    (hi : i < L) : ∃ k : Nat, a[i]? = some (k : Int) ∧ k < n := by
  obtain ⟨v, e, v0, v1⟩ := h i hi
  refine ⟨v.toNat, ?_, by omega⟩
  rw [e, Int.toNat_of_nonneg v0]

theorem update_loop_reset {F : Type} [Zero F] [One F] [Add F] [Sub F] [Mul F] [Div F]
    [IntCast F]
    (DIM n : Nat)
    (s : UpdateState F) (mean : Nat → VectorType F)
    (h : s.Holds n (fun _ => 0) mean (fun _ => mzero DIM)) :
    ∃ s1, forLoop (resetStep DIM) 0 n s = some s1 ∧
      s1.Holds n (fun _ => 0) (fun _ => vzero DIM) (fun _ => mzero DIM) := by
  obtain ⟨s1, e, h1⟩ := forLoop_indexed
    (fun i (t : UpdateState F) => t.Holds n (fun _ => 0)
      (fun c => if c < i then vzero DIM else mean c) (fun _ => mzero DIM))
    (resetStep DIM) n 0 s
    (holds_congr n s _ _ _ _ _ _ h (fun c _ => ⟨rfl, by simp, rfl⟩))
    (by
      intro j t _ hj ht
      obtain ⟨t1, e1, h1⟩ := resetStep_holds DIM n j t _ _ _ ht (by omega)
      refine ⟨t1, e1, holds_congr n t1 _ _ _ _ _ _ h1 (fun c _ => ⟨?_, ?_, ?_⟩)⟩
      · simp
      · by_cases hc : c = j
        · simp [hc]
        · have : (c < j + 1) = (c < j) := by
            apply propext; constructor <;> intro h <;> omega
          simp only [hc, if_false, this]
      · simp)
  refine ⟨s1, e, holds_congr n s1 _ _ _ _ _ _ h1 (fun c hc => ⟨rfl, ?_, rfl⟩)⟩
  simp only [Nat.zero_add, hc, if_true]

theorem update_loop_mean {F : Type} [Zero F] [One F] [Add F] [Sub F] [Mul F] [Div F]
    [IntCast F]
    (DIM n : Nat)
    (a : List Int) (pats : List (VectorType F)) (ha : InRange (n : Int) a pats.length)
    (s : UpdateState F)
    (h : s.Holds n (fun _ => 0) (fun _ => vzero DIM) (fun _ => mzero DIM)) :
    ∃ s1, forLoop (meanStep a pats) 0 pats.length s = some s1 ∧
      s1.Holds n (fun c => countUpTo a c pats.length)
        (fun c => sumUpTo DIM a pats c pats.length) (fun _ => mzero DIM) := by
  obtain ⟨s1, e, h1⟩ := forLoop_indexed
    (fun i (t : UpdateState F) => t.Holds n (fun c => countUpTo a c i)
      (fun c => sumUpTo DIM a pats c i) (fun _ => mzero DIM))
    (meanStep a pats) pats.length 0 s
    (holds_congr n s _ _ _ _ _ _ h (fun c _ => ⟨rfl, rfl, rfl⟩))
    (by
      intro j t _ hj ht
      have hjl : j < pats.length := by omega
      obtain ⟨k, ek, hk⟩ := inRange_entry n a pats.length j ha hjl
      obtain ⟨t1, e1, h1⟩ := meanStep_holds n j a pats t _ _ _ ht k pats[j] ek hk
        (List.getElem?_eq_getElem hjl)
      refine ⟨t1, e1, holds_congr n t1 _ _ _ _ _ _ h1 (fun c _ => ⟨?_, ?_, rfl⟩)⟩
      · by_cases hc : c = k
        · simp [countUpTo, ek, hc]
        · have : ¬ ((k : Int) = (c : Int)) := by omega
          simp [countUpTo, ek, hc, this]
      · by_cases hc : c = k
        · simp [sumUpTo, ek, hc, List.getD_eq_getElem?_getD, List.getElem?_eq_getElem hjl]
        · have : ¬ ((k : Int) = (c : Int)) := by omega
          simp [sumUpTo, ek, hc, this])
  refine ⟨s1, e, ?_⟩
  simpa only [Nat.zero_add] using h1

theorem update_loop_normalizeMean {F : Type} [Zero F] [One F] [Add F] [Sub F] [Mul F] [Div F]
    [IntCast F]
    (DIM n : Nat)
    (a : List Int) (pats : List (VectorType F)) (s : UpdateState F)
    (h : s.Holds n (fun c => countUpTo a c pats.length)
        (fun c => sumUpTo DIM a pats c pats.length) (fun _ => mzero DIM)) :
    ∃ s1, forLoop normalizeMeanStep 0 n s = some s1 ∧
      s1.Holds n (fun c => countUpTo a c pats.length)
        (fun c => newMean DIM a pats c) (fun _ => mzero DIM) := by
  obtain ⟨s1, e, h1⟩ := forLoop_indexed
    (fun i (t : UpdateState F) => t.Holds n (fun c => countUpTo a c pats.length)
      (fun c => if c < i then newMean DIM a pats c else sumUpTo DIM a pats c pats.length)
      (fun _ => mzero DIM))
    normalizeMeanStep n 0 s
    (holds_congr n s _ _ _ _ _ _ h (fun c _ => ⟨rfl, by simp, rfl⟩))
    (by
      intro j t _ hj ht
      obtain ⟨t1, e1, h1⟩ := normalizeMeanStep_holds n j t _ _ _ ht (by omega)
      refine ⟨t1, e1, holds_congr n t1 _ _ _ _ _ _ h1 (fun c _ => ⟨rfl, ?_, rfl⟩)⟩
      by_cases hc : c = j
      · subst hc
        simp [newMean]
      · have : (c < j + 1) = (c < j) := by
          apply propext; constructor <;> intro h <;> omega
        simp only [hc, if_false, this])
  refine ⟨s1, e, holds_congr n s1 _ _ _ _ _ _ h1 (fun c hc => ⟨rfl, ?_, rfl⟩)⟩
  simp only [Nat.zero_add, hc, if_true]

theorem update_loop_covar {F : Type} [Zero F] [One F] [Add F] [Sub F] [Mul F] [Div F]
    [IntCast F]
    (DIM n : Nat)
    (a : List Int) (pats : List (VectorType F)) (ha : InRange (n : Int) a pats.length)
    (s : UpdateState F)
    (h : s.Holds n (fun c => countUpTo a c pats.length)
        (fun c => newMean DIM a pats c) (fun _ => mzero DIM)) :
    ∃ s1, forLoop (covarStep a pats) 0 pats.length s = some s1 ∧
      s1.Holds n (fun c => countUpTo a c pats.length) (fun c => newMean DIM a pats c)
        (fun c => covUpTo DIM a pats (newMean DIM a pats c) c pats.length) := by
  obtain ⟨s1, e, h1⟩ := forLoop_indexed
    (fun i (t : UpdateState F) => t.Holds n (fun c => countUpTo a c pats.length)
      (fun c => newMean DIM a pats c)
      (fun c => covUpTo DIM a pats (newMean DIM a pats c) c i))
    (covarStep a pats) pats.length 0 s
    (holds_congr n s _ _ _ _ _ _ h (fun c _ => ⟨rfl, rfl, rfl⟩))
    (by
      intro j t _ hj ht
      have hjl : j < pats.length := by omega
      obtain ⟨k, ek, hk⟩ := inRange_entry n a pats.length j ha hjl
      obtain ⟨t1, e1, h1⟩ := covarStep_holds n j a pats t _ _ _ ht k pats[j] ek hk
        (List.getElem?_eq_getElem hjl)
      refine ⟨t1, e1, holds_congr n t1 _ _ _ _ _ _ h1 (fun c _ => ⟨rfl, rfl, ?_⟩)⟩
      by_cases hc : c = k
      · simp [covUpTo, ek, hc, List.getD_eq_getElem?_getD, List.getElem?_eq_getElem hjl]
      · have : ¬ ((k : Int) = (c : Int)) := by omega
        simp [covUpTo, ek, hc, this])
  refine ⟨s1, e, ?_⟩
  simpa only [Nat.zero_add] using h1

theorem update_loop_normalizeCovar {F : Type} [Zero F] [One F] [Add F] [Sub F] [Mul F] [Div F]
    [IntCast F]
    (DIM n : Nat)
    (a : List Int) (pats : List (VectorType F)) (s : UpdateState F)
    (h : s.Holds n (fun c => countUpTo a c pats.length) (fun c => newMean DIM a pats c)
        (fun c => covUpTo DIM a pats (newMean DIM a pats c) c pats.length)) :
    ∃ s1, forLoop (normalizeCovarStep DIM) 0 n s = some s1 ∧ s1.gaussians.length = n ∧
      ∀ c, c < n → s1.gaussians[c]? = some ⟨newMean DIM a pats c, newCov DIM a pats c⟩ := by
  obtain ⟨s1, e, h1, h2⟩ := forLoop_indexed
    (fun i (t : UpdateState F) => t.Holds n (fun c => countUpTo a c pats.length)
      (fun c => newMean DIM a pats c)
      (fun c => if c < i then newCov DIM a pats c
        else covUpTo DIM a pats (newMean DIM a pats c) c pats.length) ∧
      ∀ c, c < i → (t.gaussians[c]?).map (fun g => g.covariance)
        = some (newCov DIM a pats c))
    (normalizeCovarStep DIM) n 0 s
    ⟨holds_congr n s _ _ _ _ _ _ h (fun c _ => ⟨rfl, rfl, by simp⟩),
      by intro c hc; omega⟩
    (by
      intro j t _ hj ht
      obtain ⟨ht1, ht2⟩ := ht
      obtain ⟨t1, e1, h1, hcov, hother⟩ := normalizeCovarStep_holds DIM n j t _ _ _ ht1
        (by omega)
      have hnew : (if countUpTo a j pats.length > 0 then
            mdiv (if j < j then newCov DIM a pats j
              else covUpTo DIM a pats (newMean DIM a pats j) j pats.length)
              ((countUpTo a j pats.length : Int) : F)
          else midentity DIM) = newCov DIM a pats j := by
        simp [newCov]
      refine ⟨t1, e1, holds_congr n t1 _ _ _ _ _ _ h1 (fun c _ => ⟨rfl, rfl, ?_⟩), ?_⟩
      · by_cases hc : c = j
        · subst hc
          simp [newCov]
        · have : (c < j + 1) = (c < j) := by
            apply propext; constructor <;> intro h <;> omega
          simp only [hc, if_false, this]
      · intro c hc
        by_cases hcj : c = j
        · subst hcj
          rw [hcov, hnew]
        · rw [hother c hcj]
          exact ht2 c (by omega))
  refine ⟨s1, e, h1.1.2.2, ?_⟩
  intro c hc
  obtain ⟨_, hm, _⟩ := h1.2 c hc
  have hcv := h2 c (by omega)
  cases hg : s1.gaussians[c]? with
  | none => simp [hg] at hm
  | some g =>
    simp only [hg, Option.map_some', Option.some.injEq] at hm hcv
    obtain ⟨gm, gc⟩ := g
    simp only at hm hcv
    rw [hm, hcv]

/-- The closed form of `updateClusters`: on a model whose containers have
`num_states_` entries and an assignment buffer in range, it returns the model with
every component replaced by its new mean and new covariance. -/
theorem updateClusters_closed {F : Type} [Zero F] [One F] [Add F] [Sub F] [Mul F] [Div F]
    [IntCast F]
    (DIM : Nat) (m : GMM F)
    (hs : m.SizesAgree) (a : List Int) (pats : List (VectorType F))
    (ha : InRange m.num_states_ a pats.length) :
    ∃ m1, updateClusters DIM a pats m = some m1 ∧ m1.num_states_ = m.num_states_ ∧
      m1.priors_ = m.priors_ ∧ m1.initialized_ = m.initialized_ ∧
      m1.gaussians_.length = m.gaussians_.length ∧
      ∀ c, c < m.gaussians_.length →
        m1.gaussians_[c]? = some ⟨newMean DIM a pats c, newCov DIM a pats c⟩ := by
  obtain ⟨hg, hp⟩ := hs
  have hn : ¬ m.num_states_ < 0 := by omega
  have hlen : m.num_states_.toNat = m.gaussians_.length := by omega
  have ha1 : InRange ((m.gaussians_.length : Nat) : Int) a pats.length := by
    rw [hg]; exact ha
  have h0 : UpdateState.Holds m.gaussians_.length
      ({ patterns_per_cluster := List.replicate m.gaussians_.length 0
         tmp_covar := List.replicate m.gaussians_.length (mzero DIM)
         gaussians := m.gaussians_ } : UpdateState F)
      (fun _ => 0) (fun c => ((m.gaussians_[c]?).map (fun g => g.mean)).getD [])
      (fun _ => mzero DIM) := by
    refine ⟨⟨by simp, by simp, rfl⟩, ?_⟩
    intro c hc
    simp [List.getElem?_replicate, hc, List.getElem?_eq_getElem hc]
  obtain ⟨s1, e1, q1⟩ := update_loop_reset DIM _ _ _ h0
  obtain ⟨s2, e2, q2⟩ := update_loop_mean DIM _ a pats ha1 s1 q1
  obtain ⟨s3, e3, q3⟩ := update_loop_normalizeMean DIM _ a pats s2 q2
  obtain ⟨s4, e4, q4⟩ := update_loop_covar DIM _ a pats ha1 s3 q3
  obtain ⟨s5, e5, hl5, q5⟩ := update_loop_normalizeCovar DIM _ a pats s4 q4
  refine ⟨{ m with gaussians_ := s5.gaussians }, ?_, rfl, rfl, rfl, hl5, q5⟩
  simp only [updateClusters, hn, if_false, hlen, e1, e2, e3, e4, e5, Option.some_bind,
    Option.map_some']

/-! ## Entries of the new means and covariances -/

theorem vget_vadd {F : Type} [Zero F] [Add F]
    (x y : VectorType F) (k : Nat) (hx : k < x.length) (hy : k < y.length) :
    vget (vadd x y) k = vget x k + vget y k := by
  simp [vget, vadd, List.getD_eq_getElem?_getD, List.getElem?_zipWith,
    List.getElem?_eq_getElem hx, List.getElem?_eq_getElem hy]

theorem vget_vsub {F : Type} [Zero F] [Sub F]
    (x y : VectorType F) (k : Nat) (hx : k < x.length) (hy : k < y.length) :
    vget (vsub x y) k = vget x k - vget y k := by
  simp [vget, vsub, List.getD_eq_getElem?_getD, List.getElem?_zipWith,
    List.getElem?_eq_getElem hx, List.getElem?_eq_getElem hy]

theorem vget_vdiv {F : Type} [Zero F] [Div F] (v : VectorType F) (c : F) (k : Nat)
    (hk : k < v.length) : vget (vdiv v c) k = vget v k / c := by
  simp [vget, vdiv, List.getD_eq_getElem?_getD, List.getElem?_map,
    List.getElem?_eq_getElem hk]

theorem vget_vzero {F : Type} [Zero F]
    (DIM k : Nat) : vget (vzero DIM : VectorType F) k = 0 := by
  simp only [vget, vzero, List.getD_eq_getElem?_getD, List.getElem?_replicate]
  split <;> simp

theorem vadd_length {F : Type} [Add F]
    (x y : VectorType F) (h : x.length = y.length) :
    (vadd x y).length = x.length := by
  simp [vadd, h]

theorem vsub_length {F : Type} [Sub F]
    (x y : VectorType F) (h : x.length = y.length) :
    (vsub x y).length = x.length := by
  simp [vsub, h]

theorem vdiv_length {F : Type} [Div F]
    (v : VectorType F) (c : F) : (vdiv v c).length = v.length := by
  simp [vdiv]

theorem vzero_length {F : Type} [Zero F]
    (DIM : Nat) : (vzero DIM : VectorType F).length = DIM := by
  simp [vzero]

theorem isMat_mzero {F : Type} [Zero F]
    (DIM : Nat) : IsMat DIM (mzero DIM : MatrixType F) := by
  refine ⟨by simp [mzero], ?_⟩
  intro row hrow
  simp only [mzero] at hrow
  rw [(List.mem_replicate.mp hrow).2]; simp

theorem mget_mzero {F : Type} [Zero F]
    (DIM r s : Nat) : mget (mzero DIM : MatrixType F) r s = 0 := by
  simp only [mget, mzero, List.getD_eq_getElem?_getD, List.getElem?_replicate]
  by_cases hr : r < DIM
  · simp only [hr, if_true, Option.getD_some, List.getElem?_replicate]
    split <;> simp
  · simp [hr]

theorem isMat_outer {F : Type} [Mul F]
    (v : VectorType F) : IsMat v.length (outer v) := by
  refine ⟨by simp [outer], ?_⟩
  intro row hrow
  simp only [outer, List.mem_map] at hrow
  obtain ⟨a, _, rfl⟩ := hrow
  simp

theorem mget_outer {F : Type} [Zero F] [Mul F] (v : VectorType F) (r s : Nat)
    (hr : r < v.length) (hs : s < v.length) :
    mget (outer v) r s = vget v r * vget v s := by
  simp [mget, outer, vget, List.getD_eq_getElem?_getD, List.getElem?_map,
    List.getElem?_eq_getElem hr, List.getElem?_eq_getElem hs]

theorem isMat_madd {F : Type} [Add F]
    (DIM : Nat) (A B : MatrixType F) (hA : IsMat DIM A) (hB : IsMat DIM B) :
    IsMat DIM (madd A B) := by
  refine ⟨by simp [madd, hA.1, hB.1], ?_⟩
  intro row hrow
  obtain ⟨i, hi⟩ := List.mem_iff_getElem?.mp hrow
  simp only [madd, List.getElem?_zipWith] at hi
  cases ha : A[i]? with
  | none => simp [ha] at hi
  | some x =>
    cases hb : B[i]? with
    | none => simp [ha, hb] at hi
    | some y =>
      simp only [ha, hb, Option.some.injEq] at hi
      rw [← hi]
      simp [hA.2 x (List.getElem?_mem ha), hB.2 y (List.getElem?_mem hb)]

theorem mget_madd {F : Type} [Zero F] [Add F]
    (DIM : Nat) (A B : MatrixType F) (hA : IsMat DIM A) (hB : IsMat DIM B)
    (r s : Nat) (hr : r < DIM) (hs : s < DIM) :
    mget (madd A B) r s = mget A r s + mget B r s := by
  have ha : r < A.length := by rw [hA.1]; exact hr
  have hb : r < B.length := by rw [hB.1]; exact hr
  have hsa : s < A[r].length := by rw [hA.2 _ (List.getElem_mem _)]; exact hs
  have hsb : s < B[r].length := by rw [hB.2 _ (List.getElem_mem _)]; exact hs
  simp [mget, madd, List.getD_eq_getElem?_getD, List.getElem?_zipWith,
    List.getElem?_eq_getElem ha, List.getElem?_eq_getElem hb,
    List.getElem?_eq_getElem hsa, List.getElem?_eq_getElem hsb]

theorem mget_mdiv {F : Type} [Zero F] [Div F] (DIM : Nat) (A : MatrixType F) (c : F)
    (hA : IsMat DIM A) (r s : Nat) (hr : r < DIM) (hs : s < DIM) :
    mget (mdiv A c) r s = mget A r s / c := by
  have ha : r < A.length := by rw [hA.1]; exact hr
  have hsa : s < A[r].length := by rw [hA.2 _ (List.getElem_mem _)]; exact hs
  simp [mget, mdiv, List.getD_eq_getElem?_getD, List.getElem?_map,
    List.getElem?_eq_getElem ha, List.getElem?_eq_getElem hsa]

theorem isMat_mdiv {F : Type} [Div F]
    (DIM : Nat) (A : MatrixType F) (c : F) (hA : IsMat DIM A) :
    IsMat DIM (mdiv A c) := by
  refine ⟨by simp [mdiv, hA.1], ?_⟩
  intro row hrow
  simp only [mdiv, List.mem_map] at hrow
  obtain ⟨x, hx, rfl⟩ := hrow
  simp [hA.2 x hx]

theorem isMat_midentity {F : Type} [Zero F] [One F]
    (DIM : Nat) : IsMat DIM (midentity DIM : MatrixType F) := by
  refine ⟨by simp [midentity], ?_⟩
  intro row hrow
  simp only [midentity, List.mem_map] at hrow
  obtain ⟨x, _, rfl⟩ := hrow
  simp

theorem pattern_length {F : Type} (DIM : Nat) (pats : List (VectorType F))
    (hp : ∀ p ∈ pats, p.length = DIM) (i : Nat) (hi : i < pats.length) :
    (pats.getD i []).length = DIM := by
  rw [List.getD_eq_getElem?_getD, List.getElem?_eq_getElem hi, Option.getD_some]
  exact hp _ (List.getElem_mem _)

theorem assignedList_succ (a : List Int) (c N : Nat) :
    assignedList a c (N + 1)
      = assignedList a c N ++ (if a[N]? = some (c : Int) then [N] else []) := by
  simp only [assignedList, List.range_succ, List.filter_append, List.filter_cons,
    List.filter_nil]
  by_cases h : a[N]? = some (c : Int) <;> simp [h]

theorem countUpTo_eq_length (a : List Int) (c : Nat) :
    ∀ N, countUpTo a c N = ((assignedList a c N).length : Int) := by
  intro N
  induction N with
  | zero => simp [countUpTo, assignedList]
  | succ N ih =>
    rw [assignedList_succ]
    simp only [countUpTo]
    by_cases h : a[N]? = some (c : Int)
    · rw [if_pos h, if_pos h, ih]; simp
    · rw [if_neg h, if_neg h, ih]; simp

theorem assignedList_empty (a : List Int) (c N : Nat)
    (h : ∀ j, j < N → a[j]? ≠ some (c : Int)) : assignedList a c N = [] := by
  simp only [assignedList, List.filter_eq_nil_iff, List.mem_range, decide_eq_true_eq]
  exact h

theorem assignedList_nonempty (a : List Int) (c N : Nat)
    (h : ∃ j, j < N ∧ a[j]? = some (c : Int)) : 0 < (assignedList a c N).length := by
  obtain ⟨j, hj, e⟩ := h
  apply List.length_pos_of_mem (a := j)
  simp [assignedList, hj, e]

theorem mem_assignedList (a : List Int) (c N j : Nat) :
    j ∈ assignedList a c N ↔ j < N ∧ a[j]? = some (c : Int) := by
  simp [assignedList]

theorem floatSum_append_singleton {F : Type} [Zero F] [Add F] (l : List F) (x : F) :
    floatSum (l ++ [x]) = floatSum l + x := by
  simp [floatSum, List.foldl_append]

theorem sumUpTo_length {F : Type} [Zero F] [Add F]
    (DIM : Nat) (a : List Int) (pats : List (VectorType F))
    (hp : ∀ p ∈ pats, p.length = DIM) (c : Nat) :
    ∀ i, i ≤ pats.length → (sumUpTo DIM a pats c i).length = DIM := by
  intro i
  induction i with
  | zero => intro _; simp [sumUpTo, vzero]
  | succ i ih =>
    intro hi
    have h1 := ih (by omega)
    have h2 := pattern_length DIM pats hp i (by omega)
    simp only [sumUpTo]
    split
    · rw [vadd_length _ _ (by rw [h1, h2]), h1]
    · exact h1

/-- Entry `k` of the mean accumulator of component `c` after the first `i` patterns:
the entries `k` of its patterns, added up in the order of the data set. -/
theorem sumUpTo_vget {F : Type} [Zero F] [Add F]
    (DIM : Nat) (a : List Int) (pats : List (VectorType F))
    (hp : ∀ p ∈ pats, p.length = DIM) (c k : Nat) (hk : k < DIM) :
    ∀ i, i ≤ pats.length → vget (sumUpTo DIM a pats c i) k
      = floatSum ((assignedList a c i).map (fun j => vget (pats.getD j []) k)) := by
  intro i
  induction i with
  | zero => intro _; simp [sumUpTo, vget_vzero, assignedList, floatSum]
  | succ i ih =>
    intro hi
    have h1 := sumUpTo_length DIM a pats hp c i (by omega)
    have h2 := pattern_length DIM pats hp i (by omega)
    rw [assignedList_succ]
    simp only [sumUpTo]
    by_cases h : a[i]? = some (c : Int)
    · rw [if_pos h, if_pos h, vget_vadd _ _ k (by rw [h1]; exact hk) (by rw [h2]; exact hk),
        ih (by omega), List.map_append, List.map_singleton, floatSum_append_singleton]
    · rw [if_neg h, if_neg h, ih (by omega), List.append_nil]

theorem covUpTo_isMat {F : Type} [Zero F] [Add F] [Sub F] [Mul F]
    (DIM : Nat) (a : List Int) (pats : List (VectorType F))
    (hp : ∀ p ∈ pats, p.length = DIM) (mu : VectorType F) (hmu : mu.length = DIM) (c : Nat) :
    ∀ i, i ≤ pats.length → IsMat DIM (covUpTo DIM a pats mu c i) := by
  intro i
  induction i with
  | zero => intro _; exact isMat_mzero DIM
  | succ i ih =>
    intro hi
    have h2 := pattern_length DIM pats hp i (by omega)
    simp only [covUpTo]
    split
    · apply isMat_madd DIM _ _ (ih (by omega))
      have := isMat_outer (vsub (pats.getD i []) mu)
      rw [vsub_length _ _ (by rw [h2, hmu]), h2] at this
      exact this
    · exact ih (by omega)

/-- Entry `(r, s)` of the covariance accumulator of component `c` after the first `i`
patterns: the products `(p_r - mu_r) * (p_s - mu_s)` over its patterns `p`, added up in
the order of the data set. -/
theorem covUpTo_mget {F : Type} [Zero F] [Add F] [Sub F] [Mul F]
    (DIM : Nat) (a : List Int) (pats : List (VectorType F))
    (hp : ∀ p ∈ pats, p.length = DIM) (mu : VectorType F) (hmu : mu.length = DIM)
    (c r s : Nat) (hr : r < DIM) (hs : s < DIM) :
    ∀ i, i ≤ pats.length → mget (covUpTo DIM a pats mu c i) r s
      = floatSum ((assignedList a c i).map (fun j =>
          (vget (pats.getD j []) r - vget mu r) * (vget (pats.getD j []) s - vget mu s))) := by
  intro i
  induction i with
  | zero => intro _; simp [covUpTo, mget_mzero, assignedList, floatSum]
  | succ i ih =>
    intro hi
    have h2 := pattern_length DIM pats hp i (by omega)
    have hm := covUpTo_isMat DIM a pats hp mu hmu c i (by omega)
    have hvl : (vsub (pats.getD i []) mu).length = DIM := by
      rw [vsub_length _ _ (by rw [h2, hmu]), h2]
    have ho : IsMat DIM (outer (vsub (pats.getD i []) mu)) := by
      have := isMat_outer (vsub (pats.getD i []) mu)
      rw [hvl] at this
      exact this
    rw [assignedList_succ]
    simp only [covUpTo]
    by_cases h : a[i]? = some (c : Int)
    · rw [if_pos h, if_pos h, mget_madd DIM _ _ hm ho r s hr hs, ih (by omega),
        mget_outer _ r s (by rw [hvl]; exact hr) (by rw [hvl]; exact hs),
        vget_vsub _ _ r (by rw [h2]; exact hr) (by rw [hmu]; exact hr),
        vget_vsub _ _ s (by rw [h2]; exact hs) (by rw [hmu]; exact hs),
        List.map_append, List.map_singleton, floatSum_append_singleton]
    · rw [if_neg h, if_neg h, ih (by omega), List.append_nil]

/-! ## What `updateClusters` leaves in a component -/

theorem countUpTo_empty (a : List Int) (c N : Nat)
    (h : ∀ j, j < N → a[j]? ≠ some (c : Int)) : countUpTo a c N = 0 := by
  rw [countUpTo_eq_length, assignedList_empty a c N h]; rfl

theorem sumUpTo_empty {F : Type} [Zero F] [Add F] (DIM : Nat) (a : List Int)
    (pats : List (VectorType F)) (c : Nat) :
    ∀ i, (∀ j, j < i → a[j]? ≠ some (c : Int)) → sumUpTo DIM a pats c i = vzero DIM := by
  intro i
  induction i with
  | zero => intro _; rfl
  | succ i ih =>
    intro h
    simp only [sumUpTo, h i (by omega), if_false]
    exact ih (fun j hj => h j (by omega))

/-- C12. For every data set and every assignment buffer with entries in
`[0, numStates - 1]`, `updateClusters` returns, and every component to which no
pattern is assigned has the identity matrix as its covariance afterwards. -/
theorem updateClusters_empty_identity {F : Type} [Zero F] [One F] [Add F] [Sub F] [Mul F] [Div F]
    [IntCast F]
    (DIM : Nat)
    (m : GMM F) (hs : m.SizesAgree) (a : List Int) (pats : List (VectorType F))
    (ha : InRange m.num_states_ a pats.length) (c : Nat) (hc : (c : Int) < m.num_states_)
    (hempty : ∀ j, j < pats.length → a[j]? ≠ some (c : Int)) :
    ∃ m1 g, updateClusters DIM a pats m = some m1 ∧ m1.gaussians_[c]? = some g ∧
      g.covariance = midentity DIM := by
  obtain ⟨m1, e, _, _, _, _, hg⟩ := updateClusters_closed DIM m hs a pats ha
  have hcl : c < m.gaussians_.length := by have := hs.1; omega
  refine ⟨m1, _, e, hg c hcl, ?_⟩
  have h0 : countUpTo a c pats.length = 0 := countUpTo_empty a c _ hempty
  simp [newCov, h0]

/-- Witness for C12: all four patterns assigned to component 0 of `lineModel`. -/
theorem updateClusters_empty_identity_witness :
    ∃ m1 g, updateClusters 1 [0, 0, 0, 0] [[0], [1], [10], [11]] lineModel = some m1 ∧
      m1.gaussians_[1]? = some g ∧ g.covariance = midentity 1 :=
  updateClusters_empty_identity 1 lineModel (by decide) [0, 0, 0, 0]
    [[0], [1], [10], [11]]
    (by
      intro j hj
      simp only [List.length_cons, List.length_nil] at hj
      interval_cases j <;> simp [lineModel])
    1 (by decide)
    (by
      intro j hj
      simp only [List.length_cons, List.length_nil] at hj
      interval_cases j <;> simp)

/-- C16 (as amended). For every data set and every assignment buffer with entries in
`[0, numStates - 1]`, a component to which no pattern is assigned has the zero
vector as its mean after `updateClusters`, whatever its mean was before. -/
theorem updateClusters_empty_mean_zero {F : Type} [Zero F] [One F] [Add F] [Sub F] [Mul F] [Div F]
    [IntCast F]
    (DIM : Nat)
    (m : GMM F) (hs : m.SizesAgree) (a : List Int) (pats : List (VectorType F))
    (ha : InRange m.num_states_ a pats.length) (c : Nat) (hc : (c : Int) < m.num_states_)
    (hempty : ∀ j, j < pats.length → a[j]? ≠ some (c : Int)) :
    ∃ m1 g, updateClusters DIM a pats m = some m1 ∧ m1.gaussians_[c]? = some g ∧
      g.mean = vzero DIM := by
  obtain ⟨m1, e, _, _, _, _, hg⟩ := updateClusters_closed DIM m hs a pats ha
  have hcl : c < m.gaussians_.length := by have := hs.1; omega
  refine ⟨m1, _, e, hg c hcl, ?_⟩
  have h0 : countUpTo a c pats.length = 0 := countUpTo_empty a c _ hempty
  simp [newMean, h0, sumUpTo_empty DIM a pats c pats.length hempty]

/-- Witness for C16 (as amended): all four patterns assigned to component 0 of
`lineModel`. -/
theorem updateClusters_empty_mean_zero_witness :
    ∃ m1 g, updateClusters 1 [0, 0, 0, 0] [[0], [1], [10], [11]] lineModel = some m1 ∧
      m1.gaussians_[1]? = some g ∧ g.mean = vzero 1 :=
  updateClusters_empty_mean_zero 1 lineModel (by decide) [0, 0, 0, 0]
    [[0], [1], [10], [11]]
    (by
      intro j hj
      simp only [List.length_cons, List.length_nil] at hj
      interval_cases j <;> simp [lineModel])
    1 (by decide)
    (by
      intro j hj
      simp only [List.length_cons, List.length_nil] at hj
      interval_cases j <;> simp)

/-- C16 (counterexample). In `lineModel` component 1 has the mean `[10]`. With all
four patterns assigned to component 0, `updateClusters` leaves component 1, which
has no pattern, with the mean `[0]`: the mean it had before is not kept. -/
theorem updateClusters_empty_mean_not_kept :
    (updateClusters 1 [0, 0, 0, 0] [[0], [1], [10], [11]] lineModel).map
      (fun m1 => m1.gaussians_.map (fun g => g.mean)) = some [[11 / 2], [0]] ∧
    lineModel.gaussians_.map (fun g => g.mean) = [[0], [10]] ∧
    lineModel.SizesAgree ∧
    (∀ x ∈ ([0, 0, 0, 0] : List Int), 0 ≤ x ∧ x < lineModel.num_states_ ∧ x ≠ 1) := by
  refine ⟨by decide!, by decide!, by decide, by decide⟩

/-- The entries of the mean that `updateClusters` leaves in a component with at least
one pattern. -/
theorem newMean_entries {F : Type} [Zero F] [Add F] [Div F] [IntCast F] (DIM : Nat)
    (a : List Int) (pats : List (VectorType F)) (hp : ∀ p ∈ pats, p.length = DIM) (c : Nat)
    (hpos : 0 < (assignedList a c pats.length).length) (k : Nat) (hk : k < DIM) :
    vget (newMean DIM a pats c) k
      = floatSum ((assignedList a c pats.length).map (fun j => vget (pats.getD j []) k))
        / (((assignedList a c pats.length).length : Int) : F) := by
  have hcnt : countUpTo a c pats.length > 0 := by
    rw [countUpTo_eq_length]; exact_mod_cast hpos
  simp only [newMean, hcnt, if_true]
  rw [vget_vdiv _ _ k (by rw [sumUpTo_length DIM a pats hp c _ (le_refl _)]; exact hk),
    sumUpTo_vget DIM a pats hp c k hk _ (le_refl _), countUpTo_eq_length]

/-- C15 (as amended). For every data set of `DIM`-dimensional patterns and every
assignment buffer with entries in `[0, numStates - 1]`, `updateClusters` returns, and
every component `c` with at least one assigned pattern then has, with `S` the sequence
of its patterns in the order of the data set and `n` their number: as entry `k` of the
mean the sum of the entries `k` of the patterns in `S`, accumulated in that order
from zero in the arithmetic of `g_float`, divided by `n`; and as entry `(r, s)` of the
covariance the sum over `S`, accumulated likewise, of the products
`(p_r - mean_r) * (p_s - mean_s)`, divided by `n`, the mean being the newly computed
one.  Every `+`, `-`, `*`, `/` is the operation of the scalar type, which rounds and
overflows at `F := FP`. -/
theorem updateClusters_mean_and_covariance {F : Type} [Zero F] [One F] [Add F] [Sub F]
    [Mul F] [Div F] [IntCast F] (DIM : Nat)
    (m : GMM F) (hs : m.SizesAgree) (a : List Int) (pats : List (VectorType F))
    (hp : ∀ p ∈ pats, p.length = DIM) (ha : InRange m.num_states_ a pats.length)
    (c : Nat) (hc : (c : Int) < m.num_states_)
    (hne : ∃ j, j < pats.length ∧ a[j]? = some (c : Int)) :
    ∃ m1 g, updateClusters DIM a pats m = some m1 ∧ m1.gaussians_[c]? = some g ∧
      g.mean.length = DIM ∧
      (∀ k, k < DIM → vget g.mean k
        = floatSum ((assignedList a c pats.length).map (fun j => vget (pats.getD j []) k))
          / (((assignedList a c pats.length).length : Int) : F)) ∧
      IsMat DIM g.covariance ∧
      (∀ r s, r < DIM → s < DIM → mget g.covariance r s
        = floatSum ((assignedList a c pats.length).map (fun j =>
            (vget (pats.getD j []) r - vget g.mean r)
              * (vget (pats.getD j []) s - vget g.mean s)))
          / (((assignedList a c pats.length).length : Int) : F)) := by
  obtain ⟨m1, e, _, _, _, _, hg⟩ := updateClusters_closed DIM m hs a pats ha
  have hcl : c < m.gaussians_.length := by have := hs.1; omega
  have hpos := assignedList_nonempty a c pats.length hne
  have hcnt : countUpTo a c pats.length > 0 := by
    rw [countUpTo_eq_length]; exact_mod_cast hpos
  have hmean : newMean DIM a pats c
      = vdiv (sumUpTo DIM a pats c pats.length)
          (((assignedList a c pats.length).length : Int) : F) := by
    rw [← countUpTo_eq_length]; simp only [newMean, hcnt, if_true]
  have hmlen : (newMean DIM a pats c).length = DIM := by
    rw [hmean, vdiv_length, sumUpTo_length DIM a pats hp c _ (le_refl _)]
  have hcov : newCov DIM a pats c
      = mdiv (covUpTo DIM a pats (newMean DIM a pats c) c pats.length)
          (((assignedList a c pats.length).length : Int) : F) := by
    rw [← countUpTo_eq_length]; simp only [newCov, hcnt, if_true]
  have hcm := covUpTo_isMat DIM a pats hp _ hmlen c _ (le_refl pats.length)
  refine ⟨m1, _, e, hg c hcl, hmlen, ?_, ?_, ?_⟩
  · intro k hk
    exact newMean_entries DIM a pats hp c hpos k hk
  · show IsMat DIM (newCov DIM a pats c)
    rw [hcov]
    exact isMat_mdiv DIM _ _ hcm
  · intro r s hr hs
    show mget (newCov DIM a pats c) r s = _
    rw [hcov, mget_mdiv DIM _ _ hcm r s hr hs,
      covUpTo_mget DIM a pats hp _ hmlen c r s hr hs _ (le_refl _)]

/-- Witness for C15 (as amended): the `float` patterns `[0], [1]` assigned to component
0 and `[10], [11]` to component 1 of `lineModelFloat`. -/
theorem updateClusters_mean_and_covariance_witness :
    ∃ m1 g, updateClusters 1 [0, 0, 1, 1] [fpVec [0], fpVec [1], fpVec [10], fpVec [11]]
        lineModelFloat = some m1 ∧
      m1.gaussians_[1]? = some g ∧ g.mean.length = 1 ∧
      (∀ k, k < 1 → vget g.mean k
        = floatSum ((assignedList [0, 0, 1, 1] 1
              [fpVec [0], fpVec [1], fpVec [10], fpVec [11]].length).map
            (fun j => vget ([fpVec [0], fpVec [1], fpVec [10], fpVec [11]].getD j []) k))
          / (((assignedList [0, 0, 1, 1] 1
              [fpVec [0], fpVec [1], fpVec [10], fpVec [11]].length).length : Int) : FP)) ∧
      IsMat 1 g.covariance ∧
      (∀ r s, r < 1 → s < 1 → mget g.covariance r s
        = floatSum ((assignedList [0, 0, 1, 1] 1
              [fpVec [0], fpVec [1], fpVec [10], fpVec [11]].length).map
            (fun j =>
              (vget ([fpVec [0], fpVec [1], fpVec [10], fpVec [11]].getD j []) r
                  - vget g.mean r)
                * (vget ([fpVec [0], fpVec [1], fpVec [10], fpVec [11]].getD j []) s
                  - vget g.mean s)))
          / (((assignedList [0, 0, 1, 1] 1
              [fpVec [0], fpVec [1], fpVec [10], fpVec [11]].length).length : Int) : FP)) :=
  updateClusters_mean_and_covariance 1 lineModelFloat (by decide) [0, 0, 1, 1]
    [fpVec [0], fpVec [1], fpVec [10], fpVec [11]] (by decide)
    (by
      intro j hj
      simp only [List.length_cons, List.length_nil] at hj
      interval_cases j <;> simp [lineModelFloat])
    1 (by decide) ⟨2, by decide, by decide⟩

/-- C15 (counterexample). Three `float` patterns `2^127`, all assigned to the single
component of `originModel`: their arithmetic mean is `2^127`, a `float`, and their
covariance around it is `0`, but `updateClusters` leaves the mean `+inf` and the
covariance `+inf`, because the second addition overflows. -/
theorem updateClusters_overflows :
    (updateClusters 1 [0, 0, 0]
        [fpVec [170141183460469231731687303715884105728],
          fpVec [170141183460469231731687303715884105728],
          fpVec [170141183460469231731687303715884105728]] originModel).map
      (fun m1 => m1.gaussians_) = some [⟨[FP.pinf], [[FP.pinf]]⟩] ∧
    ((170141183460469231731687303715884105728 + 170141183460469231731687303715884105728
      + 170141183460469231731687303715884105728 : ℚ) / 3
        = 170141183460469231731687303715884105728) ∧
    roundTo binary32 170141183460469231731687303715884105728
      = FP.fin 170141183460469231731687303715884105728 ∧
    originModel.SizesAgree ∧
    (∀ x ∈ ([0, 0, 0] : List Int), 0 ≤ x ∧ x < originModel.num_states_) := by
  refine ⟨by decide!, by norm_num, by decide!, by decide, by decide⟩

/-! ## The number of assignment rounds of `initKmeans` -/

theorem kmeansLoopReports_fst {F : Type} [Zero F] [One F] [Add F] [Sub F] [Mul F] [Div F] [LT F]
    [DecidableRel (fun a b : F => a < b)] [NatCast F] [IntCast F]
    (DIM : Nat)
    (data : List (VectorType F)) :
    ∀ (fuel : Nat) (st : KmeansState F),
      (kmeansLoopReports DIM data fuel st).map (fun r => r.1)
        = kmeansLoop DIM data fuel st := by
  intro fuel
  induction fuel with
  | zero => intro st; rfl
  | succ fuel ih =>
    intro st
    simp only [kmeansLoopReports, kmeansLoop]
    cases kmeansStep DIM data st with
    | none => rfl
    | some st1 =>
      simp only []
      by_cases hc : st1.changed = false
      · simp only [hc, if_true, Option.map_some']
      · rw [if_neg hc, if_neg hc, ← ih]
        cases kmeansLoopReports DIM data fuel { st1 with iter := st1.iter + 1 } with
        | none => rfl
        | some r => rfl

theorem initKmeansReports_fst {F : Type} [Zero F] [One F] [Add F] [Sub F] [Mul F] [Div F] [LT F]
    [DecidableRel (fun a b : F => a < b)] [NatCast F] [IntCast F]
    (DIM : Nat)
    (rnd : Nat → Nat) (data : List (VectorType F)) (max_iter : Int) (m : GMM F) :
    (initKmeansReports DIM rnd data max_iter m).map (fun r => r.1)
      = initKmeansRun DIM rnd data max_iter m := by
  simp only [initKmeansReports, initKmeansRun]
  cases initRandom rnd data m with
  | none => rfl
  | some m0 =>
    simp only []
    cases cluster m0 (List.replicate data.length 0) (List.replicate data.length (-1))
        data with
    | none => rfl
    | some r => exact kmeansLoopReports_fst DIM data _ _

theorem kmeansLoopReports_spec {F : Type} [Zero F] [One F] [Add F] [Sub F] [Mul F] [Div F] [LT F]
    [DecidableRel (fun a b : F => a < b)] [NatCast F] [IntCast F]
    (DIM : Nat)
    (data : List (VectorType F)) (n : Int) (hn : 1 ≤ n) :
    ∀ (fuel : Nat) (st : KmeansState F), KmeansInv n data.length st →
      ∃ st1 reports, kmeansLoopReports DIM data fuel st = some (st1, reports) ∧
        reports.length ≤ fuel ∧
        (∀ i, i + 1 < reports.length → reports[i]? = some true) ∧
        (reports.length < fuel → reports.getLast? = some false) := by
  intro fuel
  induction fuel with
  | zero =>
    intro st _
    exact ⟨st, [], rfl, le_refl _, by intro i hi; simp at hi, by intro h; simp at h⟩
  | succ fuel ih =>
    intro st h
    obtain ⟨st1, e1, h1⟩ := kmeansStep_inv DIM data n hn st h
    by_cases hc : st1.changed = false
    · refine ⟨st1, [false], by simp only [kmeansLoopReports, e1, hc, if_true], by simp,
        by intro i hi; simp at hi, by intro _; rfl⟩
    · obtain ⟨st2, rs, e2, hlen, htrue, hlast⟩ := ih _ h1
      refine ⟨st2, true :: rs, ?_, by simp; omega, ?_, ?_⟩
      · simp only [kmeansLoopReports, e1]
        rw [if_neg hc, e2]
      · intro i hi
        cases i with
        | zero => simp
        | succ i =>
          simp only [List.length_cons] at hi
          simpa using htrue i (by omega)
      · intro hlt
        simp only [List.length_cons] at hlt
        have := hlast (by omega)
        cases rs with
        | nil => simp at this
        | cons r rs => simpa [List.getLast?_cons_cons] using this

/-- C17 (as amended). For every non-empty data set, every model with at least one
state whose containers have `num_states_` entries, and every `max_iter`, `initKmeans`
runs to completion.  With `reports` the values of `changed` that the assignment
rounds after the first report, the run makes `reports.length + 1` calls of
`cluster`, which is at most `max(max_iter, 1)`; every report but the last is true,
so the loop stops at the first round that reports no change; and the run makes fewer
than `max_iter` rounds only if its last round, a round after the first, reported no
change. -/
theorem initKmeans_rounds {F : Type} [Zero F] [One F] [Add F] [Sub F] [Mul F] [Div F] [LT F]
    [DecidableRel (fun a b : F => a < b)] [NatCast F] [IntCast F]
    (DIM : Nat) (m : GMM F)
    (hs : m.SizesAgree) (rnd : Nat → Nat) (data : List (VectorType F)) (hd : data ≠ [])
    (hn : 1 ≤ m.num_states_) (max_iter : Int) :
    ∃ st reports, initKmeansReports DIM rnd data max_iter m = some (st, reports) ∧
      initKmeans DIM rnd data max_iter m = some { st.model with initialized_ := true } ∧
      ((reports.length : Int) + 1 ≤ max max_iter 1) ∧
      (∀ i, i + 1 < reports.length → reports[i]? = some true) ∧
      ((reports.length : Int) + 1 < max_iter → reports.getLast? = some false) := by
  obtain ⟨m0, e0, hs0, hn0⟩ := initRandom_sizes m hs rnd data hd
  have hg : (m0.gaussians_.length : Int) = m.num_states_ := by rw [hs0.1, hn0]
  obtain ⟨d, a1, ch, e1, hla, hra⟩ := cluster_inRange m0 (List.replicate data.length 0)
    (List.replicate data.length (-1)) data (by simp) (by simp) (by omega)
  obtain ⟨st1, rs, e2, hlen, htrue, hlast⟩ := kmeansLoopReports_spec DIM data
    m.num_states_ hn (max_iter - 1).toNat
    { model := m0, assignments := a1, assignments2 := List.replicate data.length (-1),
      changed := true, iter := 1 }
    ⟨hs0, hn0, by rw [hla]; simp, by simp, by
      show (if 1 % 2 = 0 then _ else InRange m.num_states_ a1 data.length)
      rw [if_neg (by decide), ← hg]; exact hra⟩
  have hrep : initKmeansReports DIM rnd data max_iter m = some (st1, rs) := by
    simp only [initKmeansReports, e0, e1, e2]
  refine ⟨st1, rs, hrep, ?_, ?_, htrue, ?_⟩
  · have := initKmeansReports_fst DIM rnd data max_iter m
    rw [hrep] at this
    simp only [Option.map_some'] at this
    simp only [initKmeans, ← this, Option.map_some']
  · rcases le_total max_iter 1 with h | h
    · have : (max_iter - 1).toNat = 0 := by omega
      rw [this] at hlen
      rw [max_eq_right h]; omega
    · rw [max_eq_left h]; omega
  · intro hlt
    exact hlast (by omega)

/-- Witness for C17 (as amended): `fourPoints`, seeds 0 and 2, `max_iter = 10`. -/
theorem initKmeans_rounds_witness :
    ∃ st reports,
      initKmeansReports 2 (seedRnd 0 2) fourPoints 10 twoStateModel = some (st, reports) ∧
      initKmeans 2 (seedRnd 0 2) fourPoints 10 twoStateModel
        = some { st.model with initialized_ := true } ∧
      ((reports.length : Int) + 1 ≤ max 10 1) ∧
      (∀ i, i + 1 < reports.length → reports[i]? = some true) ∧
      ((reports.length : Int) + 1 < 10 → reports.getLast? = some false) :=
  initKmeans_rounds 2 twoStateModel (by decide) (seedRnd 0 2) fourPoints (by decide)
    (by decide) 10

/-- C17 (counterexample). On `fourPoints` with seeds 0 and 2: with `max_iter = 0` the
run still makes one call of `cluster`, more than `max_iter`; with `max_iter = 2` the
second round reports no change, yet the run has made two rounds, so it did not stop
before reaching `max_iter` rounds; and on an empty data set the run has no defined
result at all (`rand() % 0`). -/
theorem maxIter_does_not_bound_rounds :
    (initKmeansReports 2 (seedRnd 0 2) fourPoints 0 twoStateModel).map
      (fun r => r.2.length + 1) = some 1 ∧
    (initKmeansReports 2 (seedRnd 0 2) fourPoints 2 twoStateModel).map
      (fun r => (r.2, r.2.length + 1)) = some ([false], 2) ∧
    initKmeans 2 (seedRnd 0 2) [] 10 twoStateModel = none := by
  refine ⟨by decide!, by decide!, by decide!⟩

/-! ## The state in which `initKmeans` leaves its loop by `break` -/

theorem kmeansStep_facts {F : Type} [Zero F] [One F] [Add F] [Sub F] [Mul F] [Div F] [LT F]
    [DecidableRel (fun a b : F => a < b)] [NatCast F] [IntCast F]
    (DIM : Nat)
    (data : List (VectorType F)) (st st1 : KmeansState F)
    (h : kmeansStep DIM data st = some st1) :
    st1.iter = st.iter ∧ st1.source = st.source ∧
    updateClusters DIM st.source data st.model = some st1.model ∧
    ∃ d, cluster st1.model st.target st.source data = some (d, st1.target, st1.changed) := by
  unfold kmeansStep at h
  by_cases hpar : st.iter % 2 = 0
  · simp only [hpar, if_true] at h
    cases hu : updateClusters DIM st.assignments2 data st.model with
    | none => simp [hu] at h
    | some m1 =>
      simp only [hu] at h
      cases hc : cluster m1 st.assignments st.assignments2 data with
      | none => simp [hc] at h
      | some r =>
        obtain ⟨d, a, ch⟩ := r
        simp only [hc, Option.some.injEq] at h
        subst h
        simp only [KmeansState.source, KmeansState.target, hpar, if_true]
        exact ⟨trivial, trivial, hu, d, hc⟩
  · simp only [hpar, if_false] at h
    cases hu : updateClusters DIM st.assignments data st.model with
    | none => simp [hu] at h
    | some m1 =>
      simp only [hu] at h
      cases hc : cluster m1 st.assignments2 st.assignments data with
      | none => simp [hc] at h
      | some r =>
        obtain ⟨d, a, ch⟩ := r
        simp only [hc, Option.some.injEq] at h
        subst h
        simp only [KmeansState.source, KmeansState.target, hpar, if_false]
        exact ⟨trivial, trivial, hu, d, hc⟩

theorem kmeansLoop_break {F : Type} [Zero F] [One F] [Add F] [Sub F] [Mul F] [Div F] [LT F]
    [DecidableRel (fun a b : F => a < b)] [NatCast F] [IntCast F]
    (DIM : Nat)
    (data : List (VectorType F)) (n : Int) (hn : 1 ≤ n) :
    ∀ (fuel : Nat) (st st1 : KmeansState F), KmeansInv n data.length st →
      st.changed = true → kmeansLoop DIM data fuel st = some st1 → st1.changed = false →
      ∃ st0, KmeansInv n data.length st0 ∧ kmeansStep DIM data st0 = some st1 := by
  intro fuel
  induction fuel with
  | zero =>
    intro st st1 _ hc h hc1
    simp only [kmeansLoop, Option.some.injEq] at h
    rw [← h, hc] at hc1
    exact absurd hc1 (by decide)
  | succ fuel ih =>
    intro st st1 hinv _ h hc1
    obtain ⟨st2, e2, h2⟩ := kmeansStep_inv DIM data n hn st hinv
    simp only [kmeansLoop, e2] at h
    by_cases hch : st2.changed = false
    · simp only [hch, if_true, Option.some.injEq] at h
      exact ⟨st, hinv, by rw [e2, h]⟩
    · rw [if_neg hch] at h
      exact ih _ st1 h2 (by simpa using hch) h hc1

theorem initKmeansRun_break {F : Type} [Zero F] [One F] [Add F] [Sub F] [Mul F] [Div F] [LT F]
    [DecidableRel (fun a b : F => a < b)] [NatCast F] [IntCast F]
    (DIM : Nat) (m : GMM F)
    (hs : m.SizesAgree) (rnd : Nat → Nat) (data : List (VectorType F)) (hd : data ≠ [])
    (hn : 1 ≤ m.num_states_) (max_iter : Int) (st : KmeansState F)
    (hrun : initKmeansRun DIM rnd data max_iter m = some st) (hch : st.changed = false) :
    ∃ st0, KmeansInv m.num_states_ data.length st0 ∧
      kmeansStep DIM data st0 = some st := by
  obtain ⟨m0, e0, hs0, hn0⟩ := initRandom_sizes m hs rnd data hd
  have hg : (m0.gaussians_.length : Int) = m.num_states_ := by rw [hs0.1, hn0]
  obtain ⟨d, a1, ch, e1, hla, hra⟩ := cluster_inRange m0 (List.replicate data.length 0)
    (List.replicate data.length (-1)) data (by simp) (by simp) (by omega)
  simp only [initKmeansRun, e0, e1] at hrun
  exact kmeansLoop_break DIM data m.num_states_ hn _ _ st
    ⟨hs0, hn0, by rw [hla]; simp, by simp, by
      show (if 1 % 2 = 0 then _ else InRange m.num_states_ a1 data.length)
      rw [if_neg (by decide), ← hg]; exact hra⟩
    rfl hrun hch

/-- C20 (as amended). Let `initKmeans`, on a non-empty data set of `DIM`-dimensional
`float` patterns and a model with at least one state whose containers have
`num_states_` entries, leave its loop in the state `st` because an assignment round
reported no change, and let every pattern have some final mean at a computed squared
distance below `GFLOAT_MAX`.  Then the final model is a fixed point of the two steps
as the code computes them: it is the result of `updateClusters` on the assignment
`st.source`; that assignment gives every pattern the final mean that is nearest by
the squared distance computed in `float`, the first on ties, so a pattern is assigned
to component `c` exactly when `c` is its first nearest component; and every component
with at least one assigned pattern has as mean the `float` sum of exactly those
patterns, accumulated in the order of the data set, divided by their number. -/
theorem initKmeans_fixed_point (DIM : Nat) (m : GMM FP)
    (hs : m.SizesAgree) (rnd : Nat → Nat) (data : List (VectorType FP)) (hd : data ≠ [])
    (hp : ∀ p ∈ data, p.length = DIM) (hn : 1 ≤ m.num_states_) (max_iter : Int)
    (st : KmeansState FP) (hrun : initKmeansRun DIM rnd data max_iter m = some st)
    (hch : st.changed = false)
    (hnear : ∀ p ∈ data, ∃ g ∈ st.model.gaussians_, sqDist p g < GFLOAT_MAX) :
    (∃ m0 : GMM FP, m0.SizesAgree ∧ updateClusters DIM st.source data m0 = some st.model) ∧
    (∀ (i : Nat) (p : VectorType FP), data[i]? = some p →
      ∃ k : Nat, st.source[i]? = some (k : Int) ∧
        IsFirstNearest st.model.gaussians_ p k) ∧
    (∀ (j c : Nat), j < data.length →
      (j ∈ assignedList st.source c data.length ↔
        IsFirstNearest st.model.gaussians_ (data.getD j []) c)) ∧
    (∀ (c : Nat) (g : Gaussian FP), st.model.gaussians_[c]? = some g →
      0 < (assignedList st.source c data.length).length →
      ∀ k, k < DIM → vget g.mean k
        = floatSum ((assignedList st.source c data.length).map
            (fun j => vget (data.getD j []) k))
          / (((assignedList st.source c data.length).length : Int) : FP)) := by
  obtain ⟨st0, hinv, hstep⟩ := initKmeansRun_break DIM m hs rnd data hd hn max_iter st
    hrun hch
  obtain ⟨_, hsrc, hupd, d, hcl⟩ := kmeansStep_facts DIM data st0 st hstep
  obtain ⟨hs0, hn0, hl1, hl2, hr⟩ := hinv
  have hr0 : InRange st0.model.num_states_ st0.source data.length := by
    rw [hn0]
    unfold KmeansState.source
    split
    · rename_i h; rw [if_pos h] at hr; exact hr
    · rename_i h; rw [if_neg h] at hr; exact hr
  obtain ⟨m1, e1, _, _, _, hlen, hg⟩ := updateClusters_closed DIM st0.model hs0 st0.source
    data hr0
  rw [hupd] at e1
  simp only [Option.some.injEq] at e1
  subst e1
  rw [hch] at hcl
  obtain ⟨_, _, _, _, _, hchg⟩ := cluster_unfold st.model st0.target st0.source st.target
    data d false hcl
  have hagree := changedLoop_false_agree st.target st0.source data.length 0 hchg
  have hentry : ∀ (i : Nat) (p : VectorType FP), data[i]? = some p →
      ∃ k : Nat, st.source[i]? = some (k : Int) ∧
        IsFirstNearest st.model.gaussians_ p k := by
    intro i p hpi
    have hi : i < data.length := (List.getElem?_eq_some.mp hpi).1
    obtain ⟨k, g, hk, _, hfirst, _⟩ := cluster_entry st.model st0.target st0.source
      st.target data d false hcl hnear i p hpi
    obtain ⟨v, hv1, hv2⟩ := hagree i (Nat.zero_le i) (by omega)
    refine ⟨k, ?_, hfirst⟩
    rw [hsrc, hv2, ← hv1, hk]
  refine ⟨⟨st0.model, hs0, by rw [hsrc]; exact hupd⟩, hentry, ?_, ?_⟩
  · intro j c hj
    have hdj : data.getD j [] = data[j] := by
      rw [List.getD_eq_getElem?_getD, List.getElem?_eq_getElem hj, Option.getD_some]
    obtain ⟨k, hk, hfirst⟩ := hentry j data[j] (List.getElem?_eq_getElem hj)
    rw [hdj, mem_assignedList]
    simp only [hj, true_and, hk, Option.some.injEq, Nat.cast_inj]
    constructor
    · intro h; rw [← h]; exact hfirst
    · intro h; exact isFirstNearest_unique _ _ k c hfirst h
  · intro c g hgc hpos k hk
    have hc : c < st0.model.gaussians_.length := by
      rw [← hlen]; exact (List.getElem?_eq_some.mp hgc).1
    have := hg c hc
    rw [hgc] at this
    simp only [Option.some.injEq] at this
    rw [this, hsrc]
    rw [hsrc] at hpos
    exact newMean_entries DIM st0.source data hp c hpos k hk

/-- Witness for C20 (as amended): `fourPointsFloat` with the seeds 0 and 2, which
leaves the loop in `fourPointsFinalFloat`. -/
theorem initKmeans_fixed_point_witness :
    (∃ m0 : GMM FP, m0.SizesAgree ∧
      updateClusters 2 fourPointsFinalFloat.source fourPointsFloat m0
        = some fourPointsFinalFloat.model) ∧
    (∀ (i : Nat) (p : VectorType FP), fourPointsFloat[i]? = some p →
      ∃ k : Nat, fourPointsFinalFloat.source[i]? = some (k : Int) ∧
        IsFirstNearest fourPointsFinalFloat.model.gaussians_ p k) ∧
    (∀ (j c : Nat), j < fourPointsFloat.length →
      (j ∈ assignedList fourPointsFinalFloat.source c fourPointsFloat.length ↔
        IsFirstNearest fourPointsFinalFloat.model.gaussians_
          (fourPointsFloat.getD j []) c)) ∧
    (∀ (c : Nat) (g : Gaussian FP), fourPointsFinalFloat.model.gaussians_[c]? = some g →
      0 < (assignedList fourPointsFinalFloat.source c fourPointsFloat.length).length →
      ∀ k, k < 2 → vget g.mean k
        = floatSum ((assignedList fourPointsFinalFloat.source c fourPointsFloat.length).map
            (fun j => vget (fourPointsFloat.getD j []) k))
          / (((assignedList fourPointsFinalFloat.source c
              fourPointsFloat.length).length : Int) : FP)) :=
  initKmeans_fixed_point 2 twoStateModelFloat (by decide) (seedRnd 0 2) fourPointsFloat
    (by decide) (by decide) (by decide) 10 fourPointsFinalFloat (by decide!) rfl
    (by decide!)

/-- C20 (counterexample). On `farPointsFloat` (dimension 1, `lineModelFloat`,
component 0 seeded with pattern 1 and component 1 with pattern 0) `initKmeans` leaves
its loop at `iter = 1` because the round reported no change, with the means `[2^63]`
and `[3 * 2^64]` computed from the assignment `[1, 0, 0, 0, 0]`.  The last pattern,
`[2^65]`, is assigned to component 0, yet it is strictly nearer to the mean of
component 1: both of its squared distances overflow to `+inf` in `float`, so no
comparison with the sentinel succeeds and the scan of `cluster` keeps the `best_idx`
of the pattern before it.  Assigning every pattern to its nearest final mean
therefore does not reproduce the assignment. -/
theorem initKmeans_break_not_nearest :
    (initKmeansRun 1 (seedRnd 1 0) farPointsFloat 10 lineModelFloat).map
      (fun st => (st.changed, st.iter, st.source, st.model.gaussians_.map (fun g => g.mean)))
      = some (false, 1, [1, 0, 0, 0, 0],
          [fpVec [9223372036854775808], fpVec [55340232221128654848]]) ∧
    farPointsFloat[4]? = some (fpVec [36893488147419103232]) ∧
    ((36893488147419103232 : ℚ) - 55340232221128654848) ^ 2
      < ((36893488147419103232 : ℚ) - 9223372036854775808) ^ 2 ∧
    sqDist (fpVec [36893488147419103232]) ⟨fpVec [55340232221128654848], []⟩ = FP.pinf ∧
    sqDist (fpVec [36893488147419103232]) ⟨fpVec [9223372036854775808], []⟩ = FP.pinf ∧
    ¬ (FP.pinf < (GFLOAT_MAX : FP)) ∧
    lineModelFloat.SizesAgree ∧ 1 ≤ lineModelFloat.num_states_ := by
  refine ⟨by decide!, by decide!, by norm_num, by decide!, by decide!, by decide!,
    by decide, by decide⟩

end gmm
